import Mathlib

/-!
# Bill consolidation and archival engine of `server.js`

A shallow embedding of the order, bill and archive routes of `src/server.js`
(`POST`, `PATCH` and `DELETE /api/orders`, `POST` and `GET /api/bills`,
`POST /api/archive-bills`, `GET` and `DELETE /api/archived-bills`), of the
event stream `GET /api/events` with `sendSse`, and of the helpers they call;
and of the cart functions and `renderTotals` of `src/script.js` and the
per-order estimate of `src/admin.js`.

Modelling conventions.

* JavaScript numbers are IEEE 754 binary64 values.  A number is carried as
  the rational it denotes (`ℚ`), and `toNumber x` is the binary64 value nearest
  to the rational `x`, ties to the even mantissa.  The arithmetic of the totals
  of a bill and of the two estimates (the sum over the orders, the products
  with the rates, the sum of the grand total) rounds each result with
  `toNumber`; `Number.prototype.toFixed` rounds the exact value of its receiver
  half up on the magnitude, and the unary plus reads the text back with
  `toNumber`.  `Infinity` and `NaN` are outside the model.  The sum of
  `price * quantity` over the items of one order, in `POST /api/orders` and in
  `renderTotals`, is kept exact.
* JavaScript strings are Lean strings.  The functions on them work on the list
  of characters so that they evaluate by structural recursion.
* The SQLite tables are lists of rows in storage order.  A `TEXT` column that
  holds JSON is kept as the value that `JSON.parse` reads back from it.
  Comparison of `TEXT` values is the binary collation: lexicographic on code
  points.  `id TEXT PRIMARY KEY` makes an `INSERT` of a present id throw.
* Every statement runs in autocommit mode: the source never opens a
  transaction, so the rows written before an exception stay written.
* Clock readings (`Date.now()`, `new Date()`) are inputs of the handlers, and
  so is the engine's date parser `new Date(string)`.
* A handler returns the events it passes to `sendSse`, in order; the registry
  of observers and the calls of `res.write` are modelled apart from the
  database, with the set of observers whose `res.write` throws as an input.
-/

namespace Scanformenu

/-! ## Strings -/

/-- White space in the sense of `String.prototype.trim` and of the regular
expression class `\s`: the ECMAScript WhiteSpace and LineTerminator code
points. -/
def isJsSpace (c : Char) : Bool :=
  let n := c.toNat
  n == 0x09 || n == 0x0A || n == 0x0B || n == 0x0C || n == 0x0D || n == 0x20 ||
  n == 0xA0 || n == 0x1680 || (0x2000 ≤ n && n ≤ 0x200A) || n == 0x2028 ||
  n == 0x2029 || n == 0x202F || n == 0x205F || n == 0x3000 || n == 0xFEFF

/-- The characters of `s.trim()`. -/
def trimChars (l : List Char) : List Char :=
  ((l.dropWhile isJsSpace).reverse.dropWhile isJsSpace).reverse

/-- The characters of `s.replace(/\s+/g, ' ')`: every maximal run of white
space becomes one space.  The flag tells whether the previous character was
white space, that is, whether the run has already been replaced. -/
def collapseFrom : Bool → List Char → List Char
  | _, [] => []
  | inRun, c :: cs =>
    if isJsSpace c then
      if inRun then collapseFrom true cs else ' ' :: collapseFrom true cs
    else c :: collapseFrom false cs

/-- The characters of `s.replace(/\s+/g, ' ')`. -/
def collapseChars (l : List Char) : List Char := collapseFrom false l

/-- The characters of `s.toLowerCase()`.  Only the ASCII letters are mapped;
the one use in the source is the test `startsWith('table ')`, and no code
point outside ASCII lower-cases to one of the six characters of that text. -/
def lowerChars (l : List Char) : List Char := l.map Char.toLower

/-- The test `table.toLowerCase().startsWith('table ')`. -/
def startsWithTable (l : List Char) : Bool :=
  "table ".data.isPrefixOf (lowerChars l)

/-- The characters of `normalizedTable` computed by `POST /api/bills` from the
characters of `req.body.table`. -/
def normalizeChars (raw : List Char) : List Char :=
  let table := trimChars raw
  if startsWithTable table then trimChars (collapseChars table)
  else "Table ".data ++ table

/-- The value of `normalizedTable` in `POST /api/bills`. -/
def normalizeTable (raw : String) : String := ⟨normalizeChars raw.data⟩

/-- JavaScript truthiness of a request field that is absent (`none`) or a
string: only a present, non-empty string is truthy. -/
def truthy : Option String → Bool
  | none => false
  | some s => !s.data.isEmpty

/-- Binary collation of SQLite on `TEXT`: `a <= b`. -/
def textLe (a b : String) : Bool := decide (a.data ≤ b.data)

/-- The SQL condition `x BETWEEN lo AND hi` on a `TEXT` column that may hold
`NULL`; a `NULL` never satisfies it. -/
def between (lo hi : String) : Option String → Bool
  | none => false
  | some x => textLe lo x && textLe x hi

/-! ## Numbers -/

/-- The integer nearest to `x`; of two nearest integers, the even one. -/
def roundHalfEven (x : ℚ) : ℤ :=
  let f := ⌊x⌋
  if x - f < 1 / 2 then f
  else if 1 / 2 < x - f then f + 1
  else if f % 2 = 0 then f else f + 1

/-- The binary64 value nearest to a rational `x` that is not negative.  With
`e` the exponent of the leading bit of `x`, and the exponent -1022 of the
smallest normal number when `x` lies below it, the mantissa is `x / 2^(e - 52)`
rounded to an integer, ties to even.  A value of `2^1024` or more, which the
engine replaces by `Infinity`, is outside the model. -/
def nearestDouble (x : ℚ) : ℚ :=
  let e := max (Int.log 2 x) (-1022)
  (roundHalfEven (x / 2 ^ (e - 52)) : ℚ) * 2 ^ (e - 52)

/-- The Number value for `x`: the binary64 value nearest to `x`, ties to the
even mantissa.  It is the value of a numeric literal or of a numeric text
whose decimal value is `x`, and the result of an arithmetic operator whose
exact result is `x`. -/
def toNumber (x : ℚ) : ℚ := if x < 0 then -nearestDouble (-x) else nearestDouble x

/-- The product `x * y` of two numbers. -/
def numMul (x y : ℚ) : ℚ := toNumber (x * y)

/-- The sum `x + y` of two numbers.  A sum with 0 is the other operand, as in
binary64 arithmetic. -/
def numAdd (x y : ℚ) : ℚ := if x = 0 then y else if y = 0 then x else toNumber (x + y)

/-- The constant `TAX_RATE = 0.05`. -/
def TAX_RATE : ℚ := toNumber (5 / 100)

/-- The constant `SERVICE_RATE = 0.10`. -/
def SERVICE_RATE : ℚ := toNumber (10 / 100)

/-- The number `+(x).toFixed(2)`.  `toFixed` returns the plain decimal text of
`x` when its magnitude is at least `10^21`; otherwise it picks the integer `n`
with `n / 100` nearest to the magnitude of the exact value of `x`, the larger
one on a tie, and keeps the sign.  The unary plus reads the text back as the
nearest number. -/
def toFixed2 (x : ℚ) : ℚ :=
  if x ≤ -1000000000000000000000 ∨ 1000000000000000000000 ≤ x then x
  else if x < 0 then toNumber (-((⌊-x * 100 + 1 / 2⌋ : ℤ) : ℚ) / 100)
  else toNumber (((⌊x * 100 + 1 / 2⌋ : ℤ) : ℚ) / 100)

/-- The JavaScript expression `x || 0` on a number that is not `NaN`. -/
def orZero (x : ℚ) : ℚ := if x = 0 then 0 else x

/-! ## Rows -/

/-- One line item of an order, as stored in `items_json`. -/
structure Item where
  name : String
  price : ℚ
  quantity : ℚ
  orderType : Option String
  deriving DecidableEq

/-- A row of the table `orders`. -/
structure OrderRow where
  id : String
  table_name : String
  items : List Item
  total_price : ℚ
  time : String
  status : String
  deriving DecidableEq

/-- An element of `bill.orders`: the copy of an order kept in `orders_json`. -/
structure OrderSnapshot where
  id : String
  items : List Item
  totalPrice : ℚ
  time : String
  deriving DecidableEq

/-- The object `bill.totals`. -/
structure Totals where
  subtotal : ℚ
  tax : ℚ
  service : ℚ
  grandTotal : ℚ
  deriving DecidableEq

/-- A row of the table `bills`.  The columns `paid_at_iso` and `totals_json`
were added by `ALTER TABLE` and are `NULL` on rows older than that. -/
structure BillRow where
  id : String
  table_name : String
  orders : List OrderSnapshot
  total_amount : ℚ
  paid_at : String
  paid_at_iso : Option String
  totals : Option Totals
  deriving DecidableEq

/-- A row of the table `archived_bills`. -/
structure ArchivedRow where
  id : String
  table_name : String
  orders : List OrderSnapshot
  total_amount : ℚ
  paid_at : String
  paid_at_iso : Option String
  totals : Option Totals
  archived_at : String
  deriving DecidableEq

/-- The three tables of `data.db` that the billing routes touch. -/
structure Db where
  orders : List OrderRow
  bills : List BillRow
  archived : List ArchivedRow
  deriving DecidableEq

/-- The `type` of the payloads passed to `sendSse`. -/
inductive EventType where
  | orders_updated
  | bills_updated
  | archived_bills_updated
  | menu_updated
  deriving DecidableEq, Repr

/-! ## Dates -/

/-- The decimal digit character of `d % 10`. -/
def digitChar (d : Nat) : Char := Char.ofNat (48 + d % 10)

/-- The last `w` decimal digits of `n`, zero padded. -/
def padDigits : Nat → Nat → List Char
  | 0, _ => []
  | w + 1, n => padDigits w (n / 10) ++ [digitChar n]

/-- Year, month and day of the proleptic Gregorian calendar for a day number
counted from 1970-01-01 (the ECMAScript `YearFromTime`, `MonthFromTime`,
`DateFromTime` of a time value, with months counted from 1). -/
def civilFromDays (z0 : Int) : Int × Nat × Nat :=
  let z := z0 + 719468
  let era := z / 146097
  let doe := (z % 146097).toNat
  let yoe := (doe - doe / 1460 + doe / 36524 - doe / 146096) / 365
  let doy := doe - (365 * yoe + yoe / 4 - yoe / 100)
  let mp := (5 * doy + 2) / 153
  let d := doy - (153 * mp + 2) / 5 + 1
  let m := if mp < 10 then mp + 3 else mp - 9
  let y := (yoe : Int) + era * 400
  (if m ≤ 2 then y + 1 else y, m, d)

/-- Day number counted from 1970-01-01 of a calendar day (the ECMAScript
`MakeDay`). -/
def daysFromCivil (y : Int) (m d : Nat) : Int :=
  let y1 := if m ≤ 2 then y - 1 else y
  let era := y1 / 400
  let yoe := (y1 % 400).toNat
  let mp := if 2 < m then m - 3 else m + 9
  let doy := (153 * mp + 2) / 5 + d - 1
  let doe := yoe * 365 + yoe / 4 - yoe / 100 + doy
  era * 146097 + (doe : Int) - 719468

/-- Milliseconds in a day. -/
def msPerDay : Int := 86400000

/-- The text of `Date.prototype.toISOString` for a valid time value `t`
(milliseconds since the epoch, UTC): `YYYY-MM-DDTHH:mm:ss.sssZ`, the year with
a sign and six digits outside `0..9999`. -/
def toISOString (t : Int) : String :=
  let (y, m, d) := civilFromDays (t / msPerDay)
  let ms := (t % msPerDay).toNat
  let year :=
    if 0 ≤ y ∧ y ≤ 9999 then padDigits 4 y.toNat
    else (if y < 0 then '-' else '+') :: padDigits 6 y.natAbs
  ⟨year ++ '-' :: padDigits 2 m ++ '-' :: padDigits 2 d ++ 'T' ::
    padDigits 2 (ms / 3600000) ++ ':' :: padDigits 2 (ms / 60000 % 60) ++ ':' ::
    padDigits 2 (ms / 1000 % 60) ++ '.' :: padDigits 3 (ms % 1000) ++ ['Z']⟩

/-- The engine's `new Date(string)`: the time value in milliseconds, `none`
for an Invalid Date.  Outside the ISO format the result is left to the engine,
so the handlers take the parser as an argument. -/
abbrev DateParser := String → Option Int

/-- The value of a decimal digit character. -/
def digitVal (c : Char) : Option Nat :=
  if c.isDigit then some (c.toNat - 48) else none

/-- Number of days of month `m` in year `y`. -/
def daysInMonth (y m : Nat) : Nat :=
  if m = 2 then (if y % 4 = 0 ∧ (y % 100 ≠ 0 ∨ y % 400 = 0) then 29 else 28)
  else if m = 4 ∨ m = 6 ∨ m = 9 ∨ m = 11 then 30 else 31

/-- A date parser that reads the date-only ISO form `YYYY-MM-DD` of a real
calendar day as midnight UTC, as ECMAScript prescribes, and nothing else.  It
instantiates `DateParser` in the examples. -/
def isoDateOnly : DateParser := fun s =>
  match s.data with
  | [a, b, c, d, '-', e, f, '-', g, h] => do
    let y := (← digitVal a) * 1000 + (← digitVal b) * 100 + (← digitVal c) * 10 + (← digitVal d)
    let m := (← digitVal e) * 10 + (← digitVal f)
    let dd := (← digitVal g) * 10 + (← digitVal h)
    if 1 ≤ m ∧ m ≤ 12 ∧ 1 ≤ dd ∧ dd ≤ daysInMonth y m then
      some (daysFromCivil y m dd * msPerDay)
    else none
  | _ => none

/-- The query string fields `start` and `end` of a request. -/
structure Query where
  start : Option String
  end_ : Option String
  deriving DecidableEq

/-- The object `{ startStr, endStr }` returned by `parseDateRange`; `none` is
`null`. -/
structure DateRange where
  startStr : Option String
  endStr : Option String
  deriving DecidableEq

/-- One bound of the effective `parseDateRange`:
`v ? new Date(v) : null`, reset to `null` when the date is invalid, then
`toISOString()`. -/
def isoBound (parse : DateParser) (v : Option String) : Option String :=
  match v with
  | none => none
  | some s => if truthy (some s) then (parse s).map toISOString else none

/-- The function `parseDateRange` of `server.js`, lines 342-351.  The file
declares `parseDateRange` twice; function declarations are hoisted and the
later one replaces the earlier, so every route calls this one. -/
def parseDateRange (parse : DateParser) (q : Query) : DateRange :=
  { startStr := isoBound parse q.start, endStr := isoBound parse q.end_ }

/-- The method call `date.setHours(23, 59, 59, 999)` on a valid time value, in
a time zone that is `tzOffsetMs` ahead of UTC throughout. -/
def setHoursEndOfDay (tzOffsetMs : Int) (t : Int) : Int :=
  (t + tzOffsetMs) / msPerDay * msPerDay + 86399999 - tzOffsetMs

/-- The first declaration of `parseDateRange` (lines 56-68), replaced at load
time by the later one and never called.  `none` stands for the `RangeError`
that `toISOString` throws on an Invalid Date. -/
def parseDateRangeFirst (parse : DateParser) (tzOffsetMs : Int) (q : Query) :
    Option DateRange :=
  match q.start, q.end_ with
  | some s, some e =>
    if !truthy (some s) || !truthy (some e) then some ⟨none, none⟩
    else
      match parse s, parse e with
      | some ts, some te =>
        some ⟨some (toISOString ts), some (toISOString (setHoursEndOfDay tzOffsetMs te))⟩
      | _, _ => none
  | _, _ => some ⟨none, none⟩

/-! ## Responses -/

/-- The body of a response: the JSON value sent on success, or the text of
`{ error: ... }`. -/
inductive Body (α : Type) where
  | json (value : α)
  | error (message : String)
  deriving DecidableEq

/-- What a route handler does: the HTTP status and body it answers with, the
database it leaves, and the events it passed to `sendSse`, in order. -/
structure Response (α : Type) where
  status : Nat
  body : Body α
  db : Db
  events : List EventType

/-! ## `POST /api/bills` -/

/-- The object `bill` built by `POST /api/bills`. -/
structure Bill where
  id : String
  table : String
  orders : List OrderSnapshot
  totalAmount : ℚ
  paidAt : String
  paidAtIso : String
  totals : Totals
  deriving DecidableEq

/-- The clock readings of one run of `POST /api/bills`: `Date.now()` for the
id, `new Date().toLocaleString()` and the time value of the `new Date()` whose
`toISOString()` is stored. -/
structure BillClock where
  nowMs : Nat
  paidAt : String
  paidAtMs : Int

/-- The statement `SELECT * FROM orders WHERE table_name = ?`. -/
def ordersOfTable (orders : List OrderRow) (table : String) : List OrderRow :=
  orders.filter (fun o => o.table_name == table)

/-- The reduction `orders.reduce((sum, o) => sum + (o.total_price || 0), 0)`. -/
def subtotalOf (orders : List OrderRow) : ℚ :=
  orders.foldl (fun sum o => numAdd sum (orZero o.total_price)) 0

/-- The four constants `subtotal`, `tax`, `service`, `grandTotal` of
`POST /api/bills`. -/
def computeTotals (orders : List OrderRow) : Totals :=
  let subtotal := subtotalOf orders
  let tax := toFixed2 (numMul subtotal TAX_RATE)
  let service := toFixed2 (numMul subtotal SERVICE_RATE)
  let grandTotal := toFixed2 (numAdd (numAdd subtotal tax) service)
  { subtotal := subtotal, tax := tax, service := service, grandTotal := grandTotal }

/-- The mapping `o => ({ id, items, totalPrice, time })` of an order row. -/
def snapshotOf (o : OrderRow) : OrderSnapshot :=
  { id := o.id, items := o.items, totalPrice := o.total_price, time := o.time }

/-- The row that the `INSERT INTO bills` of `POST /api/bills` writes. -/
def billRowOf (b : Bill) : BillRow :=
  { id := b.id, table_name := b.table, orders := b.orders, total_amount := b.totalAmount,
    paid_at := b.paidAt, paid_at_iso := some b.paidAtIso, totals := some b.totals }

/-- The statement `INSERT INTO bills`; `none` is the exception of the primary
key when the id is present. -/
def insertBill (bills : List BillRow) (r : BillRow) : Option (List BillRow) :=
  if bills.any (fun b => b.id == r.id) then none else some (bills ++ [r])

/-- The statement `UPDATE orders SET status = 'Paid' WHERE table_name = ?`. -/
def markPaid (orders : List OrderRow) (table : String) : List OrderRow :=
  orders.map (fun o => if o.table_name == table then { o with status := "Paid" } else o)

/-- The object `bill` of `POST /api/bills` for the selected order rows. -/
def buildBill (normalizedTable : String) (orders : List OrderRow) (clk : BillClock) : Bill :=
  let t := computeTotals orders
  { id := "bill_" ++ toString clk.nowMs,
    table := normalizedTable,
    orders := orders.map snapshotOf,
    totalAmount := t.grandTotal,
    paidAt := clk.paidAt,
    paidAtIso := toISOString clk.paidAtMs,
    totals := t }

/-- The handler of `POST /api/bills` (`createBill`) on the body field `table`.
An exception of the `INSERT` leaves the handler before the `UPDATE` and the
two `sendSse` calls and is answered by the framework with status 500. -/
def createBill (db : Db) (table : Option String) (clk : BillClock) : Response Bill :=
  match table with
  | none => ⟨400, .error "Missing table", db, []⟩
  | some raw =>
    if !truthy (some raw) then ⟨400, .error "Missing table", db, []⟩
    else
      let normalizedTable := normalizeTable raw
      let orders := ordersOfTable db.orders normalizedTable
      if orders.isEmpty then
        ⟨404, .error ("No orders found for " ++ normalizedTable), db, []⟩
      else
        let bill := buildBill normalizedTable orders clk
        match insertBill db.bills (billRowOf bill) with
        | none => ⟨500, .error "UNIQUE constraint failed: bills.id", db, []⟩
        | some bills =>
          ⟨201, .json bill,
            { db with bills := bills, orders := markPaid db.orders normalizedTable },
            [.orders_updated, .bills_updated]⟩

/-! ## Selecting bills -/

/-- Order of SQLite on a nullable `TEXT` column: `NULL` sorts before every
text. -/
def nullableLe : Option String → Option String → Bool
  | none, _ => true
  | some _, none => false
  | some a, some b => textLe a b

/-- Row `a` may come before row `b` under `ORDER BY paid_at_iso DESC`. -/
def isoDesc (a b : BillRow) : Prop := nullableLe b.paid_at_iso a.paid_at_iso = true

/-- Row `a` may come before row `b` under
`ORDER BY paid_at_iso DESC, paid_at DESC`. -/
def isoPaidDesc (a b : BillRow) : Prop :=
  (if a.paid_at_iso = b.paid_at_iso then textLe b.paid_at a.paid_at
   else nullableLe b.paid_at_iso a.paid_at_iso) = true

instance : DecidableRel isoDesc := fun _ _ => inferInstanceAs (Decidable (_ = true))

instance : DecidableRel isoPaidDesc := fun _ _ => inferInstanceAs (Decidable (_ = true))

/-- The condition `paid_at_iso BETWEEN ? AND ?` on a bill row. -/
def inRange (lo hi : String) (b : BillRow) : Bool := between lo hi b.paid_at_iso

/-- The bounds to filter with when `startStr && endStr` is truthy. -/
def DateRange.bounds (r : DateRange) : Option (String × String) :=
  match r.startStr, r.endStr with
  | some lo, some hi => if truthy (some lo) && truthy (some hi) then some (lo, hi) else none
  | _, _ => none

/-- The rows read from `bills` by the routes: with both bounds
`SELECT * FROM bills WHERE paid_at_iso BETWEEN ? AND ? ORDER BY paid_at_iso DESC`,
otherwise `SELECT * FROM bills ORDER BY paid_at_iso DESC, paid_at DESC`.  Rows
with equal sort keys keep their storage order. -/
def selectBills (bills : List BillRow) (r : DateRange) : List BillRow :=
  match r.bounds with
  | some (lo, hi) => (bills.filter (inRange lo hi)).insertionSort isoDesc
  | none => bills.insertionSort isoPaidDesc

/-- The statement that clears the archived rows from `bills`: with both bounds
`DELETE FROM bills WHERE paid_at_iso BETWEEN ? AND ?`, otherwise
`DELETE FROM bills`. -/
def deleteBills (bills : List BillRow) (r : DateRange) : List BillRow :=
  match r.bounds with
  | some (lo, hi) => bills.filter (fun b => !inRange lo hi b)
  | none => []

/-- The active bills a range addresses, in storage order: the rows whose
`paid_at_iso` lies between the bounds, or every row without both bounds. -/
def matching (bills : List BillRow) (r : DateRange) : List BillRow :=
  match r.bounds with
  | some (lo, hi) => bills.filter (inRange lo hi)
  | none => bills

/-! ## `GET /api/bills` -/

/-- An element of the array answered by `GET /api/bills`. -/
structure BillJson where
  id : String
  table : String
  orders : List OrderSnapshot
  totalAmount : ℚ
  paidAt : String
  totals : Option Totals
  deriving DecidableEq

/-- The mapping of a row in `GET /api/bills`. -/
def billJsonOf (r : BillRow) : BillJson :=
  { id := r.id, table := r.table_name, orders := r.orders, totalAmount := r.total_amount,
    paidAt := r.paid_at, totals := r.totals }

/-- The handler of `GET /api/bills` (`listBills`). -/
def listBills (parse : DateParser) (db : Db) (q : Query) : List BillJson :=
  (selectBills db.bills (parseDateRange parse q)).map billJsonOf

/-! ## `POST /api/archive-bills` -/

/-- The totals the archive and export routes read from a bill row:
`totals_json` parsed, or the fallback object when the column is empty. -/
def totalsOrFallback (totals : Option Totals) (total_amount : ℚ) : Totals :=
  match totals with
  | some t => t
  | none => { subtotal := total_amount, tax := 0, service := 0, grandTotal := total_amount }

/-- The archived row written for a bill row: the object of `billsToArchive`
followed by the arguments of `insert.run`, with `now` as `archived_at`. -/
def toArchived (now : String) (r : BillRow) : ArchivedRow :=
  { id := r.id, table_name := r.table_name, orders := r.orders,
    total_amount := r.total_amount, paid_at := r.paid_at, paid_at_iso := r.paid_at_iso,
    totals := some (totalsOrFallback r.totals r.total_amount), archived_at := now }

/-- The statement `INSERT INTO archived_bills`; `none` is the exception of the
primary key when the id is present. -/
def insertArchived (archived : List ArchivedRow) (r : ArchivedRow) :
    Option (List ArchivedRow) :=
  if archived.any (fun a => a.id == r.id) then none else some (archived ++ [r])

/-- The loop `billsToArchive.forEach(bill => insert.run(...))`: the archive
table after the loop and whether it ran to its end.  The first `insert.run`
that throws ends the loop; the rows inserted before it stay in the table. -/
def archiveLoop (now : String) : List BillRow → List ArchivedRow → List ArchivedRow × Bool
  | [], archived => (archived, true)
  | b :: rest, archived =>
    match insertArchived archived (toArchived now b) with
    | none => (archived, false)
    | some archived1 => archiveLoop now rest archived1

/-- The handler of `POST /api/archive-bills` (`archiveBills`); the JSON value
of a success is the number in the message `Archived n bills.`, and `nowMs` is
the time value of `new Date()`. -/
def archiveBills (parse : DateParser) (db : Db) (q : Query) (nowMs : Int) : Response Nat :=
  let range := parseDateRange parse q
  let rows := selectBills db.bills range
  match archiveLoop (toISOString nowMs) rows db.archived with
  | (archived, false) =>
    ⟨500, .error "UNIQUE constraint failed: archived_bills.id",
      { db with archived := archived }, []⟩
  | (archived, true) =>
    ⟨200, .json rows.length,
      { db with archived := archived, bills := deleteBills db.bills range },
      [.bills_updated, .archived_bills_updated]⟩

/-! ## `GET /api/archived-bills` -/

/-- An element of the array answered by `GET /api/archived-bills`. -/
structure ArchivedJson where
  id : String
  table : String
  orders : List OrderSnapshot
  totalAmount : ℚ
  paidAt : String
  archivedAt : String
  totals : Totals
  deriving DecidableEq

/-- The mapping of a row in `GET /api/archived-bills`. -/
def archivedJsonOf (r : ArchivedRow) : ArchivedJson :=
  { id := r.id, table := r.table_name, orders := r.orders, totalAmount := r.total_amount,
    paidAt := r.paid_at, archivedAt := r.archived_at,
    totals := totalsOrFallback r.totals r.total_amount }

/-- Row `a` may come before row `b` under `ORDER BY paid_at DESC`. -/
def paidDesc (a b : ArchivedRow) : Prop := textLe b.paid_at a.paid_at = true

instance : DecidableRel paidDesc := fun _ _ => inferInstanceAs (Decidable (_ = true))

/-- The rows read by `GET /api/archived-bills`: with both bounds
`SELECT * FROM archived_bills WHERE paid_at BETWEEN ? AND ? ORDER BY paid_at DESC`,
otherwise `SELECT * FROM archived_bills ORDER BY paid_at DESC`.  The column is
`paid_at`, the text of `toLocaleString()`. -/
def selectArchived (archived : List ArchivedRow) (r : DateRange) : List ArchivedRow :=
  match r.bounds with
  | some (lo, hi) =>
    (archived.filter (fun a => between lo hi (some a.paid_at))).insertionSort paidDesc
  | none => archived.insertionSort paidDesc

/-- The handler of `GET /api/archived-bills` (`listArchivedBills`). -/
def listArchivedBills (parse : DateParser) (db : Db) (q : Query) : List ArchivedJson :=
  (selectArchived db.archived (parseDateRange parse q)).map archivedJsonOf

/-- Row `a` may come before row `b` under `ORDER BY paid_at_iso DESC` on
`archived_bills`. -/
def archivedIsoDesc (a b : ArchivedRow) : Prop :=
  nullableLe b.paid_at_iso a.paid_at_iso = true

/-- Row `a` may come before row `b` under
`ORDER BY paid_at_iso DESC, paid_at DESC` on `archived_bills`. -/
def archivedIsoPaidDesc (a b : ArchivedRow) : Prop :=
  (if a.paid_at_iso = b.paid_at_iso then textLe b.paid_at a.paid_at
   else nullableLe b.paid_at_iso a.paid_at_iso) = true

instance : DecidableRel archivedIsoDesc := fun _ _ => inferInstanceAs (Decidable (_ = true))

instance : DecidableRel archivedIsoPaidDesc :=
  fun _ _ => inferInstanceAs (Decidable (_ = true))

/-- The rows read by `GET /api/bills.xlsx` when `archived === 'true'`: with
both bounds
`SELECT * FROM archived_bills WHERE paid_at_iso BETWEEN ? AND ? ORDER BY paid_at_iso DESC`,
otherwise `SELECT * FROM archived_bills ORDER BY paid_at_iso DESC, paid_at DESC`. -/
def selectArchivedForExport (archived : List ArchivedRow) (r : DateRange) : List ArchivedRow :=
  match r.bounds with
  | some (lo, hi) =>
    (archived.filter (fun a => between lo hi a.paid_at_iso)).insertionSort archivedIsoDesc
  | none => archived.insertionSort archivedIsoPaidDesc

/-! ## `DELETE /api/archived-bills` -/

/-- The handler of `DELETE /api/archived-bills` (`deleteAllArchived`). -/
def deleteAllArchived (db : Db) : Response Unit :=
  ⟨204, .json (), { db with archived := [] }, [.archived_bills_updated]⟩

/-! ## Orders -/

/-- The value of a property of a request body, as far as the handlers tell
values apart; objects and arrays do not occur in the places modelled. -/
inductive JsVal where
  | undefined
  | null
  | bool (b : Bool)
  | num (x : ℚ)
  | str (s : String)
  deriving DecidableEq

/-- An element of `req.body.items` that is not `null`.  An element that is a
string, number or boolean reads as one whose `price` and `quantity` are
`undefined`.  Properties other than the four are carried along unread. -/
structure ItemArg where
  name : String
  price : JsVal
  quantity : JsVal
  orderType : Option String
  deriving DecidableEq

/-- The body of `POST /api/orders`: `table` is absent or a string, `items` is
`none` when it is not an array, and an element of the array is `none` when it
is `null`. -/
structure OrderPayload where
  table : Option String
  items : Option (List (Option ItemArg))
  deriving DecidableEq

/-- The clock readings of one run of `POST /api/orders`: `Date.now()` for the
id and `new Date().toLocaleString()`. -/
structure OrderClock where
  nowMs : Nat
  time : String

/-- The numbers of an item that passes
`typeof it.price === 'number' && typeof it.quantity === 'number'`. -/
def itemOf (it : ItemArg) : Option Item :=
  match it.price, it.quantity with
  | .num p, .num q => some { name := it.name, price := p, quantity := q, orderType := it.orderType }
  | _, _ => none

/-- The term `it.price * (it.quantity || 1)` of the reduction. -/
def lineTotal (it : Item) : ℚ := it.price * (if it.quantity = 0 then 1 else it.quantity)

/-- The reduction
`items.reduce((sum, it) => sum + (it.price * (it.quantity || 1)), 0)`. -/
def orderTotal (items : List Item) : ℚ :=
  items.foldl (fun sum it => sum + lineTotal it) 0

/-- The statement `INSERT INTO orders`; `none` is the exception of the primary
key when the id is present. -/
def insertOrder (orders : List OrderRow) (r : OrderRow) : Option (List OrderRow) :=
  if orders.any (fun o => o.id == r.id) then none else some (orders ++ [r])

/-- The items of a payload whose elements are all objects with a numeric price
and quantity: the loop `for (const it of items)` of the handler passes exactly
when this is `some`. -/
def checkedItems : List (Option ItemArg) → Option (List Item)
  | [] => some []
  | none :: _ => none
  | some it :: rest =>
    match itemOf it, checkedItems rest with
    | some i, some is => some (i :: is)
    | _, _ => none

/-- The object `newOrder` of `POST /api/orders`, which is also the row the
`INSERT` writes. -/
def newOrderOf (table : String) (items : List Item) (clk : OrderClock) : OrderRow :=
  { id := "ord_" ++ toString clk.nowMs, table_name := table, items := items,
    total_price := orderTotal items, time := clk.time, status := "Placed" }

/-- The handler of `POST /api/orders` (`placeOrder`).  The reduction before
the checks reads `it.price` of every element and throws a `TypeError` on a
`null` element; nothing catches it and the framework answers 500.  An
exception of the `INSERT` is caught by the handler, which answers 500.  On
exact numbers the tests `typeof totalPrice !== 'number'` and `isNaN(totalPrice)`
never hold, so the last check is `totalPrice <= 0`. -/
def placeOrder (db : Db) (p : OrderPayload) (clk : OrderClock) : Response OrderRow :=
  if (p.items.getD []).any Option.isNone then
    ⟨500, .error "TypeError: Cannot read properties of null (reading 'price')", db, []⟩
  else
    match p.table, p.items with
    | some table, some (e :: es) =>
      if !truthy (some table) then
        ⟨400, .error "Invalid order payload: missing table or items.", db, []⟩
      else
        match checkedItems (e :: es) with
        | none => ⟨400, .error "Invalid item in order: missing or invalid price/quantity.", db, []⟩
        | some items =>
          if orderTotal items ≤ 0 then
            ⟨400, .error "Invalid total price calculated for order.", db, []⟩
          else
            match insertOrder db.orders (newOrderOf table items clk) with
            | none => ⟨500, .error "Failed to place order. Please try again.", db, []⟩
            | some orders =>
              ⟨201, .json (newOrderOf table items clk), { db with orders := orders },
                [.orders_updated]⟩
    | _, _ => ⟨400, .error "Invalid order payload: missing table or items.", db, []⟩

/-- The statement `UPDATE orders SET status = ? WHERE id = ?`. -/
def setStatus (orders : List OrderRow) (id status : String) : List OrderRow :=
  orders.map (fun o => if o.id == id then { o with status := status } else o)

/-- The handler of `PATCH /api/orders/:id` (`updateStatus`) on the body field
`status`, absent or a string. -/
def updateStatus (db : Db) (id : String) (status : Option String) : Response OrderRow :=
  match status with
  | none => ⟨400, .error "Missing status", db, []⟩
  | some s =>
    if !truthy (some s) then ⟨400, .error "Missing status", db, []⟩
    else
      match db.orders.find? (fun o => o.id == id) with
      | none => ⟨404, .error "Order not found", db, []⟩
      | some _ =>
        let orders := setStatus db.orders id s
        match orders.find? (fun o => o.id == id) with
        | none =>
          ⟨500, .error "TypeError: Cannot read properties of undefined (reading 'id')",
            { db with orders := orders }, [.orders_updated]⟩
        | some updated =>
          ⟨200, .json updated, { db with orders := orders }, [.orders_updated]⟩

/-- The handler of `DELETE /api/orders` (`deleteAll`). -/
def deleteAllOrders (db : Db) : Response Unit :=
  ⟨204, .json (), { db with orders := [] }, [.orders_updated]⟩

/-- One call of an operation on orders. -/
inductive OrderOp where
  | placeOrder (p : OrderPayload) (clk : OrderClock)
  | updateStatus (id : String) (status : Option String)
  | createBill (table : Option String) (clk : BillClock)
  | deleteAll

/-- The database after one operation on orders. -/
def applyOp (db : Db) : OrderOp → Db
  | .placeOrder p clk => (placeOrder db p clk).db
  | .updateStatus id status => (updateStatus db id status).db
  | .createBill table clk => (createBill db table clk).db
  | .deleteAll => (deleteAllOrders db).db

/-- The database with its three tables empty. -/
def emptyDb : Db := { orders := [], bills := [], archived := [] }

/-- The database after a sequence of operations on orders. -/
def runOps (db : Db) (ops : List OrderOp) : Db := ops.foldl applyOp db

/-- The statuses of the data model. -/
def knownStatus (s : String) : Prop :=
  s = "Placed" ∨ s = "Preparing" ∨ s = "Delivered" ∨ s = "Paid"

/-- The place of a status in the progression Placed, Preparing, Delivered,
Paid; any other text counts as the start. -/
def statusRank (s : String) : Nat :=
  if s = "Paid" then 3 else if s = "Delivered" then 2 else if s = "Preparing" then 1 else 0

/-! ## Change notifier -/

/-- A connected observer: a response object `res` held in `sseClients`, named
by a number. -/
abbrev ClientId := Nat

/-- The text of the `type` of an event. -/
def EventType.text : EventType → String
  | .orders_updated => "orders_updated"
  | .bills_updated => "bills_updated"
  | .archived_bills_updated => "archived_bills_updated"
  | .menu_updated => "menu_updated"

/-- What the server writes to an observer: the retry hint on connecting, a
keep-alive comment, or the payload of an event. -/
inductive Chunk where
  | retry
  | keepAlive
  | event (data : EventType)
  deriving DecidableEq

/-- The text of a chunk; for an event it is the `payload` of `sendSse`, the
line `data: ` followed by `JSON.stringify(data)` and an empty line. -/
def Chunk.text : Chunk → String
  | .retry => "retry: 3000\n\n"
  | .keepAlive => ": keep-alive\n\n"
  | .event data => "data: \x7b\"type\":\"" ++ data.text ++ "\"\x7d\n\n"

/-- One call of `res.write`: the observer, the chunk, and whether the call
returned (`true`) or threw (`false`). -/
structure Write where
  client : ClientId
  chunk : Chunk
  delivered : Bool
  deriving DecidableEq

/-- The call `res.write(text)` on observer `c`, which throws for the observers
in `throws`. -/
def resWrite (throws : ClientId → Bool) (c : ClientId) (chunk : Chunk) : Except String Write :=
  if throws c then .error "write failed" else .ok ⟨c, chunk, true⟩

/-- The statement `try { res.write(text); } catch {}`. -/
def tryWrite (throws : ClientId → Bool) (chunk : Chunk) (c : ClientId) : Except String Write :=
  match resWrite throws c chunk with
  | .ok w => .ok w
  | .error _ => .ok ⟨c, chunk, false⟩

/-- The loop `sseClients.forEach(res => { try { res.write(payload); } catch {} })`
over the observers in insertion order: the calls of `res.write` it made, or the
exception that left it. -/
def forEachWrite (throws : ClientId → Bool) (chunk : Chunk) :
    List ClientId → Except String (List Write)
  | [] => .ok []
  | c :: rest =>
    match tryWrite throws chunk c with
    | .error e => .error e
    | .ok w =>
      match forEachWrite throws chunk rest with
      | .error e => .error e
      | .ok ws => .ok (w :: ws)

/-- The function `sendSse(data)` on the registry `sseClients`. -/
def sendSse (clients : List ClientId) (throws : ClientId → Bool) (data : EventType) :
    Except String (List Write) :=
  forEachWrite throws (.event data) clients

/-- The registry `sseClients` (a `Set`, kept as a list without repetition in
insertion order) and every call of `res.write` made so far. -/
structure SseState where
  clients : List ClientId
  log : List Write

/-- What happens around the registry: an observer connects
(`GET /api/events`), its request closes, its keep-alive timer fires, or a
handler calls `sendSse`.  `throws` tells for which observers `res.write` throws
during the step. -/
inductive SseStep where
  | connect (c : ClientId) (throws : ClientId → Bool)
  | close (c : ClientId)
  | keepAlive (c : ClientId) (throws : ClientId → Bool)
  | send (data : EventType) (throws : ClientId → Bool)

/-- One step of the notifier.  Connecting writes the retry hint outside any
`try`, so a throw leaves the handler before `sseClients.add(res)`; the timer of
an observer runs from `add` to the close of its request. -/
def sseStep (s : SseState) : SseStep → SseState
  | .connect c throws =>
    match resWrite throws c .retry with
    | .error _ => { s with log := s.log ++ [⟨c, .retry, false⟩] }
    | .ok w =>
      { clients := if c ∈ s.clients then s.clients else s.clients ++ [c],
        log := s.log ++ [w] }
  | .close c => { s with clients := s.clients.filter (fun d => d != c) }
  | .keepAlive c throws =>
    if c ∈ s.clients then
      match tryWrite throws .keepAlive c with
      | .error _ => s
      | .ok w => { s with log := s.log ++ [w] }
    else s
  | .send data throws =>
    match sendSse s.clients throws data with
    | .error _ => s
    | .ok ws => { s with log := s.log ++ ws }

/-- The notifier after a sequence of steps. -/
def sseRun (s : SseState) (steps : List SseStep) : SseState := steps.foldl sseStep s

/-- The events a sequence of steps emits, in order. -/
def emitted : List SseStep → List EventType
  | [] => []
  | .send data _ :: rest => data :: emitted rest
  | _ :: rest => emitted rest

/-- The events whose payload was passed to `res.write` of observer `c`, in the
order of the calls. -/
def eventsWrittenTo (c : ClientId) : List Write → List EventType
  | [] => []
  | w :: rest =>
    match w.chunk with
    | .event data => if w.client = c then data :: eventsWrittenTo c rest else eventsWrittenTo c rest
    | _ => eventsWrittenTo c rest

/-- The events whose payload observer `c` received: the calls of `res.write`
that returned. -/
def eventsDeliveredTo (c : ClientId) (log : List Write) : List EventType :=
  eventsWrittenTo c (log.filter (fun w => w.delivered))

/-- The steps by which a handler passes its events to `sendSse`, one call per
event. -/
def sendAll (events : List EventType) (throws : ClientId → Bool) : List SseStep :=
  events.map (fun e => .send e throws)

/-- The conditions under which the specification has `placeOrder` accept a
payload: the table is present, `items` is a non-empty list, every element is
an object whose price and quantity are numbers, and the total computed from
them (price times quantity, a quantity of 0 counting as 1) is greater than 0.
`items` are the elements with their numbers read. -/
def PayloadAcceptable (p : OrderPayload) (items : List Item) : Prop :=
  (∃ t, p.table = some t ∧ t ≠ "") ∧
  ∃ els, p.items = some els ∧ els ≠ [] ∧
    List.Forall₂
      (fun el i => ∃ it, el = some it ∧ it.price = .num i.price ∧
        it.quantity = .num i.quantity ∧ i.name = it.name ∧ i.orderType = it.orderType)
      els items ∧
    0 < (items.map (fun i => i.price * (if i.quantity = 0 then 1 else i.quantity))).sum

/-! ## Table normalization in the words of the specification -/

/-- Table normalization as the specification states it: a reference that
starts with `table `, compared without regard to case, is white-space
collapsed and trimmed; any other reference is prefixed with `Table `. -/
def normalizeRef (tableRef : String) : String :=
  if startsWithTable tableRef.data then ⟨trimChars (collapseChars tableRef.data)⟩
  else "Table " ++ tableRef

/-! ## The diner client (`script.js`) -/

/-- The properties of a menu item that the cart reads: `id`, `name`, `price`
and, when the object has one, `orderType`. -/
structure MenuItem where
  id : String
  name : String
  price : ℚ
  orderType : Option String
  deriving DecidableEq

/-- An entry of the array `cart`; `orderType` is `none` when the property is
`undefined`. -/
structure CartItem where
  id : String
  name : String
  price : ℚ
  orderType : Option String
  quantity : ℚ
  deriving DecidableEq

namespace Script

/-- The constant `TAX_RATE = 0.05` of `script.js`. -/
def TAX_RATE : ℚ := toNumber (5 / 100)

/-- The constant `SERVICE_RATE = 0.10` of `script.js`. -/
def SERVICE_RATE : ℚ := toNumber (10 / 100)

/-- The numbers `subtotal`, `tax`, `service` and `grand` that `renderTotals`
computes from `cart` and shows. -/
def renderTotals (cart : List CartItem) : Totals :=
  let subtotal := cart.foldl (fun sum i => sum + i.price * i.quantity) 0
  let tax := toFixed2 (numMul subtotal TAX_RATE)
  let service := toFixed2 (numMul subtotal SERVICE_RATE)
  let grand := toFixed2 (numAdd (numAdd subtotal tax) service)
  { subtotal := subtotal, tax := tax, service := service, grandTotal := grand }

/-- The statement `existing.quantity += 1` on the first entry found by
`cart.find(p)`; `none` when `find` returns `undefined`. -/
def bumpFirst (p : CartItem → Bool) : List CartItem → Option (List CartItem)
  | [] => none
  | ci :: rest =>
    if p ci then some ({ ci with quantity := ci.quantity + 1 } :: rest)
    else (bumpFirst p rest).map (fun l => ci :: l)

/-- The function `addToCart(item)`: the cart afterwards. -/
def addToCart (cart : List CartItem) (item : MenuItem) : List CartItem :=
  match bumpFirst (fun ci => ci.id == item.id) cart with
  | some cart1 => cart1
  | none =>
    cart ++ [{ id := item.id, name := item.name, price := item.price,
               orderType := item.orderType, quantity := 1 }]

/-- The function `addToCartWithType()` on the globals `selectedItem` and
`selectedOrderType`: the cart afterwards.  Without an item or without a
truthy order type the function alerts and returns. -/
def addToCartWithType (cart : List CartItem) (selectedItem : Option MenuItem)
    (selectedOrderType : Option String) : List CartItem :=
  match selectedItem, selectedOrderType with
  | some item, some type =>
    if !truthy (some type) then cart
    else
      match bumpFirst (fun ci => ci.id == item.id && ci.orderType == some type) cart with
      | some cart1 => cart1
      | none =>
        cart ++ [{ id := item.id, name := item.name, price := item.price,
                   orderType := some type, quantity := 1 }]
  | _, _ => cart

/-- The function `changeQty(index, delta)`: the cart afterwards.  With an
index outside the cart `cart[index]` is `undefined` and the function throws,
leaving the cart as it is. -/
def changeQty (cart : List CartItem) (index : Nat) (delta : ℚ) : List CartItem :=
  match cart[index]? with
  | none => cart
  | some ci =>
    if ci.quantity + delta ≤ 0 then cart.eraseIdx index
    else cart.set index { ci with quantity := ci.quantity + delta }

/-- The call `array.splice(start, 1)` with an integer `start`: the array
afterwards.  A negative `start` counts from the end. -/
def spliceOne {α : Type} (l : List α) (start : Int) : List α :=
  let len : Int := l.length
  let k := if start < 0 then max (len + start) 0 else min start len
  l.eraseIdx k.toNat

/-- The function `removeFromCart(index)`: the cart afterwards. -/
def removeFromCart (cart : List CartItem) (index : Int) : List CartItem :=
  spliceOne cart index

/-- The body `{ table, items: cart }` that the client's `placeOrder` posts for
the table number of the page. -/
def orderPayload (tableNumber : String) (cart : List CartItem) : OrderPayload :=
  { table := some ("Table " ++ tableNumber),
    items := some (cart.map (fun ci =>
      some { name := ci.name, price := .num ci.price, quantity := .num ci.quantity,
             orderType := ci.orderType })) }

/-- One call of a function that changes the cart. -/
inductive CartOp where
  | addToCart (item : MenuItem)
  | addToCartWithType (selectedItem : Option MenuItem) (selectedOrderType : Option String)
  | changeQty (index : Nat) (delta : ℚ)
  | removeFromCart (index : Int)

/-- The cart after one call. -/
def applyCartOp (cart : List CartItem) : CartOp → List CartItem
  | .addToCart item => addToCart cart item
  | .addToCartWithType item type => addToCartWithType cart item type
  | .changeQty index delta => changeQty cart index delta
  | .removeFromCart index => removeFromCart cart index

/-- The cart after a sequence of calls, starting from `cart`. -/
def runCart (cart : List CartItem) (ops : List CartOp) : List CartItem :=
  ops.foldl applyCartOp cart

end Script

/-! ## The admin view (`admin.js`) -/

namespace Admin

/-- The constant `TAX_RATE = 0.05` of `admin.js`. -/
def TAX_RATE : ℚ := toNumber (5 / 100)

/-- The constant `SERVICE_RATE = 0.10` of `admin.js`. -/
def SERVICE_RATE : ℚ := toNumber (10 / 100)

/-- The numbers `estSubtotal`, `estTax`, `estService` and `estGrand` that
`render` shows on the card of an order with the given `totalPrice`. -/
def estimate (totalPrice : ℚ) : Totals :=
  let estSubtotal := orZero totalPrice
  let estTax := toFixed2 (numMul estSubtotal TAX_RATE)
  let estService := toFixed2 (numMul estSubtotal SERVICE_RATE)
  let estGrand := toFixed2 (numAdd (numAdd estSubtotal estTax) estService)
  { subtotal := estSubtotal, tax := estTax, service := estService, grandTotal := estGrand }

end Admin

/-! ## Example data -/

/-- Two orders of table 3 worth 100 each (one item at 100, two items at 50),
one still `Placed` and one `Delivered`, and an order of another table. -/
def exampleOrders : List OrderRow :=
  [ { id := "ord_1", table_name := "Table 3", items := [⟨"Pizza", 100, 1, some "Full"⟩],
      total_price := 100, time := "1/15/2024, 11:58:00 AM", status := "Placed" },
    { id := "ord_2", table_name := "Table 7", items := [⟨"Burger", 120, 1, none⟩],
      total_price := 120, time := "1/15/2024, 11:59:00 AM", status := "Preparing" },
    { id := "ord_3", table_name := "Table 3", items := [⟨"Fries", 50, 2, none⟩],
      total_price := 100, time := "1/15/2024, 11:59:30 AM", status := "Delivered" } ]

/-- A database that holds only `exampleOrders`. -/
def exampleDb : Db := { orders := exampleOrders, bills := [], archived := [] }

/-- Clock readings at noon UTC of 15 January 2024. -/
def exampleClock : BillClock :=
  { nowMs := 1705320000000, paidAt := "1/15/2024, 12:00:00 PM", paidAtMs := 1705320000000 }

/-- A database with a single order whose total price is 0.0625. -/
def sixteenthDb : Db :=
  { orders := [ { id := "ord_1", table_name := "Table 1", items := [⟨"Mint", 1 / 16, 1, none⟩],
                  total_price := 1 / 16, time := "1/15/2024, 11:58:00 AM", status := "Placed" } ],
    bills := [], archived := [] }

/-- A bill of table 3 paid at noon UTC of 15 January 2024. -/
def billJan15 : BillRow :=
  { id := "bill_1705320000000", table_name := "Table 3", orders := [],
    total_amount := 230, paid_at := "1/15/2024, 12:00:00 PM",
    paid_at_iso := some "2024-01-15T12:00:00.000Z",
    totals := some { subtotal := 200, tax := 10, service := 20, grandTotal := 230 } }

/-- A bill of table 7 paid at 09:00 UTC of 17 January 2024. -/
def billJan17 : BillRow :=
  { id := "bill_1705482000000", table_name := "Table 7", orders := [],
    total_amount := 138, paid_at := "1/17/2024, 9:00:00 AM",
    paid_at_iso := some "2024-01-17T09:00:00.000Z",
    totals := some { subtotal := 120, tax := 6, service := 12, grandTotal := 138 } }

/-- A database with the two bills active and an empty archive. -/
def twoBillsDb : Db := { orders := [], bills := [billJan15, billJan17], archived := [] }

/-- The time value of 18 January 2024, 08:00 UTC. -/
def jan18Ms : Int := 1705564800000

/-- Clock readings at 09:00 UTC of 17 January 2024. -/
def laterClock : BillClock :=
  { nowMs := 1705482000000, paidAt := "1/17/2024, 9:00:00 AM", paidAtMs := 1705482000000 }

/-- The database reached from `exampleDb` by three requests served while the
clock reads `exampleClock` (billing table 3, archiving every bill, billing
table 3 again) and by billing table 7 at `laterClock`: two active bills, the
older of which has the id of the archived bill. -/
def clashDb : Db :=
  (createBill
    (createBill
      (archiveBills isoDateOnly (createBill exampleDb (some "3") exampleClock).db
        ⟨none, none⟩ exampleClock.paidAtMs).db
      (some "3") exampleClock).db
    (some "7") laterClock).db

/-- The database after table 3 of `exampleDb` was billed at `exampleClock`. -/
def paidOnceDb : Db := (createBill exampleDb (some "3") exampleClock).db

/-- Clock readings at noon UTC of 9 January 2024. -/
def jan9Clock : BillClock :=
  { nowMs := 1704801600000, paidAt := "1/9/2024, 12:00:00 PM", paidAtMs := 1704801600000 }

/-- The database reached from `exampleDb` by billing table 3 at `jan9Clock`,
billing table 7 at `exampleClock` and archiving every bill on 18 January: the
archive holds a bill paid on 9 January and a bill paid on 15 January. -/
def archivedTwoDb : Db :=
  (archiveBills isoDateOnly
    (createBill (createBill exampleDb (some "3") jan9Clock).db (some "7") exampleClock).db
    ⟨none, none⟩ jan18Ms).db

/-- Clock readings of an order placed at 11:58 UTC of 15 January 2024. -/
def orderClock : OrderClock := { nowMs := 1705319880000, time := "1/15/2024, 11:58:00 AM" }

/-- A payload of table 4 with one pizza at 200. -/
def pizzaPayload : OrderPayload :=
  { table := some "Table 4", items := some [some ⟨"Pizza", .num 200, .num 1, some "Full"⟩] }

/-- A payload of table 4 whose only item has price 100 and quantity 0. -/
def zeroQuantityPayload : OrderPayload :=
  { table := some "Table 4", items := some [some ⟨"Pizza", .num 100, .num 0, none⟩] }

/-- A payload of table 4 with a pizza at 200 and an item of price -50 and
quantity 0.5. -/
def discountPayload : OrderPayload :=
  { table := some "Table 4",
    items := some [some ⟨"Pizza", .num 200, .num 1, none⟩,
                   some ⟨"Discount", .num (-50), .num (1 / 2), none⟩] }

/-- A payload of table 4 whose `items` array holds a single `null`. -/
def nullItemPayload : OrderPayload := { table := some "Table 4", items := some [none] }

/-- A database with a single order whose total price is 0.375. -/
def threeEighthsDb : Db :=
  { orders := [ { id := "ord_1", table_name := "Table 1", items := [⟨"Nut", 3 / 8, 1, none⟩],
                  total_price := 3 / 8, time := "1/15/2024, 11:58:00 AM", status := "Placed" } ],
    bills := [], archived := [] }

/-- A database with a single order whose total price is the number 0.30. -/
def thirtyCentsDb : Db :=
  { orders := [ { id := "ord_1", table_name := "Table 1",
                  items := [⟨"Mint", toNumber (3 / 10), 1, none⟩],
                  total_price := toNumber (3 / 10), time := "1/15/2024, 11:58:00 AM",
                  status := "Placed" } ],
    bills := [], archived := [] }

/-- A cart of the diner client: two full pizzas at 200 and three teas at
12.5. -/
def exampleCart : List CartItem :=
  [⟨"m1", "Pizza", 200, some "Full", 2⟩, ⟨"m2", "Tea", 25 / 2, none, 3⟩]

/-- The database after the client of table 4 has placed `exampleCart` as the
first order. -/
def cartDb : Db := (placeOrder emptyDb (Script.orderPayload "4" exampleCart) orderClock).db

/-- A payload sent to the interface directly, with the bare table reference
`5` and one pizza at 200. -/
def bareTablePayload : OrderPayload :=
  { table := some "5", items := some [some ⟨"Pizza", .num 200, .num 1, none⟩] }

/-- A database whose only order is stored under `Table 5  6`, the table name
that the client of the page `?table=5  6` posts. -/
def spacedDb : Db :=
  { orders := [ { id := "ord_1", table_name := "Table 5  6", items := [⟨"Burger", 120, 1, none⟩],
                  total_price := 120, time := "1/15/2024, 11:58:00 AM", status := "Placed" } ],
    bills := [], archived := [] }

/-- Calls of the cart functions: a pizza is added twice, a half tea is added,
the pizza gets two more, the tea is decreased to 0, and the entry at index 5,
which does not exist, is removed. -/
def exampleCartOps : List Script.CartOp :=
  [ .addToCart ⟨"m1", "Pizza", 200, none⟩, .addToCart ⟨"m1", "Pizza", 200, none⟩,
    .addToCartWithType (some ⟨"m2", "Tea", 25 / 2, none⟩) (some "Half"),
    .changeQty 0 2, .changeQty 1 (-1), .removeFromCart 5 ]

/-! ## Lemmas on numbers -/

theorem orZero_eq (x : ℚ) : orZero x = x := by
  unfold orZero
  split_ifs with h
  · exact h.symm
  · rfl

theorem roundHalfEven_eq (y : ℚ) (m : ℤ) (h : |y - m| < 1 / 2) : roundHalfEven y = m := by
  rw [abs_lt] at h
  unfold roundHalfEven
  by_cases hy : (m : ℚ) ≤ y
  · have hf : ⌊y⌋ = m := by
      rw [Int.floor_eq_iff]
      constructor <;> linarith
    simp only [hf]
    rw [if_pos (by linarith)]
  · have hf : ⌊y⌋ = m - 1 := by
      rw [Int.floor_eq_iff]
      push_cast
      constructor <;> linarith
    simp only [hf]
    push_cast
    rw [if_neg (by linarith), if_pos (by linarith)]
    ring

theorem abs_roundHalfEven_sub_le (y : ℚ) : |(roundHalfEven y : ℚ) - y| ≤ 1 / 2 := by
  have h1 := Int.floor_le y
  have h2 := Int.lt_floor_add_one y
  unfold roundHalfEven
  simp only
  rw [abs_le]
  split_ifs with ha hb hc
  · constructor <;> linarith
  · push_cast
    constructor <;> linarith
  · constructor <;> linarith
  · push_cast
    constructor <;> linarith

theorem roundHalfEven_nonneg (y : ℚ) (h : 0 ≤ y) : 0 ≤ roundHalfEven y := by
  have hf : 0 ≤ ⌊y⌋ := Int.floor_nonneg.2 h
  unfold roundHalfEven
  simp only
  split_ifs <;> omega

theorem nearestDouble_nonneg (x : ℚ) (h : 0 ≤ x) : 0 ≤ nearestDouble x := by
  unfold nearestDouble
  simp only
  have : 0 ≤ roundHalfEven (x / 2 ^ (max (Int.log 2 x) (-1022) - 52)) :=
    roundHalfEven_nonneg _ (by positivity)
  have h2 : (0 : ℚ) ≤ (roundHalfEven (x / 2 ^ (max (Int.log 2 x) (-1022) - 52)) : ℚ) := by
    exact_mod_cast this
  positivity

theorem nearestDouble_zero : nearestDouble 0 = 0 := by
  unfold nearestDouble
  simp [roundHalfEven]

theorem toNumber_zero : toNumber 0 = 0 := by
  unfold toNumber
  simp [nearestDouble_zero]

theorem toNumber_nonneg (x : ℚ) (h : 0 ≤ x) : 0 ≤ toNumber x := by
  unfold toNumber
  rw [if_neg (by linarith)]
  exact nearestDouble_nonneg x h

theorem toNumber_neg (x : ℚ) : toNumber (-x) = -toNumber x := by
  unfold toNumber
  rcases lt_trichotomy x 0 with h | h | h
  · rw [if_neg (by linarith), if_pos h]
    simp
  · subst h
    simp [nearestDouble_zero]
  · rw [if_pos (by linarith), if_neg (by linarith)]
    simp

/-- The distance between a rational that is not negative and its nearest double. -/
theorem abs_nearestDouble_sub_le (x : ℚ) (h : 0 ≤ x) :
    |nearestDouble x - x| ≤ x / 2 ^ 53 + 1 / 2 ^ 1075 := by
  rcases h.eq_or_lt with h0 | hpos
  · subst h0
    rw [nearestDouble_zero]
    norm_num
  have hq : (0 : ℚ) < 2 ^ (max (Int.log 2 x) (-1022) - 52) := by positivity
  have hr := abs_roundHalfEven_sub_le (x / 2 ^ (max (Int.log 2 x) (-1022) - 52))
  have heq : nearestDouble x - x
      = ((roundHalfEven (x / 2 ^ (max (Int.log 2 x) (-1022) - 52)) : ℚ)
          - x / 2 ^ (max (Int.log 2 x) (-1022) - 52))
        * 2 ^ (max (Int.log 2 x) (-1022) - 52) := by
    unfold nearestDouble
    simp only
    field_simp
  rw [heq, abs_mul, abs_of_pos hq]
  have hstep : |(roundHalfEven (x / 2 ^ (max (Int.log 2 x) (-1022) - 52)) : ℚ)
          - x / 2 ^ (max (Int.log 2 x) (-1022) - 52)|
        * 2 ^ (max (Int.log 2 x) (-1022) - 52)
      ≤ 1 / 2 * 2 ^ (max (Int.log 2 x) (-1022) - 52) :=
    mul_le_mul_of_nonneg_right hr hq.le
  refine le_trans hstep ?_
  have hsplit : ∀ e : ℤ, (1 / 2 : ℚ) * 2 ^ (e - 52) = 2 ^ e / 2 ^ 53 := by
    intro e
    rw [zpow_sub₀ (by norm_num : (2 : ℚ) ≠ 0)]
    norm_num
    ring
  rw [hsplit]
  rcases le_total (Int.log 2 x) (-1022) with hle | hge
  · rw [max_eq_right hle]
    have : (2 : ℚ) ^ (-1022 : ℤ) / 2 ^ 53 = 1 / 2 ^ 1075 := by
      rw [zpow_neg]
      norm_num
    rw [this]
    have : 0 ≤ x / 2 ^ 53 := by positivity
    linarith
  · rw [max_eq_left hge]
    have hlog : (2 : ℚ) ^ Int.log 2 x ≤ x := by
      have := Int.zpow_log_le_self (b := 2) (by norm_num) hpos
      exact_mod_cast this
    have h53 : (2 : ℚ) ^ Int.log 2 x / 2 ^ 53 ≤ x / 2 ^ 53 :=
      div_le_div_of_nonneg_right hlog (by positivity)
    have : (0 : ℚ) ≤ 1 / 2 ^ 1075 := by positivity
    linarith

theorem abs_toNumber_sub_le (x : ℚ) : |toNumber x - x| ≤ |x| / 2 ^ 53 + 1 / 2 ^ 1075 := by
  unfold toNumber
  split_ifs with h
  · have := abs_nearestDouble_sub_le (-x) (by linarith)
    rw [abs_of_neg h]
    rw [show -nearestDouble (-x) - x = -(nearestDouble (-x) - -x) by ring, abs_neg]
    exact this
  · have := abs_nearestDouble_sub_le x (by linarith)
    rw [abs_of_nonneg (by linarith : 0 ≤ x)]
    exact this

theorem nearestDouble_eq (x : ℚ) (e m : ℤ) (he : -1022 ≤ e)
    (h1 : (2 : ℚ) ^ e ≤ x) (h2 : x < (2 : ℚ) ^ (e + 1))
    (hm : |x / 2 ^ (e - 52) - m| < 1 / 2) :
    nearestDouble x = m * 2 ^ (e - 52) := by
  have hx : 0 < x := lt_of_lt_of_le (by positivity) h1
  have hlog : Int.log 2 x = e := by
    have ha : e ≤ Int.log 2 x := (Int.zpow_le_iff_le_log (by norm_num) hx).1 (by exact_mod_cast h1)
    have hb : Int.log 2 x < e + 1 := (Int.lt_zpow_iff_log_lt (by norm_num) hx).1 (by exact_mod_cast h2)
    omega
  unfold nearestDouble
  simp only [hlog, max_eq_left he]
  rw [roundHalfEven_eq _ m hm]

/-- Evaluation of `toNumber` at a positive rational in the normal range. -/
theorem toNumber_eval (x r : ℚ) (e m : ℤ) (he : -1022 ≤ e)
    (h1 : (2 : ℚ) ^ e ≤ x) (h2 : x < (2 : ℚ) ^ (e + 1))
    (hm : |x / 2 ^ (e - 52) - m| < 1 / 2) (hr : (m : ℚ) * 2 ^ (e - 52) = r) :
    toNumber x = r := by
  have hx : 0 < x := lt_of_lt_of_le (by positivity) h1
  unfold toNumber
  rw [if_neg (by linarith), nearestDouble_eq x e m he h1 h2 hm, hr]

/-- Evaluation of `toFixed2` at a Number that is not negative and is below `10^21`. -/
theorem toFixed2_eval (x r : ℚ) (n : ℤ) (h0 : 0 ≤ x) (hlt : x < 1000000000000000000000)
    (hn : (n : ℚ) ≤ x * 100 + 1 / 2) (hn1 : x * 100 + 1 / 2 < n + 1) (hr : (n : ℚ) / 100 = r) :
    toFixed2 x = toNumber r := by
  unfold toFixed2
  rw [if_neg (by rintro (h | h) <;> linarith), if_neg (by linarith)]
  have : ⌊x * 100 + 1 / 2⌋ = n := by
    rw [Int.floor_eq_iff]
    exact ⟨hn, hn1⟩
  rw [this, hr]

theorem roundHalfEven_tie (y : ℚ) (m : ℤ) (h : y - m = 1 / 2 ∨ y - m = -(1 / 2))
    (hm : m % 2 = 0) : roundHalfEven y = m := by
  unfold roundHalfEven
  rcases h with h | h
  · have hf : ⌊y⌋ = m := by
      rw [Int.floor_eq_iff]
      constructor <;> linarith
    simp only [hf]
    rw [if_neg (by linarith), if_neg (by linarith), if_pos hm]
  · have hf : ⌊y⌋ = m - 1 := by
      rw [Int.floor_eq_iff]
      push_cast
      constructor <;> linarith
    simp only [hf]
    push_cast
    rw [if_neg (by linarith), if_neg (by linarith), if_neg (by omega)]
    ring

/-- Evaluation of `toNumber` at a positive rational half way between two
doubles: the one with the even mantissa. -/
theorem toNumber_eval_tie (x r : ℚ) (e m : ℤ) (he : -1022 ≤ e)
    (h1 : (2 : ℚ) ^ e ≤ x) (h2 : x < (2 : ℚ) ^ (e + 1))
    (hm : x / 2 ^ (e - 52) - m = 1 / 2 ∨ x / 2 ^ (e - 52) - m = -(1 / 2))
    (heven : m % 2 = 0) (hr : (m : ℚ) * 2 ^ (e - 52) = r) :
    toNumber x = r := by
  have hx : 0 < x := lt_of_lt_of_le (by positivity) h1
  have hlog : Int.log 2 x = e := by
    have ha : e ≤ Int.log 2 x := (Int.zpow_le_iff_le_log (by norm_num) hx).1 (by exact_mod_cast h1)
    have hb : Int.log 2 x < e + 1 := (Int.lt_zpow_iff_log_lt (by norm_num) hx).1 (by exact_mod_cast h2)
    omega
  unfold toNumber
  rw [if_neg (by linarith)]
  unfold nearestDouble
  simp only [hlog, max_eq_left he]
  rw [roundHalfEven_tie _ m hm heven, hr]

/-- The number that `toFixed2` returns for a number below `10^21` in magnitude
is the number of a whole count of hundredths, and that count of hundredths is
within half a hundredth of the argument. -/
theorem toFixed2_cents_near (x : ℚ) (h : |x| < 1000000000000000000000) :
    ∃ n : ℤ, toFixed2 x = toNumber ((n : ℚ) / 100) ∧ |(n : ℚ) / 100 - x| ≤ 1 / 200 := by
  rw [abs_lt] at h
  unfold toFixed2
  rw [if_neg (by rintro (h1 | h1) <;> linarith)]
  split_ifs with hneg
  · refine ⟨-⌊-x * 100 + 1 / 2⌋, by push_cast; rfl, ?_⟩
    have h1 := Int.floor_le (-x * 100 + 1 / 2)
    have h2 := Int.lt_floor_add_one (-x * 100 + 1 / 2)
    rw [abs_le]
    push_cast
    constructor <;> linarith
  · refine ⟨⌊x * 100 + 1 / 2⌋, rfl, ?_⟩
    have h1 := Int.floor_le (x * 100 + 1 / 2)
    have h2 := Int.lt_floor_add_one (x * 100 + 1 / 2)
    rw [abs_le]
    constructor <;> linarith

/-! ## Lemmas on the totals -/

theorem subtotalOf_eq_foldl (l : List OrderRow) :
    subtotalOf l = l.foldl (fun sum o => numAdd sum o.total_price) 0 := by
  unfold subtotalOf
  simp only [orZero_eq]

theorem subtotalOf_single (o : OrderRow) : subtotalOf [o] = o.total_price := by
  rw [subtotalOf_eq_foldl]
  simp [numAdd]

theorem computeTotals_of_subtotal (orders : List OrderRow) (s : ℚ) (h : subtotalOf orders = s) :
    computeTotals orders
      = { subtotal := s,
          tax := toFixed2 (numMul s TAX_RATE),
          service := toFixed2 (numMul s SERVICE_RATE),
          grandTotal := toFixed2 (numAdd (numAdd s (toFixed2 (numMul s TAX_RATE)))
            (toFixed2 (numMul s SERVICE_RATE))) } := by
  unfold computeTotals
  simp only [h]

theorem TAX_RATE_eq : TAX_RATE = 3602879701896397 / 72057594037927936 :=
  toNumber_eval _ _ (-5) 7205759403792794 (by norm_num) (by norm_num) (by norm_num)
    (by norm_num [abs_lt]) (by norm_num)

theorem SERVICE_RATE_eq : SERVICE_RATE = 3602879701896397 / 36028797018963968 :=
  toNumber_eval _ _ (-4) 7205759403792794 (by norm_num) (by norm_num) (by norm_num)
    (by norm_num [abs_lt]) (by norm_num)

/-- The totals of a subtotal of 200. -/
theorem computeTotals_at_200 (orders : List OrderRow) (h : subtotalOf orders = 200) :
    computeTotals orders
      = { subtotal := 200, tax := 10, service := 20,
          grandTotal := 230 } := by
  have hP : numMul (200) (3602879701896397 / 72057594037927936) = 10 :=
    toNumber_eval _ _ (3) 5629499534213120 (by norm_num) (by norm_num) (by norm_num)
      (by norm_num [abs_lt]) (by norm_num)
  have hta : toFixed2 (10) = toNumber (10) :=
    toFixed2_eval _ _ 1000 (by norm_num) (by norm_num) (by norm_num) (by norm_num) (by norm_num)
  have hQ : numMul (200) (3602879701896397 / 36028797018963968) = 20 :=
    toNumber_eval _ _ (4) 5629499534213120 (by norm_num) (by norm_num) (by norm_num)
      (by norm_num [abs_lt]) (by norm_num)
  have hsv : toFixed2 (20) = toNumber (20) :=
    toFixed2_eval _ _ 2000 (by norm_num) (by norm_num) (by norm_num) (by norm_num) (by norm_num)
  have hta1 : toNumber (10) = 10 :=
    toNumber_eval _ _ (3) 5629499534213120 (by norm_num) (by norm_num) (by norm_num)
      (by norm_num [abs_lt]) (by norm_num)
  have hsv1 : toNumber (20) = 20 :=
    toNumber_eval _ _ (4) 5629499534213120 (by norm_num) (by norm_num) (by norm_num)
      (by norm_num [abs_lt]) (by norm_num)
  have hS1 : numAdd (200) (10) = 210 := by
    rw [numAdd, if_neg (by norm_num), if_neg (by norm_num)]
    exact toNumber_eval _ _ (7) 7388718138654720 (by norm_num) (by norm_num) (by norm_num)
      (by norm_num [abs_lt]) (by norm_num)
  have hS2 : numAdd (210) (20) = 230 := by
    rw [numAdd, if_neg (by norm_num), if_neg (by norm_num)]
    exact toNumber_eval _ _ (7) 8092405580431360 (by norm_num) (by norm_num) (by norm_num)
      (by norm_num [abs_lt]) (by norm_num)
  have hg : toFixed2 (230) = toNumber (230) :=
    toFixed2_eval _ _ 23000 (by norm_num) (by norm_num) (by norm_num) (by norm_num) (by norm_num)
  have hg1 : toNumber (230) = 230 :=
    toNumber_eval _ _ (7) 8092405580431360 (by norm_num) (by norm_num) (by norm_num)
      (by norm_num [abs_lt]) (by norm_num)
  rw [computeTotals_of_subtotal orders _ h, TAX_RATE_eq, SERVICE_RATE_eq, hP, hta, hQ, hsv,
    hta1, hsv1, hS1, hS2, hg, hg1]

/-- The totals of a subtotal of 0.0625. -/
theorem computeTotals_at_sixteenth (orders : List OrderRow) (h : subtotalOf orders = 1 / 16) :
    computeTotals orders
      = { subtotal := 1 / 16, tax := 0, service := toNumber (1 / 100),
          grandTotal := toNumber (7 / 100) } := by
  have hP : numMul (1 / 16) (3602879701896397 / 72057594037927936)
      = 3602879701896397 / 1152921504606846976 :=
    toNumber_eval _ _ (-9) 7205759403792794 (by norm_num) (by norm_num) (by norm_num)
      (by norm_num [abs_lt]) (by norm_num)
  have hta : toFixed2 (3602879701896397 / 1152921504606846976) = toNumber (0) :=
    toFixed2_eval _ _ 0 (by norm_num) (by norm_num) (by norm_num) (by norm_num) (by norm_num)
  have hQ : numMul (1 / 16) (3602879701896397 / 36028797018963968)
      = 3602879701896397 / 576460752303423488 :=
    toNumber_eval _ _ (-8) 7205759403792794 (by norm_num) (by norm_num) (by norm_num)
      (by norm_num [abs_lt]) (by norm_num)
  have hsv : toFixed2 (3602879701896397 / 576460752303423488) = toNumber (1 / 100) :=
    toFixed2_eval _ _ 1 (by norm_num) (by norm_num) (by norm_num) (by norm_num) (by norm_num)
  have hta1 : toNumber (0) = 0 :=
    toNumber_zero
  have hsv1 : toNumber (1 / 100) = 5764607523034235 / 576460752303423488 :=
    toNumber_eval _ _ (-7) 5764607523034235 (by norm_num) (by norm_num) (by norm_num)
      (by norm_num [abs_lt]) (by norm_num)
  have hS1 : numAdd (1 / 16) (0) = 1 / 16 := by
    norm_num [numAdd]
  have hS2 : numAdd (1 / 16) (5764607523034235 / 576460752303423488)
      = 5224175567749775 / 72057594037927936 := by
    rw [numAdd, if_neg (by norm_num), if_neg (by norm_num)]
    exact toNumber_eval _ _ (-4) 5224175567749775 (by norm_num) (by norm_num) (by norm_num)
      (by norm_num [abs_lt]) (by norm_num)
  have hg : toFixed2 (5224175567749775 / 72057594037927936) = toNumber (7 / 100) :=
    toFixed2_eval _ _ 7 (by norm_num) (by norm_num) (by norm_num) (by norm_num) (by norm_num)
  have hg1 : toNumber (7 / 100) = 1261007895663739 / 18014398509481984 :=
    toNumber_eval _ _ (-4) 5044031582654956 (by norm_num) (by norm_num) (by norm_num)
      (by norm_num [abs_lt]) (by norm_num)
  rw [computeTotals_of_subtotal orders _ h, TAX_RATE_eq, SERVICE_RATE_eq, hP, hta, hQ, hsv,
    hta1, hsv1, hS1, hS2, hg, hg1]

/-- The totals of a subtotal of 0.375: the sum 0.375 + 0.02 + 0.04 is the number
just below 0.435, and the grand total is 0.43. -/
theorem computeTotals_at_three_eighths (orders : List OrderRow) (h : subtotalOf orders = 3 / 8) :
    computeTotals orders
      = { subtotal := 3 / 8, tax := toNumber (2 / 100), service := toNumber (4 / 100),
          grandTotal := toNumber (43 / 100) } := by
  have hP : numMul (3 / 8) (3602879701896397 / 72057594037927936)
      = 1351079888211149 / 72057594037927936 :=
    toNumber_eval_tie _ _ (-6) 5404319552844596 (by norm_num) (by norm_num) (by norm_num)
      (Or.inr (by norm_num)) (by norm_num) (by norm_num)
  have hta : toFixed2 (1351079888211149 / 72057594037927936) = toNumber (2 / 100) :=
    toFixed2_eval _ _ 2 (by norm_num) (by norm_num) (by norm_num) (by norm_num) (by norm_num)
  have hQ : numMul (3 / 8) (3602879701896397 / 36028797018963968)
      = 1351079888211149 / 36028797018963968 :=
    toNumber_eval_tie _ _ (-5) 5404319552844596 (by norm_num) (by norm_num) (by norm_num)
      (Or.inr (by norm_num)) (by norm_num) (by norm_num)
  have hsv : toFixed2 (1351079888211149 / 36028797018963968) = toNumber (4 / 100) :=
    toFixed2_eval _ _ 4 (by norm_num) (by norm_num) (by norm_num) (by norm_num) (by norm_num)
  have hta1 : toNumber (2 / 100) = 5764607523034235 / 288230376151711744 :=
    toNumber_eval _ _ (-6) 5764607523034235 (by norm_num) (by norm_num) (by norm_num)
      (by norm_num [abs_lt]) (by norm_num)
  have hsv1 : toNumber (4 / 100) = 5764607523034235 / 144115188075855872 :=
    toNumber_eval _ _ (-5) 5764607523034235 (by norm_num) (by norm_num) (by norm_num)
      (by norm_num [abs_lt]) (by norm_num)
  have hS1 : numAdd (3 / 8) (5764607523034235 / 288230376151711744)
      = 889460926405673 / 2251799813685248 := by
    rw [numAdd, if_neg (by norm_num), if_neg (by norm_num)]
    exact toNumber_eval _ _ (-2) 7115687411245384 (by norm_num) (by norm_num) (by norm_num)
      (by norm_num [abs_lt]) (by norm_num)
  have hS2 : numAdd (889460926405673 / 2251799813685248) (5764607523034235 / 144115188075855872)
      = 7836263351624663 / 18014398509481984 := by
    rw [numAdd, if_neg (by norm_num), if_neg (by norm_num)]
    exact toNumber_eval _ _ (-2) 7836263351624663 (by norm_num) (by norm_num) (by norm_num)
      (by norm_num [abs_lt]) (by norm_num)
  have hg : toFixed2 (7836263351624663 / 18014398509481984) = toNumber (43 / 100) :=
    toFixed2_eval _ _ 43 (by norm_num) (by norm_num) (by norm_num) (by norm_num) (by norm_num)
  have hg1 : toNumber (43 / 100) = 7746191359077253 / 18014398509481984 :=
    toNumber_eval _ _ (-2) 7746191359077253 (by norm_num) (by norm_num) (by norm_num)
      (by norm_num [abs_lt]) (by norm_num)
  rw [computeTotals_of_subtotal orders _ h, TAX_RATE_eq, SERVICE_RATE_eq, hP, hta, hQ, hsv,
    hta1, hsv1, hS1, hS2, hg, hg1]

/-- The totals of a subtotal of 0.30: the product 0.3 * 0.05 is the number just
below 0.015, and the tax is 0.01. -/
theorem computeTotals_at_thirty_cents (orders : List OrderRow) (h : subtotalOf orders = toNumber (3 / 10)) :
    computeTotals orders
      = { subtotal := toNumber (3 / 10), tax := toNumber (1 / 100), service := toNumber (3 / 100),
          grandTotal := toNumber (34 / 100) } := by
  have hs : toNumber (3 / 10) = 5404319552844595 / 18014398509481984 :=
    toNumber_eval _ _ (-2) 5404319552844595 (by norm_num) (by norm_num) (by norm_num)
      (by norm_num [abs_lt]) (by norm_num)
  have hP : numMul (5404319552844595 / 18014398509481984) (3602879701896397 / 72057594037927936)
      = 1080863910568919 / 72057594037927936 :=
    toNumber_eval _ _ (-7) 8646911284551352 (by norm_num) (by norm_num) (by norm_num)
      (by norm_num [abs_lt]) (by norm_num)
  have hta : toFixed2 (1080863910568919 / 72057594037927936) = toNumber (1 / 100) :=
    toFixed2_eval _ _ 1 (by norm_num) (by norm_num) (by norm_num) (by norm_num) (by norm_num)
  have hQ : numMul (5404319552844595 / 18014398509481984) (3602879701896397 / 36028797018963968)
      = 1080863910568919 / 36028797018963968 :=
    toNumber_eval _ _ (-6) 8646911284551352 (by norm_num) (by norm_num) (by norm_num)
      (by norm_num [abs_lt]) (by norm_num)
  have hsv : toFixed2 (1080863910568919 / 36028797018963968) = toNumber (3 / 100) :=
    toFixed2_eval _ _ 3 (by norm_num) (by norm_num) (by norm_num) (by norm_num) (by norm_num)
  have hta1 : toNumber (1 / 100) = 5764607523034235 / 576460752303423488 :=
    toNumber_eval _ _ (-7) 5764607523034235 (by norm_num) (by norm_num) (by norm_num)
      (by norm_num [abs_lt]) (by norm_num)
  have hsv1 : toNumber (3 / 100) = 1080863910568919 / 36028797018963968 :=
    toNumber_eval _ _ (-6) 8646911284551352 (by norm_num) (by norm_num) (by norm_num)
      (by norm_num [abs_lt]) (by norm_num)
  have hS1 : numAdd (5404319552844595 / 18014398509481984) (5764607523034235 / 576460752303423488)
      = 5584463537939415 / 18014398509481984 := by
    rw [numAdd, if_neg (by norm_num), if_neg (by norm_num)]
    exact toNumber_eval _ _ (-2) 5584463537939415 (by norm_num) (by norm_num) (by norm_num)
      (by norm_num [abs_lt]) (by norm_num)
  have hS2 : numAdd (5584463537939415 / 18014398509481984) (1080863910568919 / 36028797018963968)
      = 3062447746611937 / 9007199254740992 := by
    rw [numAdd, if_neg (by norm_num), if_neg (by norm_num)]
    exact toNumber_eval_tie _ _ (-2) 6124895493223874 (by norm_num) (by norm_num) (by norm_num)
      (Or.inl (by norm_num)) (by norm_num) (by norm_num)
  have hg : toFixed2 (3062447746611937 / 9007199254740992) = toNumber (34 / 100) :=
    toFixed2_eval _ _ 34 (by norm_num) (by norm_num) (by norm_num) (by norm_num) (by norm_num)
  have hg1 : toNumber (34 / 100) = 6124895493223875 / 18014398509481984 :=
    toNumber_eval _ _ (-2) 6124895493223875 (by norm_num) (by norm_num) (by norm_num)
      (by norm_num [abs_lt]) (by norm_num)
  rw [computeTotals_of_subtotal orders _ h, TAX_RATE_eq, SERVICE_RATE_eq, hs, hP, hta, hQ, hsv,
    hta1, hsv1, hS1, hS2, hg, hg1]

/-- The totals of a subtotal of 437.5. -/
theorem computeTotals_at_cart (orders : List OrderRow) (h : subtotalOf orders = 875 / 2) :
    computeTotals orders
      = { subtotal := 875 / 2, tax := toNumber (2188 / 100), service := toNumber (4375 / 100),
          grandTotal := toNumber (50313 / 100) } := by
  have hP : numMul (875 / 2) (3602879701896397 / 72057594037927936) = 175 / 8 :=
    toNumber_eval _ _ (4) 6157265115545600 (by norm_num) (by norm_num) (by norm_num)
      (by norm_num [abs_lt]) (by norm_num)
  have hta : toFixed2 (175 / 8) = toNumber (2188 / 100) :=
    toFixed2_eval _ _ 2188 (by norm_num) (by norm_num) (by norm_num) (by norm_num) (by norm_num)
  have hQ : numMul (875 / 2) (3602879701896397 / 36028797018963968) = 175 / 4 :=
    toNumber_eval _ _ (5) 6157265115545600 (by norm_num) (by norm_num) (by norm_num)
      (by norm_num [abs_lt]) (by norm_num)
  have hsv : toFixed2 (175 / 4) = toNumber (4375 / 100) :=
    toFixed2_eval _ _ 4375 (by norm_num) (by norm_num) (by norm_num) (by norm_num) (by norm_num)
  have hta1 : toNumber (2188 / 100) = 6158672490429153 / 281474976710656 :=
    toNumber_eval _ _ (4) 6158672490429153 (by norm_num) (by norm_num) (by norm_num)
      (by norm_num [abs_lt]) (by norm_num)
  have hsv1 : toNumber (4375 / 100) = 175 / 4 :=
    toNumber_eval _ _ (5) 6157265115545600 (by norm_num) (by norm_num) (by norm_num)
      (by norm_num [abs_lt]) (by norm_num)
  have hS1 : numAdd (875 / 2) (6158672490429153 / 281474976710656)
      = 4040749212541911 / 8796093022208 := by
    rw [numAdd, if_neg (by norm_num), if_neg (by norm_num)]
    exact toNumber_eval _ _ (8) 8081498425083822 (by norm_num) (by norm_num) (by norm_num)
      (by norm_num [abs_lt]) (by norm_num)
  have hS2 : numAdd (4040749212541911 / 8796093022208) (175 / 4)
      = 4425578282263511 / 8796093022208 := by
    rw [numAdd, if_neg (by norm_num), if_neg (by norm_num)]
    exact toNumber_eval _ _ (8) 8851156564527022 (by norm_num) (by norm_num) (by norm_num)
      (by norm_num [abs_lt]) (by norm_num)
  have hg : toFixed2 (4425578282263511 / 8796093022208) = toNumber (50313 / 100) :=
    toFixed2_eval _ _ 50313 (by norm_num) (by norm_num) (by norm_num) (by norm_num) (by norm_num)
  have hg1 : toNumber (50313 / 100) = 4425578282263511 / 8796093022208 :=
    toNumber_eval _ _ (8) 8851156564527022 (by norm_num) (by norm_num) (by norm_num)
      (by norm_num [abs_lt]) (by norm_num)
  rw [computeTotals_of_subtotal orders _ h, TAX_RATE_eq, SERVICE_RATE_eq, hP, hta, hQ, hsv,
    hta1, hsv1, hS1, hS2, hg, hg1]

theorem toNumber_cents_1 : toNumber (1 / 100) = 5764607523034235 / 576460752303423488 :=
  toNumber_eval _ _ (-7) 5764607523034235 (by norm_num) (by norm_num) (by norm_num)
    (by norm_num [abs_lt]) (by norm_num)

theorem toNumber_cents_2 : toNumber (2 / 100) = 5764607523034235 / 288230376151711744 :=
  toNumber_eval _ _ (-6) 5764607523034235 (by norm_num) (by norm_num) (by norm_num)
    (by norm_num [abs_lt]) (by norm_num)

theorem toNumber_cents_3 : toNumber (3 / 100) = 1080863910568919 / 36028797018963968 :=
  toNumber_eval _ _ (-6) 8646911284551352 (by norm_num) (by norm_num) (by norm_num)
    (by norm_num [abs_lt]) (by norm_num)

theorem toNumber_cents_4 : toNumber (4 / 100) = 5764607523034235 / 144115188075855872 :=
  toNumber_eval _ _ (-5) 5764607523034235 (by norm_num) (by norm_num) (by norm_num)
    (by norm_num [abs_lt]) (by norm_num)

theorem toNumber_cents_7 : toNumber (7 / 100) = 1261007895663739 / 18014398509481984 :=
  toNumber_eval _ _ (-4) 5044031582654956 (by norm_num) (by norm_num) (by norm_num)
    (by norm_num [abs_lt]) (by norm_num)

theorem toNumber_cents_30 : toNumber (30 / 100) = 5404319552844595 / 18014398509481984 :=
  toNumber_eval _ _ (-2) 5404319552844595 (by norm_num) (by norm_num) (by norm_num)
    (by norm_num [abs_lt]) (by norm_num)

theorem toNumber_cents_34 : toNumber (34 / 100) = 6124895493223875 / 18014398509481984 :=
  toNumber_eval _ _ (-2) 6124895493223875 (by norm_num) (by norm_num) (by norm_num)
    (by norm_num [abs_lt]) (by norm_num)

theorem toNumber_cents_43 : toNumber (43 / 100) = 7746191359077253 / 18014398509481984 :=
  toNumber_eval _ _ (-2) 7746191359077253 (by norm_num) (by norm_num) (by norm_num)
    (by norm_num [abs_lt]) (by norm_num)

/-- A successful `createBill` answers the bill built from the orders of the
normalized table. -/
theorem createBill_json (db : Db) (table : Option String) (clk : BillClock) (bill : Bill)
    (h : (createBill db table clk).body = .json bill) :
    ∃ raw, table = some raw ∧
      bill = buildBill (normalizeTable raw) (ordersOfTable db.orders (normalizeTable raw)) clk := by
  unfold createBill at h
  cases table with
  | none => simp at h
  | some raw =>
    refine ⟨raw, rfl, ?_⟩
    simp only at h
    split_ifs at h with h1 h2
    · split at h
      · simp at h
      · simpa using h.symm

/-! ## Totals of a bill (C1, C2) -/

/-- C1: when `createBill` succeeds, the subtotal on the bill is the running
sum of `total_price`, not rounded to hundredths, over all stored orders whose
table is the normalized table, whatever their status; the tax is `toFixed2` of
the product of the subtotal and the number 0.05, the service charge is
`toFixed2` of the product of the subtotal and the number 0.10, and the grand
total, which is also the bill's total amount, is `toFixed2` of the sum of
subtotal, tax and service.  Sums and products are those of binary64
numbers. -/
theorem createBill_totals (db : Db) (raw : String) (clk : BillClock) (bill : Bill)
    (h : (createBill db (some raw) clk).body = .json bill) :
    bill.totals.subtotal
      = (db.orders.filter (fun o => decide (o.table_name = normalizeTable raw))).foldl
          (fun sum o => numAdd sum o.total_price) 0 ∧
    bill.totals.tax = toFixed2 (numMul bill.totals.subtotal (toNumber (5 / 100))) ∧
    bill.totals.service = toFixed2 (numMul bill.totals.subtotal (toNumber (10 / 100))) ∧
    bill.totals.grandTotal
      = toFixed2 (numAdd (numAdd bill.totals.subtotal bill.totals.tax) bill.totals.service) ∧
    bill.totalAmount = bill.totals.grandTotal := by
  obtain ⟨raw1, hraw, hbill⟩ := createBill_json db (some raw) clk bill h
  cases hraw
  subst hbill
  refine ⟨?_, rfl, rfl, rfl, rfl⟩
  show subtotalOf (ordersOfTable db.orders (normalizeTable raw)) = _
  rw [subtotalOf_eq_foldl]
  have hf : ordersOfTable db.orders (normalizeTable raw)
      = db.orders.filter (fun o => decide (o.table_name = normalizeTable raw)) := by
    unfold ordersOfTable
    apply List.filter_congr
    intro o _
    rfl
  rw [hf]

/-- C1, the scenario of the specification: the two orders of table 3, worth
100 x 1 and 50 x 2, give subtotal 200, tax 10, service 20 and grand total
230, and these are related as the theorem says. -/
theorem createBill_totals_witness :
    ∃ bill, (createBill exampleDb (some "3") exampleClock).body = .json bill ∧
      bill.totals = { subtotal := 200, tax := 10, service := 20, grandTotal := 230 } ∧
      bill.totals.subtotal
        = (exampleDb.orders.filter (fun o => decide (o.table_name = normalizeTable "3"))).foldl
            (fun sum o => numAdd sum o.total_price) 0 ∧
      bill.totals.tax = toFixed2 (numMul bill.totals.subtotal (toNumber (5 / 100))) ∧
      bill.totals.service = toFixed2 (numMul bill.totals.subtotal (toNumber (10 / 100))) ∧
      bill.totals.grandTotal
        = toFixed2 (numAdd (numAdd bill.totals.subtotal bill.totals.tax)
            bill.totals.service) := by
  obtain ⟨bill, hb⟩ :
      ∃ bill, (createBill exampleDb (some "3") exampleClock).body = .json bill := ⟨_, rfl⟩
  obtain ⟨h1, h2, h3, h4, _⟩ := createBill_totals exampleDb "3" exampleClock bill hb
  refine ⟨bill, hb, ?_, h1, h2, h3, h4⟩
  obtain ⟨raw1, hraw, hbill⟩ := createBill_json exampleDb (some "3") exampleClock bill hb
  cases hraw
  have hn : normalizeTable "3" = "Table 3" := by decide
  have hs : subtotalOf (ordersOfTable exampleDb.orders (normalizeTable "3")) = 200 := by
    have h200 : toNumber (100 + 100) = 200 :=
      toNumber_eval _ _ 7 7036874417766400 (by norm_num) (by norm_num) (by norm_num)
        (by norm_num [abs_lt]) (by norm_num)
    rw [subtotalOf_eq_foldl, hn]
    simp [ordersOfTable, exampleDb, exampleOrders, numAdd, h200]
  rw [hbill]
  exact computeTotals_at_200 _ hs

/-- C2, counterexample: the bill of a single order of 0.0625 has tax 0,
service 0.01 and grand total 0.07, which is neither the exact sum of 0.0625, 0
and the number 0.01 nor their sum as binary64 numbers. -/
theorem createBill_grandTotal_not_sum :
    ∃ bill, (createBill sixteenthDb (some "1") exampleClock).body = .json bill ∧
      bill.totals = { subtotal := 1 / 16, tax := 0, service := toNumber (1 / 100),
                      grandTotal := toNumber (7 / 100) } ∧
      bill.totals.grandTotal
        ≠ bill.totals.subtotal + bill.totals.tax + bill.totals.service ∧
      bill.totals.grandTotal
        ≠ numAdd (numAdd bill.totals.subtotal bill.totals.tax) bill.totals.service := by
  refine ⟨_, rfl, ?_⟩
  have hT : (buildBill (normalizeTable "1")
        (ordersOfTable sixteenthDb.orders (normalizeTable "1")) exampleClock).totals
      = { subtotal := 1 / 16, tax := 0, service := toNumber (1 / 100),
          grandTotal := toNumber (7 / 100) } := by
    have hn : normalizeTable "1" = "Table 1" := by decide
    have hs : subtotalOf (ordersOfTable sixteenthDb.orders (normalizeTable "1")) = 1 / 16 := by
      rw [subtotalOf_eq_foldl, hn]
      simp [ordersOfTable, sixteenthDb, numAdd]
    exact computeTotals_at_sixteenth _ hs
  refine ⟨hT, ?_, ?_⟩
  · rw [hT]
    simp only
    rw [toNumber_cents_1, toNumber_cents_7]
    norm_num
  · rw [hT]
    simp only
    have hsum : numAdd (numAdd (1 / 16) 0) (toNumber (1 / 100))
        = 5224175567749775 / 72057594037927936 := by
      rw [toNumber_cents_1]
      have h0 : numAdd (1 / 16) 0 = 1 / 16 := by norm_num [numAdd]
      rw [h0, numAdd, if_neg (by norm_num), if_neg (by norm_num)]
      exact toNumber_eval _ _ (-4) 5224175567749775 (by norm_num) (by norm_num) (by norm_num)
        (by norm_num [abs_lt]) (by norm_num)
    rw [hsum, toNumber_cents_7]
    norm_num

/-- C2, amended: on the bill of a successful `createBill` the grand total is
`toFixed2` of the sum, as binary64 numbers, of subtotal, tax and service.
While that sum is below `10^21` in magnitude, the grand total is the number of
a whole count of hundredths that is within half a hundredth of the sum, so the
grand total is within half a hundredth plus one rounding of a number of the
sum. -/
theorem createBill_grandTotal_rounded (db : Db) (raw : String) (clk : BillClock) (bill : Bill)
    (h : (createBill db (some raw) clk).body = .json bill) :
    bill.totals.grandTotal
      = toFixed2 (numAdd (numAdd bill.totals.subtotal bill.totals.tax) bill.totals.service) ∧
    (|numAdd (numAdd bill.totals.subtotal bill.totals.tax) bill.totals.service|
        < 1000000000000000000000 →
      ∃ n : ℤ, bill.totals.grandTotal = toNumber ((n : ℚ) / 100) ∧
        |(n : ℚ) / 100
          - numAdd (numAdd bill.totals.subtotal bill.totals.tax) bill.totals.service|
          ≤ 1 / 200 ∧
        |bill.totals.grandTotal
          - numAdd (numAdd bill.totals.subtotal bill.totals.tax) bill.totals.service|
          ≤ 1 / 200
            + (|numAdd (numAdd bill.totals.subtotal bill.totals.tax) bill.totals.service|
                + 1 / 200) / 2 ^ 53
            + 1 / 2 ^ 1075) := by
  obtain ⟨raw1, hraw, hbill⟩ := createBill_json db (some raw) clk bill h
  cases hraw
  subst hbill
  refine ⟨rfl, fun hlt => ?_⟩
  obtain ⟨n, hn, hnear⟩ := toFixed2_cents_near _ hlt
  refine ⟨n, hn, hnear, ?_⟩
  have hg : (buildBill (normalizeTable raw) (ordersOfTable db.orders (normalizeTable raw))
      clk).totals.grandTotal = toNumber ((n : ℚ) / 100) := hn
  rw [hg]
  have herr := abs_toNumber_sub_le ((n : ℚ) / 100)
  have habs : |(n : ℚ) / 100|
      ≤ |numAdd (numAdd (buildBill (normalizeTable raw)
            (ordersOfTable db.orders (normalizeTable raw)) clk).totals.subtotal
          (buildBill (normalizeTable raw)
            (ordersOfTable db.orders (normalizeTable raw)) clk).totals.tax)
          (buildBill (normalizeTable raw)
            (ordersOfTable db.orders (normalizeTable raw)) clk).totals.service| + 1 / 200 := by
    have := abs_sub_abs_le_abs_sub ((n : ℚ) / 100)
      (numAdd (numAdd (buildBill (normalizeTable raw)
            (ordersOfTable db.orders (normalizeTable raw)) clk).totals.subtotal
          (buildBill (normalizeTable raw)
            (ordersOfTable db.orders (normalizeTable raw)) clk).totals.tax)
          (buildBill (normalizeTable raw)
            (ordersOfTable db.orders (normalizeTable raw)) clk).totals.service)
    linarith
  have hdiv : |(n : ℚ) / 100| / 2 ^ 53
      ≤ (|numAdd (numAdd (buildBill (normalizeTable raw)
            (ordersOfTable db.orders (normalizeTable raw)) clk).totals.subtotal
          (buildBill (normalizeTable raw)
            (ordersOfTable db.orders (normalizeTable raw)) clk).totals.tax)
          (buildBill (normalizeTable raw)
            (ordersOfTable db.orders (normalizeTable raw)) clk).totals.service| + 1 / 200)
        / 2 ^ 53 :=
    div_le_div_of_nonneg_right habs (by positivity)
  have htri := abs_sub_le (toNumber ((n : ℚ) / 100)) ((n : ℚ) / 100)
    (numAdd (numAdd (buildBill (normalizeTable raw)
            (ordersOfTable db.orders (normalizeTable raw)) clk).totals.subtotal
          (buildBill (normalizeTable raw)
            (ordersOfTable db.orders (normalizeTable raw)) clk).totals.tax)
          (buildBill (normalizeTable raw)
            (ordersOfTable db.orders (normalizeTable raw)) clk).totals.service)
  linarith

/-- C2, amended, at the bill of a single order of 0.375: subtotal 0.375, tax
0.02, service 0.04 and grand total 0.43, the rounding of the binary64 sum,
which lies just below 0.435. -/
theorem createBill_grandTotal_rounded_witness :
    ∃ bill, (createBill threeEighthsDb (some "1") exampleClock).body = .json bill ∧
      bill.totals = { subtotal := 3 / 8, tax := toNumber (2 / 100),
                      service := toNumber (4 / 100), grandTotal := toNumber (43 / 100) } ∧
      bill.totals.grandTotal
        = toFixed2 (numAdd (numAdd bill.totals.subtotal bill.totals.tax)
            bill.totals.service) := by
  refine ⟨_, rfl, ?_, (createBill_grandTotal_rounded threeEighthsDb "1" exampleClock _ rfl).1⟩
  have hn : normalizeTable "1" = "Table 1" := by decide
  have hs : subtotalOf (ordersOfTable threeEighthsDb.orders (normalizeTable "1")) = 3 / 8 := by
    rw [subtotalOf_eq_foldl, hn]
    simp [ordersOfTable, threeEighthsDb, numAdd]
  exact computeTotals_at_three_eighths _ hs

/-! ## Table normalization (C3) -/

theorem trimChars_eq_rdropWhile (l : List Char) :
    trimChars l = (l.dropWhile isJsSpace).rdropWhile isJsSpace := rfl

/-- A list that `trim` leaves alone starts and ends with a character that is
not white space. -/
theorem ends_of_trimChars_eq {l : List Char} (h : trimChars l = l) (hne : l ≠ []) :
    (∃ c cs, l = c :: cs ∧ isJsSpace c = false) ∧ isJsSpace (l.getLast hne) = false := by
  rw [trimChars_eq_rdropWhile] at h
  have hlen1 : ((l.dropWhile isJsSpace).rdropWhile isJsSpace).length
      ≤ (l.dropWhile isJsSpace).length := ( List.rdropWhile_prefix _ _).length_le
  have hsuf : l.dropWhile isJsSpace <:+ l := List.dropWhile_suffix _
  have hlen2 := hsuf.length_le
  have hd : l.dropWhile isJsSpace = l := by
    apply hsuf.eq_of_length
    rw [h] at hlen1
    omega
  rw [hd] at h
  constructor
  · cases l with
    | nil => exact absurd rfl hne
    | cons c cs =>
      refine ⟨c, cs, rfl, ?_⟩
      by_contra hc
      have hc1 : isJsSpace c = true := by simpa using hc
      have hl := hsuf.length_le
      rw [List.dropWhile_cons_of_pos hc1] at hd
      have := (List.dropWhile_suffix isJsSpace (l := cs)).length_le
      rw [hd] at this
      simp at this
  · have := (List.rdropWhile_eq_self_iff).1 h hne
    simpa using this

/-- A non-empty list that starts and ends with a character that is not white
space is left alone by `trim`. -/
theorem trimChars_eq_of_ends (c : Char) (cs : List Char) (hc : isJsSpace c = false)
    (hlast : isJsSpace ((c :: cs).getLast (List.cons_ne_nil c cs)) = false) :
    trimChars (c :: cs) = c :: cs := by
  rw [trimChars_eq_rdropWhile, List.dropWhile_cons_of_neg (by simp [hc])]
  rw [List.rdropWhile_eq_self_iff]
  intro _
  simp [hlast]

theorem collapseFrom_of_not_space (b : Bool) (c : Char) (cs : List Char)
    (hc : isJsSpace c = false) :
    collapseFrom b (c :: cs) = c :: collapseFrom false cs := by
  simp [collapseFrom, hc]

theorem collapseFrom_true_of_space (c : Char) (cs : List Char) (hc : isJsSpace c = true) :
    collapseFrom true (c :: cs) = collapseFrom true cs := by
  simp [collapseFrom, hc]

theorem collapseFrom_false_of_space (c : Char) (cs : List Char) (hc : isJsSpace c = true) :
    collapseFrom false (c :: cs) = ' ' :: collapseFrom true cs := by
  simp [collapseFrom, hc]

/-- The three spellings of a table reference, on characters. -/
theorem normalizeChars_spellings (n : List Char) (hne : n ≠ [])
    (htrim : trimChars n = n) (hcol : collapseChars n = n)
    (hpre : startsWithTable n = false) :
    normalizeChars n = 'T' :: 'a' :: 'b' :: 'l' :: 'e' :: ' ' :: n ∧
    normalizeChars ('T' :: 'a' :: 'b' :: 'l' :: 'e' :: ' ' :: n)
      = 'T' :: 'a' :: 'b' :: 'l' :: 'e' :: ' ' :: n ∧
    normalizeChars ('t' :: 'a' :: 'b' :: 'l' :: 'e' :: ' ' :: ' ' :: ' ' :: n)
      = 't' :: 'a' :: 'b' :: 'l' :: 'e' :: ' ' :: n := by
  obtain ⟨⟨c, cs, rfl, hc⟩, hlast⟩ := ends_of_trimChars_eq htrim hne
  have hT : isJsSpace 'T' = false := by decide
  have ht : isJsSpace 't' = false := by decide
  have ha : isJsSpace 'a' = false := by decide
  have hb : isJsSpace 'b' = false := by decide
  have hl : isJsSpace 'l' = false := by decide
  have he : isJsSpace 'e' = false := by decide
  have hs : isJsSpace ' ' = true := by decide
  have hcol1 : collapseFrom true (c :: cs) = c :: cs := by
    rw [collapseFrom_of_not_space _ _ _ hc]
    have := hcol
    unfold collapseChars at this
    rwa [collapseFrom_of_not_space _ _ _ hc] at this
  refine ⟨?_, ?_, ?_⟩
  · unfold normalizeChars
    simp only [htrim, hpre]
    rfl
  · have h1 : trimChars ('T' :: 'a' :: 'b' :: 'l' :: 'e' :: ' ' :: c :: cs)
        = 'T' :: 'a' :: 'b' :: 'l' :: 'e' :: ' ' :: c :: cs := by
      apply trimChars_eq_of_ends _ _ hT
      simpa using hlast
    have h2 : startsWithTable ('T' :: 'a' :: 'b' :: 'l' :: 'e' :: ' ' :: c :: cs) = true := by
      simp [startsWithTable, lowerChars, List.isPrefixOf]
    unfold normalizeChars
    simp only [h1, h2, if_true]
    unfold collapseChars
    rw [collapseFrom_of_not_space _ _ _ hT, collapseFrom_of_not_space _ _ _ ha,
      collapseFrom_of_not_space _ _ _ hb, collapseFrom_of_not_space _ _ _ hl,
      collapseFrom_of_not_space _ _ _ he, collapseFrom_false_of_space _ _ hs, hcol1]
    exact h1
  · have h1 : trimChars ('t' :: 'a' :: 'b' :: 'l' :: 'e' :: ' ' :: ' ' :: ' ' :: c :: cs)
        = 't' :: 'a' :: 'b' :: 'l' :: 'e' :: ' ' :: ' ' :: ' ' :: c :: cs := by
      apply trimChars_eq_of_ends _ _ ht
      simpa using hlast
    have h3 : trimChars ('t' :: 'a' :: 'b' :: 'l' :: 'e' :: ' ' :: c :: cs)
        = 't' :: 'a' :: 'b' :: 'l' :: 'e' :: ' ' :: c :: cs := by
      apply trimChars_eq_of_ends _ _ ht
      simpa using hlast
    have h2 : startsWithTable
        ('t' :: 'a' :: 'b' :: 'l' :: 'e' :: ' ' :: ' ' :: ' ' :: c :: cs) = true := by
      simp [startsWithTable, lowerChars, List.isPrefixOf]
    unfold normalizeChars
    simp only [h1, h2, if_true]
    unfold collapseChars
    rw [collapseFrom_of_not_space _ _ _ ht, collapseFrom_of_not_space _ _ _ ha,
      collapseFrom_of_not_space _ _ _ hb, collapseFrom_of_not_space _ _ _ hl,
      collapseFrom_of_not_space _ _ _ he, collapseFrom_false_of_space _ _ hs,
      collapseFrom_true_of_space _ _ hs, collapseFrom_true_of_space _ _ hs, hcol1]
    exact h3

/-- C3, failing input: with the orders of table 3 stored under `Table 3`, the
reference `table   3` passes the prefix test, which ignores case, and is
normalized to `table 3`, its prefix in the case it came in; the lookup, which
compares with case, finds no order and `createBill` answers 404, while `3` and
`Table 3` are billed. -/
theorem createBill_lowercase_table_differs :
    normalizeTable "3" = "Table 3" ∧ normalizeTable "Table 3" = "Table 3" ∧
    normalizeTable "table   3" = "table 3" ∧
    (createBill exampleDb (some "3") exampleClock).status = 201 ∧
    (createBill exampleDb (some "Table 3") exampleClock).status = 201 ∧
    (createBill exampleDb (some "table   3") exampleClock).status = 404 ∧
    ordersOfTable exampleDb.orders (normalizeTable "table   3")
      ≠ ordersOfTable exampleDb.orders (normalizeTable "3") := by
  decide

/-- The two capitalised spellings: for a table reference `n` that is not empty,
is trimmed, has only single spaces as white space and does not itself start
with `table `, the references `n` and `Table n` both normalize to `Table n`,
and so `createBill` selects the same stored orders for both. -/
theorem normalizeTable_spellings (n : String) (hne : n.data ≠ [])
    (htrim : trimChars n.data = n.data) (hcol : collapseChars n.data = n.data)
    (hpre : startsWithTable n.data = false) :
    normalizeTable n = "Table " ++ n ∧
    normalizeTable ("Table " ++ n) = "Table " ++ n ∧
    ∀ orders : List OrderRow,
      ordersOfTable orders (normalizeTable n)
        = ordersOfTable orders (normalizeTable ("Table " ++ n)) := by
  obtain ⟨h1, h2, _⟩ := normalizeChars_spellings n.data hne htrim hcol hpre
  have e1 : normalizeTable n = "Table " ++ n := by
    apply String.ext
    simpa [normalizeTable] using h1
  have e2 : normalizeTable ("Table " ++ n) = "Table " ++ n := by
    apply String.ext
    simpa [normalizeTable] using h2
  refine ⟨e1, e2, fun orders => ?_⟩
  rw [e1, e2]

/-- The spellings `3` and `Table 3`. -/
theorem normalizeTable_spellings_witness :
    normalizeTable "3" = "Table " ++ "3" ∧
    normalizeTable ("Table " ++ "3") = "Table " ++ "3" ∧
    ∀ orders : List OrderRow,
      ordersOfTable orders (normalizeTable "3")
        = ordersOfTable orders (normalizeTable ("Table " ++ "3")) :=
  normalizeTable_spellings "3" (by decide) (by decide) (by decide) (by decide)

/-! ## The archive loop -/

theorem insertArchived_some {archived archived1 : List ArchivedRow} {r : ArchivedRow}
    (h : insertArchived archived r = some archived1) :
    archived1 = archived ++ [r] ∧ ∀ a ∈ archived, a.id ≠ r.id := by
  unfold insertArchived at h
  split_ifs at h with hany
  refine ⟨by simpa using h.symm, fun a ha heq => hany ?_⟩
  exact List.any_eq_true.2 ⟨a, ha, by simp [heq]⟩

theorem insertArchived_none {archived : List ArchivedRow} {r : ArchivedRow}
    (h : insertArchived archived r = none) : ∃ a ∈ archived, a.id = r.id := by
  unfold insertArchived at h
  split_ifs at h with hany
  obtain ⟨a, ha, heq⟩ := List.any_eq_true.1 hany
  exact ⟨a, ha, by simpa using heq⟩

/-- A loop that runs to its end has appended one archived row per bill, in
the order of the rows. -/
theorem archiveLoop_true (now : String) (rows : List BillRow) (archived out : List ArchivedRow)
    (h : archiveLoop now rows archived = (out, true)) :
    out = archived ++ rows.map (toArchived now) := by
  induction rows generalizing archived with
  | nil => simpa [archiveLoop] using h.symm
  | cons b rest ih =>
    unfold archiveLoop at h
    split at h
    · simp at h
    · rename_i archived1 hins
      rw [ih archived1 h, (insertArchived_some hins).1]
      simp

/-- A loop that is ended by a throwing insert has appended the rows before
the failing one and nothing else; the failing bill has the id of a row that
is in the archive by then. -/
theorem archiveLoop_false (now : String) (rows : List BillRow) (archived out : List ArchivedRow)
    (h : archiveLoop now rows archived = (out, false)) :
    ∃ k b, rows[k]? = some b ∧
      out = archived ++ (rows.take k).map (toArchived now) ∧
      ∃ a ∈ out, a.id = b.id := by
  induction rows generalizing archived with
  | nil => simp [archiveLoop] at h
  | cons b rest ih =>
    unfold archiveLoop at h
    split at h
    · rename_i hins
      obtain ⟨a, ha, heq⟩ := insertArchived_none hins
      have hout : out = archived := by simpa using h.symm
      subst hout
      exact ⟨0, b, by simp, by simp, a, ha, by simpa [toArchived] using heq⟩
    · rename_i archived1 hins
      obtain ⟨k, b1, hk, hout, hdup⟩ := ih archived1 h
      refine ⟨k + 1, b1, by simpa using hk, ?_, hdup⟩
      rw [hout, (insertArchived_some hins).1]
      simp

/-- The loop runs to its end when the ids of the rows are distinct and none
is in the archive. -/
theorem archiveLoop_succeeds (now : String) (rows : List BillRow) (archived : List ArchivedRow)
    (hfresh : ∀ b ∈ rows, ∀ a ∈ archived, a.id ≠ b.id)
    (hnodup : (rows.map (fun b => b.id)).Nodup) :
    (archiveLoop now rows archived).2 = true := by
  induction rows generalizing archived with
  | nil => rfl
  | cons b rest ih =>
    unfold archiveLoop
    split
    · rename_i hins
      obtain ⟨a, ha, heq⟩ := insertArchived_none hins
      exact absurd heq (hfresh b (List.mem_cons_self _ _) a ha)
    · rename_i archived1 hins
      rw [List.map_cons, List.nodup_cons] at hnodup
      apply ih archived1 _ hnodup.2
      intro b1 hb1 a ha
      rw [(insertArchived_some hins).1, List.mem_append] at ha
      rcases ha with ha | ha
      · exact hfresh b1 (List.mem_cons_of_mem _ hb1) a ha
      · have : a = toArchived now b := by simpa using ha
        subst this
        intro heq
        apply hnodup.1
        rw [List.mem_map]
        exact ⟨b1, hb1, heq.symm⟩

theorem selectBills_perm (bills : List BillRow) (r : DateRange) :
    (selectBills bills r).Perm (matching bills r) := by
  unfold selectBills matching
  split
  · exact List.perm_insertionSort _ _
  · exact List.perm_insertionSort _ _

theorem deleteBills_eq (bills : List BillRow) (r : DateRange) :
    deleteBills bills r = bills.filter (fun b => decide (b ∉ matching bills r)) := by
  unfold deleteBills matching
  split
  · rename_i lo hi _
    apply List.filter_congr
    intro b hb
    simp [List.mem_filter, hb]
  · symm
    rw [List.filter_eq_nil_iff]
    intro b hb
    simp [hb]

theorem toISOString_ne_empty (t : Int) : (toISOString t).data ≠ [] := by
  unfold toISOString
  split
  simp

/-- The two ways `archiveBills` ends: the loop ran to its end, or an insert
threw. -/
theorem archiveBills_cases (parse : DateParser) (db : Db) (q : Query) (nowMs : Int) :
    ((archiveLoop (toISOString nowMs) (selectBills db.bills (parseDateRange parse q))
          db.archived).2 = true ∧
      archiveBills parse db q nowMs
        = ⟨200, .json (selectBills db.bills (parseDateRange parse q)).length,
            { db with
              archived := (archiveLoop (toISOString nowMs)
                (selectBills db.bills (parseDateRange parse q)) db.archived).1,
              bills := deleteBills db.bills (parseDateRange parse q) },
            [.bills_updated, .archived_bills_updated]⟩) ∨
    ((archiveLoop (toISOString nowMs) (selectBills db.bills (parseDateRange parse q))
          db.archived).2 = false ∧
      archiveBills parse db q nowMs
        = ⟨500, .error "UNIQUE constraint failed: archived_bills.id",
            { db with
              archived := (archiveLoop (toISOString nowMs)
                (selectBills db.bills (parseDateRange parse q)) db.archived).1 },
            []⟩) := by
  unfold archiveBills
  simp only
  rcases h : archiveLoop (toISOString nowMs) (selectBills db.bills (parseDateRange parse q))
      db.archived with ⟨out, ok⟩
  cases ok
  · right
    exact ⟨rfl, rfl⟩
  · left
    exact ⟨rfl, rfl⟩

theorem matching_subset (bills : List BillRow) (r : DateRange) :
    ∀ b, b ∈ matching bills r → b ∈ bills := by
  intro b hb
  unfold matching at hb
  split at hb
  · exact List.mem_of_mem_filter hb
  · exact hb

/-- The loop of `archiveBills` runs to its end when the ids of the active
bills are distinct and none of them is in the archive. -/
theorem archiveLoop_selectBills_succeeds (now : String) (db : Db) (r : DateRange)
    (hnodup : (db.bills.map (fun b => b.id)).Nodup)
    (hdisj : ∀ b ∈ db.bills, ∀ a ∈ db.archived, a.id ≠ b.id) :
    (archiveLoop now (selectBills db.bills r) db.archived).2 = true := by
  have hperm := selectBills_perm db.bills r
  have hsl : (matching db.bills r).Sublist db.bills := by
    unfold matching
    split
    · exact List.filter_sublist _
    · exact List.Sublist.refl _
  have hnd : ((selectBills db.bills r).map (fun b => b.id)).Nodup :=
    ((hperm.map _).nodup_iff).2 ((hsl.map _).nodup hnodup)
  exact archiveLoop_succeeds now _ db.archived
    (fun b hb a ha => hdisj b (matching_subset _ _ b (hperm.mem_iff.1 hb)) a ha) hnd

/-! ## Archiving (C4, C5, C6) -/

/-- C4: after a successful `archiveBills`, with `M` the active bills whose
`paid_at_iso` lies in the inclusive range (all active bills without a range),
the active table is the old one without the bills of `M`, the archive is the
old one followed by one row per bill of `M`, the reported count is the size of
`M` and the orders are untouched; the row written for a bill has the same id,
table, order snapshot, total amount, `paid_at`, `paid_at_iso` and totals, and
the non-empty ISO text of the current time as `archived_at`; when `M` is empty
the call succeeds with count 0 and the database is unchanged. -/
theorem archiveBills_moves (parse : DateParser) (db : Db) (q : Query) (nowMs : Int) :
    ((archiveBills parse db q nowMs).status = 200 →
      (archiveBills parse db q nowMs).db.bills
        = db.bills.filter (fun b => decide (b ∉ matching db.bills (parseDateRange parse q))) ∧
      (∃ moved : List BillRow, moved.Perm (matching db.bills (parseDateRange parse q)) ∧
        (archiveBills parse db q nowMs).db.archived
          = db.archived ++ moved.map (toArchived (toISOString nowMs))) ∧
      (archiveBills parse db q nowMs).body
        = .json (matching db.bills (parseDateRange parse q)).length ∧
      (archiveBills parse db q nowMs).db.orders = db.orders) ∧
    (∀ b : BillRow,
      (toArchived (toISOString nowMs) b).id = b.id ∧
      (toArchived (toISOString nowMs) b).table_name = b.table_name ∧
      (toArchived (toISOString nowMs) b).orders = b.orders ∧
      (toArchived (toISOString nowMs) b).total_amount = b.total_amount ∧
      (toArchived (toISOString nowMs) b).paid_at = b.paid_at ∧
      (toArchived (toISOString nowMs) b).paid_at_iso = b.paid_at_iso ∧
      totalsOrFallback (toArchived (toISOString nowMs) b).totals
          (toArchived (toISOString nowMs) b).total_amount
        = totalsOrFallback b.totals b.total_amount ∧
      (∀ t, b.totals = some t → (toArchived (toISOString nowMs) b).totals = some t) ∧
      (toArchived (toISOString nowMs) b).archived_at = toISOString nowMs ∧
      (toArchived (toISOString nowMs) b).archived_at.data ≠ []) ∧
    (matching db.bills (parseDateRange parse q) = [] →
      (archiveBills parse db q nowMs).status = 200 ∧
      (archiveBills parse db q nowMs).body = .json 0 ∧
      (archiveBills parse db q nowMs).db = db) := by
  refine ⟨fun hok => ?_, fun b => ?_, fun hM => ?_⟩
  · rcases archiveBills_cases parse db q nowMs with ⟨hloop, heq⟩ | ⟨_, heq⟩
    · rw [heq]
      refine ⟨deleteBills_eq _ _, ⟨_, selectBills_perm _ _, ?_⟩, ?_, rfl⟩
      · exact archiveLoop_true _ _ _ _ (Prod.ext rfl hloop)
      · show Body.json _ = Body.json _
        rw [(selectBills_perm db.bills (parseDateRange parse q)).length_eq]
    · rw [heq] at hok
      simp at hok
  · refine ⟨rfl, rfl, rfl, rfl, rfl, rfl, rfl, ?_, rfl, toISOString_ne_empty nowMs⟩
    intro t ht
    simp [toArchived, totalsOrFallback, ht]
  · have hsel : selectBills db.bills (parseDateRange parse q) = [] :=
      List.Perm.eq_nil (hM ▸ selectBills_perm db.bills (parseDateRange parse q))
    have hdel : deleteBills db.bills (parseDateRange parse q) = db.bills := by
      rw [deleteBills_eq, hM]
      simp
    rcases archiveBills_cases parse db q nowMs with ⟨_, heq⟩ | ⟨hloop, _⟩
    · rw [heq, hsel, hdel]
      exact ⟨rfl, rfl, rfl⟩
    · rw [hsel] at hloop
      simp [archiveLoop] at hloop

/-- C4, the scenario of the specification: of two bills paid on 15 and on 17
January, a range from 15 to 16 January moves the first and leaves the second
active. -/
theorem archiveBills_moves_witness :
    (archiveBills isoDateOnly twoBillsDb ⟨some "2024-01-15", some "2024-01-16"⟩
        jan18Ms).status = 200 ∧
    (archiveBills isoDateOnly twoBillsDb ⟨some "2024-01-15", some "2024-01-16"⟩
        jan18Ms).db.bills = [billJan17] ∧
    (archiveBills isoDateOnly twoBillsDb ⟨some "2024-01-15", some "2024-01-16"⟩
        jan18Ms).db.archived = [toArchived "2024-01-18T08:00:00.000Z" billJan15] ∧
    (archiveBills isoDateOnly twoBillsDb ⟨some "2024-01-15", some "2024-01-16"⟩
        jan18Ms).body = .json 1 := by
  have h := (archiveBills_moves isoDateOnly twoBillsDb ⟨some "2024-01-15", some "2024-01-16"⟩
    jan18Ms).1 (by decide)
  have hM : matching twoBillsDb.bills
      (parseDateRange isoDateOnly ⟨some "2024-01-15", some "2024-01-16"⟩) = [billJan15] := by
    decide
  rw [hM] at h
  refine ⟨by decide, ?_, by decide, h.2.2.1⟩
  rw [h.1]
  decide

/-- C5, counterexample: in `clashDb` the bills `bill_1705320000000` (paid on
15 January) and `bill_1705482000000` (paid on 17 January) are active and the
archive holds a row with the first id.  `archiveBills` without a range inserts
the bill of 17 January, throws on the other one and answers 500; the active
table is as before, but the archive has kept the row of the bill of
17 January. -/
theorem archiveBills_failure_keeps_inserted :
    clashDb.bills.map (fun b => b.id) = ["bill_1705320000000", "bill_1705482000000"] ∧
    clashDb.archived.map (fun a => a.id) = ["bill_1705320000000"] ∧
    (archiveBills isoDateOnly clashDb ⟨none, none⟩ jan18Ms).status = 500 ∧
    (archiveBills isoDateOnly clashDb ⟨none, none⟩ jan18Ms).db.bills = clashDb.bills ∧
    (archiveBills isoDateOnly clashDb ⟨none, none⟩ jan18Ms).db.archived.map (fun a => a.id)
      = ["bill_1705320000000", "bill_1705482000000"] ∧
    (archiveBills isoDateOnly clashDb ⟨none, none⟩ jan18Ms).db.archived ≠ clashDb.archived := by
  refine ⟨by decide, by decide, by decide, rfl, by decide, fun h => ?_⟩
  have hlen := congrArg List.length h
  revert hlen
  decide

/-- C5, amended: when `archiveBills` fails, nothing is rolled back: the active
bills and the orders are as before the call and no event is sent, while the
archive is the old one followed by the rows of the bills inserted before the
failing one, in the order of the select; the failing bill is the next one, and
its id is in the archive. -/
theorem archiveBills_failure_state (parse : DateParser) (db : Db) (q : Query) (nowMs : Int)
    (hfail : (archiveBills parse db q nowMs).status ≠ 200) :
    (archiveBills parse db q nowMs).status = 500 ∧
    (archiveBills parse db q nowMs).db.bills = db.bills ∧
    (archiveBills parse db q nowMs).db.orders = db.orders ∧
    (archiveBills parse db q nowMs).events = [] ∧
    ∃ k b, (selectBills db.bills (parseDateRange parse q))[k]? = some b ∧
      (archiveBills parse db q nowMs).db.archived
        = db.archived ++ ((selectBills db.bills (parseDateRange parse q)).take k).map
            (toArchived (toISOString nowMs)) ∧
      ∃ a ∈ (archiveBills parse db q nowMs).db.archived, a.id = b.id := by
  rcases archiveBills_cases parse db q nowMs with ⟨_, heq⟩ | ⟨hloop, heq⟩
  · rw [heq] at hfail
    exact absurd rfl hfail
  · rw [heq]
    refine ⟨rfl, rfl, rfl, rfl, ?_⟩
    exact archiveLoop_false _ _ _ _ (Prod.ext rfl hloop)

/-- C5, amended, at the failing call on `clashDb`. -/
theorem archiveBills_failure_state_witness :
    (archiveBills isoDateOnly clashDb ⟨none, none⟩ jan18Ms).status ≠ 200 ∧
    (archiveBills isoDateOnly clashDb ⟨none, none⟩ jan18Ms).db.bills = clashDb.bills ∧
    (archiveBills isoDateOnly clashDb ⟨none, none⟩ jan18Ms).events = [] :=
  ⟨by decide,
    (archiveBills_failure_state isoDateOnly clashDb ⟨none, none⟩ jan18Ms (by decide)).2.1,
    (archiveBills_failure_state isoDateOnly clashDb ⟨none, none⟩ jan18Ms (by decide)).2.2.2.1⟩

/-- C6, counterexample: in `clashDb` the id `bill_1705482000000` is in the
active table only; after the failed `archiveBills` it is in the active table
and in the archive. -/
theorem archiveBills_failure_duplicates_bill :
    "bill_1705482000000" ∈ clashDb.bills.map (fun b => b.id) ∧
    "bill_1705482000000" ∉ clashDb.archived.map (fun a => a.id) ∧
    (archiveBills isoDateOnly clashDb ⟨none, none⟩ jan18Ms).status = 500 ∧
    "bill_1705482000000"
      ∈ (archiveBills isoDateOnly clashDb ⟨none, none⟩ jan18Ms).db.bills.map (fun b => b.id) ∧
    "bill_1705482000000"
      ∈ (archiveBills isoDateOnly clashDb ⟨none, none⟩ jan18Ms).db.archived.map
          (fun a => a.id) := by
  decide

/-- C6, amended: when the ids of the active bills are distinct and none of
them is in the archive before the call, `archiveBills` succeeds and afterwards
no id is in both the active table and the archive. -/
theorem archiveBills_keeps_disjoint (parse : DateParser) (db : Db) (q : Query) (nowMs : Int)
    (hnodup : (db.bills.map (fun b => b.id)).Nodup)
    (hdisj : ∀ b ∈ db.bills, ∀ a ∈ db.archived, a.id ≠ b.id) :
    (archiveBills parse db q nowMs).status = 200 ∧
    ∀ b ∈ (archiveBills parse db q nowMs).db.bills,
      ∀ a ∈ (archiveBills parse db q nowMs).db.archived, a.id ≠ b.id := by
  have hperm := selectBills_perm db.bills (parseDateRange parse q)
  have hsub := matching_subset db.bills (parseDateRange parse q)
  have hloop := archiveLoop_selectBills_succeeds (toISOString nowMs) db
    (parseDateRange parse q) hnodup hdisj
  rcases archiveBills_cases parse db q nowMs with ⟨_, heq⟩ | ⟨hbad, _⟩
  · rw [heq]
    refine ⟨rfl, ?_⟩
    intro b hb a ha
    have hout := archiveLoop_true _ _ _ _ (Prod.ext rfl hloop :
      archiveLoop (toISOString nowMs) (selectBills db.bills (parseDateRange parse q))
        db.archived = (_, true))
    simp only at hb ha
    rw [deleteBills_eq, List.mem_filter] at hb
    have ha1 : a ∈ db.archived ++ List.map (toArchived (toISOString nowMs))
        (selectBills db.bills (parseDateRange parse q)) := by
      rw [← hout]
      exact ha
    rcases List.mem_append.1 ha1 with ha | ha
    · exact hdisj b hb.1 a ha
    · obtain ⟨b1, hb1, rfl⟩ := List.mem_map.1 ha
      have hb1M : b1 ∈ matching db.bills (parseDateRange parse q) := hperm.mem_iff.1 hb1
      have hbM : b ∉ matching db.bills (parseDateRange parse q) := by simpa using hb.2
      intro hid
      have : b1 = b :=
        List.inj_on_of_nodup_map hnodup (hsub b1 hb1M) hb.1 hid
      exact hbM (this ▸ hb1M)
  · rw [hloop] at hbad
    simp at hbad

/-- C6, amended, at the two active bills and an empty archive. -/
theorem archiveBills_keeps_disjoint_witness :
    (twoBillsDb.bills.map (fun b => b.id)).Nodup ∧
    (∀ b ∈ twoBillsDb.bills, ∀ a ∈ twoBillsDb.archived, a.id ≠ b.id) ∧
    (archiveBills isoDateOnly twoBillsDb ⟨some "2024-01-15", some "2024-01-16"⟩
        jan18Ms).status = 200 ∧
    ∀ b ∈ (archiveBills isoDateOnly twoBillsDb ⟨some "2024-01-15", some "2024-01-16"⟩
        jan18Ms).db.bills,
      ∀ a ∈ (archiveBills isoDateOnly twoBillsDb ⟨some "2024-01-15", some "2024-01-16"⟩
        jan18Ms).db.archived, a.id ≠ b.id :=
  ⟨by decide, by decide,
    archiveBills_keeps_disjoint isoDateOnly twoBillsDb ⟨some "2024-01-15", some "2024-01-16"⟩
      jan18Ms (by decide) (by decide)⟩

/-! ## The end bound of a range (C7) -/

/-- C7, the code at the failing input: table 3 is billed at noon UTC of
15 January 2024 and the range is 15 January to 15 January.  The effective
`parseDateRange` turns both bounds into midnight UTC of that day, so the bill
is not listed and not archived; the first declaration of `parseDateRange`,
which the later one replaces, moves the end bound to 23:59:59.999 and would
select the bill. -/
theorem parseDateRange_end_is_midnight :
    paidOnceDb.bills.map (fun b => b.paid_at_iso) = [some "2024-01-15T12:00:00.000Z"] ∧
    parseDateRange isoDateOnly ⟨some "2024-01-15", some "2024-01-15"⟩
      = ⟨some "2024-01-15T00:00:00.000Z", some "2024-01-15T00:00:00.000Z"⟩ ∧
    matching paidOnceDb.bills
      (parseDateRange isoDateOnly ⟨some "2024-01-15", some "2024-01-15"⟩) = [] ∧
    listBills isoDateOnly paidOnceDb ⟨some "2024-01-15", some "2024-01-15"⟩ = [] ∧
    (archiveBills isoDateOnly paidOnceDb ⟨some "2024-01-15", some "2024-01-15"⟩
        jan18Ms).body = .json 0 ∧
    (archiveBills isoDateOnly paidOnceDb ⟨some "2024-01-15", some "2024-01-15"⟩
        jan18Ms).db.bills.map (fun b => b.id) = ["bill_1705320000000"] ∧
    (archiveBills isoDateOnly paidOnceDb ⟨some "2024-01-15", some "2024-01-15"⟩
        jan18Ms).db.archived = [] ∧
    parseDateRangeFirst isoDateOnly 0 ⟨some "2024-01-15", some "2024-01-15"⟩
      = some ⟨some "2024-01-15T00:00:00.000Z", some "2024-01-15T23:59:59.999Z"⟩ ∧
    ((parseDateRangeFirst isoDateOnly 0 ⟨some "2024-01-15", some "2024-01-15"⟩).map
        (fun r => (matching paidOnceDb.bills r).map (fun b => b.id)))
      = some ["bill_1705320000000"] := by
  decide

/-! ## Outcomes of `createBill` (C8, C9) -/

theorem truthy_some {raw : String} (h : raw.data ≠ []) : truthy (some raw) = true := by
  cases hd : raw.data with
  | nil => exact absurd hd h
  | cons c cs => simp [truthy, hd]

/-- The three ways `createBill` ends on a non-empty table reference: no order
of the table, an insert that throws, or a stored bill. -/
theorem createBill_cases (db : Db) (raw : String) (clk : BillClock) (hraw : raw.data ≠ []) :
    (ordersOfTable db.orders (normalizeTable raw) = [] ∧
      createBill db (some raw) clk
        = ⟨404, .error ("No orders found for " ++ normalizeTable raw), db, []⟩) ∨
    (ordersOfTable db.orders (normalizeTable raw) ≠ [] ∧
      insertBill db.bills (billRowOf (buildBill (normalizeTable raw)
        (ordersOfTable db.orders (normalizeTable raw)) clk)) = none ∧
      createBill db (some raw) clk
        = ⟨500, .error "UNIQUE constraint failed: bills.id", db, []⟩) ∨
    (ordersOfTable db.orders (normalizeTable raw) ≠ [] ∧
      ∃ bills, insertBill db.bills (billRowOf (buildBill (normalizeTable raw)
        (ordersOfTable db.orders (normalizeTable raw)) clk)) = some bills ∧
      createBill db (some raw) clk
        = ⟨201, .json (buildBill (normalizeTable raw)
              (ordersOfTable db.orders (normalizeTable raw)) clk),
            { db with bills := bills, orders := markPaid db.orders (normalizeTable raw) },
            [.orders_updated, .bills_updated]⟩) := by
  unfold createBill
  simp only [truthy_some hraw, Bool.not_true, Bool.false_eq_true, if_false]
  cases hos : ordersOfTable db.orders (normalizeTable raw) with
  | nil => left; simp
  | cons o os =>
    right
    cases hins : insertBill db.bills (billRowOf (buildBill (normalizeTable raw)
        (o :: os) clk)) with
    | none => left; simp
    | some bills => right; exact ⟨by simp, bills, rfl, by simp⟩

theorem ordersOfTable_eq_nil_iff (orders : List OrderRow) (table : String) :
    ordersOfTable orders table = [] ↔ ∀ o ∈ orders, o.table_name ≠ table := by
  unfold ordersOfTable
  rw [List.filter_eq_nil_iff]
  constructor
  · intro h o ho heq
    exact h o ho (by simp [heq])
  · intro h o ho heq
    exact h o ho (by simpa using heq)

theorem insertBill_none_iff (bills : List BillRow) (r : BillRow) :
    insertBill bills r = none ↔ ∃ b ∈ bills, b.id = r.id := by
  unfold insertBill
  constructor
  · intro h
    split_ifs at h with hany
    obtain ⟨b, hb, heq⟩ := List.any_eq_true.1 hany
    exact ⟨b, hb, by simpa using heq⟩
  · rintro ⟨b, hb, heq⟩
    rw [if_pos (List.any_eq_true.2 ⟨b, hb, by simp [heq]⟩)]

theorem insertBill_some {bills bills1 : List BillRow} {r : BillRow}
    (h : insertBill bills r = some bills1) : bills1 = bills ++ [r] := by
  unfold insertBill at h
  split_ifs at h
  simpa using h.symm

/-- C8, counterexample: a second `createBill` for table 3 in the millisecond
of the first finds the orders of the table, so it is not a `NotFound`, yet it
adds no bill: the id `bill_1705320000000` is taken, the insert throws and the
answer is 500 with the database unchanged. -/
theorem createBill_same_millisecond :
    ordersOfTable paidOnceDb.orders (normalizeTable "3") ≠ [] ∧
    paidOnceDb.bills.map (fun b => b.id) = ["bill_1705320000000"] ∧
    (createBill paidOnceDb (some "3") exampleClock).status = 500 ∧
    (createBill paidOnceDb (some "3") exampleClock).db.bills.length = paidOnceDb.bills.length ∧
    (createBill paidOnceDb (some "3") exampleClock).events = [] := by
  decide

/-- C8, amended: on a non-empty table reference `createBill` answers 404
exactly when no stored order has the normalized table, and then the database
is unchanged and no event is sent; when the table has orders and no active
bill carries the id `bill_` followed by the clock reading, the answer is 201
and exactly one row, that of the answered bill, is appended to the active
bills; when the id is taken the answer is 500, the database is unchanged and
no event is sent. -/
theorem createBill_notFound_iff (db : Db) (raw : String) (clk : BillClock)
    (hraw : raw.data ≠ []) :
    ((createBill db (some raw) clk).status = 404
      ↔ ∀ o ∈ db.orders, o.table_name ≠ normalizeTable raw) ∧
    ((createBill db (some raw) clk).status = 404 →
      (createBill db (some raw) clk).db = db ∧ (createBill db (some raw) clk).events = []) ∧
    ((∃ o ∈ db.orders, o.table_name = normalizeTable raw) →
      (∀ b ∈ db.bills, b.id ≠ "bill_" ++ toString clk.nowMs) →
      (createBill db (some raw) clk).status = 201 ∧
      ∃ bill, (createBill db (some raw) clk).body = .json bill ∧
        bill.id = "bill_" ++ toString clk.nowMs ∧ bill.table = normalizeTable raw ∧
        (createBill db (some raw) clk).db.bills = db.bills ++ [billRowOf bill] ∧
        (createBill db (some raw) clk).db.archived = db.archived) ∧
    ((∃ o ∈ db.orders, o.table_name = normalizeTable raw) →
      (∃ b ∈ db.bills, b.id = "bill_" ++ toString clk.nowMs) →
      (createBill db (some raw) clk).status = 500 ∧
      (createBill db (some raw) clk).db = db ∧ (createBill db (some raw) clk).events = []) := by
  have hnil := ordersOfTable_eq_nil_iff db.orders (normalizeTable raw)
  have hex : (∃ o ∈ db.orders, o.table_name = normalizeTable raw) →
      ordersOfTable db.orders (normalizeTable raw) ≠ [] := by
    rintro ⟨o, ho, heq⟩ h
    exact hnil.1 h o ho heq
  rcases createBill_cases db raw clk hraw with ⟨hos, heq⟩ | ⟨hos, hins, heq⟩ | ⟨hos, bills, hins, heq⟩
  · rw [heq]
    refine ⟨⟨fun _ => hnil.1 hos, fun _ => rfl⟩, fun _ => ⟨rfl, rfl⟩, ?_, ?_⟩
    · intro h
      exact absurd hos (hex h)
    · intro h
      exact absurd hos (hex h)
  · rw [heq]
    refine ⟨⟨fun h => by simp at h, fun h => absurd (hnil.2 h) hos⟩, fun h => by simp at h,
      ?_, fun _ _ => ⟨rfl, rfl, rfl⟩⟩
    intro _ hfresh
    obtain ⟨b, hb, hid⟩ := (insertBill_none_iff _ _).1 hins
    exact absurd hid (hfresh b hb)
  · rw [heq]
    refine ⟨⟨fun h => by simp at h, fun h => absurd (hnil.2 h) hos⟩, fun h => by simp at h,
      fun _ _ => ⟨rfl, _, rfl, rfl, rfl, insertBill_some hins, rfl⟩, ?_⟩
    intro _ htaken
    have hnone : insertBill db.bills (billRowOf (buildBill (normalizeTable raw)
        (ordersOfTable db.orders (normalizeTable raw)) clk)) = none :=
      (insertBill_none_iff _ _).2 htaken
    rw [hins] at hnone
    simp at hnone

/-- C8, amended, at the reference `3` on `exampleDb`. -/
theorem createBill_notFound_iff_witness :
    "3".data ≠ [] ∧
    ((createBill exampleDb (some "3") exampleClock).status = 404
      ↔ ∀ o ∈ exampleDb.orders, o.table_name ≠ normalizeTable "3") :=
  ⟨by decide, (createBill_notFound_iff exampleDb "3" exampleClock (by decide)).1⟩

/-- C9: after a successful `createBill` the stored orders are the old ones in
the same places, each with all fields but the status unchanged; an order of
the normalized table has status `Paid` whatever its status was, and an order
of another table is unchanged. -/
theorem createBill_marks_paid (db : Db) (raw : String) (clk : BillClock)
    (hok : (createBill db (some raw) clk).status = 201) :
    List.Forall₂
      (fun o o1 : OrderRow =>
        o1.id = o.id ∧ o1.table_name = o.table_name ∧ o1.items = o.items ∧
        o1.total_price = o.total_price ∧ o1.time = o.time ∧
        (o.table_name = normalizeTable raw → o1.status = "Paid") ∧
        (o.table_name ≠ normalizeTable raw → o1 = o))
      db.orders (createBill db (some raw) clk).db.orders ∧
    ∀ o ∈ (createBill db (some raw) clk).db.orders,
      o.table_name = normalizeTable raw → o.status = "Paid" := by
  have hraw : raw.data ≠ [] := by
    intro h
    have : truthy (some raw) = false := by simp [truthy, h]
    simp [createBill, this] at hok
  rcases createBill_cases db raw clk hraw with ⟨_, heq⟩ | ⟨_, _, heq⟩ | ⟨_, bills, _, heq⟩
  · rw [heq] at hok
    simp at hok
  · rw [heq] at hok
    simp at hok
  · rw [heq]
    simp only
    constructor
    · unfold markPaid
      rw [List.forall₂_map_right_iff]
      apply List.forall₂_same.2
      intro o _
      by_cases ht : o.table_name = normalizeTable raw
      · simp [ht]
      · simp [ht]
    · intro o ho ht
      unfold markPaid at ho
      obtain ⟨o0, _, rfl⟩ := List.mem_map.1 ho
      by_cases h0 : o0.table_name = normalizeTable raw
      · simp [h0]
      · simp [h0] at ht

/-- C9, at the scenario: billing table 3 turns its `Placed` and its
`Delivered` order to `Paid` and leaves the order of table 7 `Preparing`. -/
theorem createBill_marks_paid_witness :
    (createBill exampleDb (some "3") exampleClock).status = 201 ∧
    (createBill exampleDb (some "3") exampleClock).db.orders.map (fun o => o.status)
      = ["Paid", "Preparing", "Paid"] ∧
    ∀ o ∈ (createBill exampleDb (some "3") exampleClock).db.orders,
      o.table_name = normalizeTable "3" → o.status = "Paid" :=
  ⟨by decide, by decide,
    (createBill_marks_paid exampleDb "3" exampleClock (by decide)).2⟩

/-! ## Archiving without a range (C10) -/

theorem isoBound_eq_none (parse : DateParser) (v : Option String)
    (h : ∀ s, v = some s → s = "" ∨ parse s = none) : isoBound parse v = none := by
  cases v with
  | none => rfl
  | some s =>
    rcases h s rfl with rfl | hp
    · rfl
    · simp [isoBound, hp]

theorem bounds_eq_none_of_absent (parse : DateParser) (q : Query)
    (habsent : (∀ s, q.start = some s → s = "" ∨ parse s = none) ∨
      (∀ s, q.end_ = some s → s = "" ∨ parse s = none)) :
    (parseDateRange parse q).bounds = none := by
  unfold DateRange.bounds parseDateRange
  rcases habsent with h | h
  · simp [isoBound_eq_none parse _ h]
  · rw [isoBound_eq_none parse _ h]
    cases isoBound parse q.start <;> rfl

/-- C10: when `start` or `end` is missing, empty or not a date the parser
reads, `archiveBills` addresses every active bill: it selects all of them, and
when it succeeds the active table is empty, the count is the number of active
bills and the archive has gained one row for each of them; it succeeds
whenever the ids of the active bills are distinct and none is archived. -/
theorem archiveBills_without_range (parse : DateParser) (db : Db) (q : Query) (nowMs : Int)
    (habsent : (∀ s, q.start = some s → s = "" ∨ parse s = none) ∨
      (∀ s, q.end_ = some s → s = "" ∨ parse s = none)) :
    matching db.bills (parseDateRange parse q) = db.bills ∧
    (selectBills db.bills (parseDateRange parse q)).Perm db.bills ∧
    ((archiveBills parse db q nowMs).status = 200 →
      (archiveBills parse db q nowMs).db.bills = [] ∧
      (archiveBills parse db q nowMs).body = .json db.bills.length ∧
      ∃ moved : List BillRow, moved.Perm db.bills ∧
        (archiveBills parse db q nowMs).db.archived
          = db.archived ++ moved.map (toArchived (toISOString nowMs))) ∧
    ((db.bills.map (fun b => b.id)).Nodup →
      (∀ b ∈ db.bills, ∀ a ∈ db.archived, a.id ≠ b.id) →
      (archiveBills parse db q nowMs).status = 200) := by
  have hb := bounds_eq_none_of_absent parse q habsent
  have hM : matching db.bills (parseDateRange parse q) = db.bills := by
    unfold matching
    rw [hb]
  have hperm : (selectBills db.bills (parseDateRange parse q)).Perm db.bills := by
    have h := selectBills_perm db.bills (parseDateRange parse q)
    rwa [hM] at h
  have hdel : deleteBills db.bills (parseDateRange parse q) = [] := by
    unfold deleteBills
    rw [hb]
  refine ⟨hM, hperm, fun hok => ?_, fun hnodup hdisj => ?_⟩
  · rcases archiveBills_cases parse db q nowMs with ⟨hloop, heq⟩ | ⟨_, heq⟩
    · rw [heq]
      refine ⟨hdel, ?_, _, hperm, archiveLoop_true _ _ _ _ (Prod.ext rfl hloop)⟩
      show Body.json _ = Body.json _
      rw [hperm.length_eq]
    · rw [heq] at hok
      simp at hok
  · have hloop := archiveLoop_selectBills_succeeds (toISOString nowMs) db
      (parseDateRange parse q) hnodup hdisj
    rcases archiveBills_cases parse db q nowMs with ⟨_, heq⟩ | ⟨hbad, _⟩
    · rw [heq]
    · rw [hloop] at hbad
      simp at hbad

/-- C10, at a request that carries only a valid `start`: both active bills
are archived and the active table is empty. -/
theorem archiveBills_without_range_witness :
    (archiveBills isoDateOnly twoBillsDb ⟨some "2024-01-17", none⟩ jan18Ms).status = 200 ∧
    (archiveBills isoDateOnly twoBillsDb ⟨some "2024-01-17", none⟩ jan18Ms).db.bills = [] ∧
    (archiveBills isoDateOnly twoBillsDb ⟨some "2024-01-17", none⟩ jan18Ms).body = .json 2 ∧
    (archiveBills isoDateOnly twoBillsDb ⟨some "2024-01-17", none⟩ jan18Ms).db.archived.map
        (fun a => a.id) = ["bill_1705482000000", "bill_1705320000000"] :=
  ⟨by decide,
    ((archiveBills_without_range isoDateOnly twoBillsDb ⟨some "2024-01-17", none⟩ jan18Ms
      (Or.inr (fun s h => by simp at h))).2.2.1 (by decide)).1,
    ((archiveBills_without_range isoDateOnly twoBillsDb ⟨some "2024-01-17", none⟩ jan18Ms
      (Or.inr (fun s h => by simp at h))).2.2.1 (by decide)).2.1,
    by decide⟩

/-! ## Listing the archive (C11) -/

/-- C11, the code at the failing input: the archive holds a bill paid on
9 January 2024 and one paid on 15 January 2024, noon UTC, with `paid_at` texts
`1/9/2024, 12:00:00 PM` and `1/15/2024, 12:00:00 PM`.  `listArchivedBills`
filters and sorts on `paid_at`: for the range 1 to 31 January it returns
nothing although both ISO timestamps lie in the range, and without a range it
returns the bill of 9 January before that of 15 January.  The select of the
export route, on `paid_at_iso`, returns both bills, the recent one first. -/
theorem listArchivedBills_uses_paid_at :
    archivedTwoDb.archived.map (fun a => (a.id, a.paid_at, a.paid_at_iso))
      = [("bill_1705320000000", "1/15/2024, 12:00:00 PM", some "2024-01-15T12:00:00.000Z"),
         ("bill_1704801600000", "1/9/2024, 12:00:00 PM", some "2024-01-09T12:00:00.000Z")] ∧
    parseDateRange isoDateOnly ⟨some "2024-01-01", some "2024-01-31"⟩
      = ⟨some "2024-01-01T00:00:00.000Z", some "2024-01-31T00:00:00.000Z"⟩ ∧
    listArchivedBills isoDateOnly archivedTwoDb ⟨some "2024-01-01", some "2024-01-31"⟩ = [] ∧
    (listArchivedBills isoDateOnly archivedTwoDb ⟨none, none⟩).map (fun b => (b.id, b.paidAt))
      = [("bill_1704801600000", "1/9/2024, 12:00:00 PM"),
         ("bill_1705320000000", "1/15/2024, 12:00:00 PM")] ∧
    (selectArchivedForExport archivedTwoDb.archived
        (parseDateRange isoDateOnly ⟨some "2024-01-01", some "2024-01-31"⟩)).map (fun a => a.id)
      = ["bill_1705320000000", "bill_1704801600000"] ∧
    (selectArchivedForExport archivedTwoDb.archived
        (parseDateRange isoDateOnly ⟨none, none⟩)).map (fun a => a.id)
      = ["bill_1705320000000", "bill_1704801600000"] := by
  decide

/-! ## Order of the rows (C12) -/

theorem textLe_iff (a b : String) : textLe a b = true ↔ a ≤ b := by
  unfold textLe
  rw [decide_eq_true_iff, String.le_iff_toList_le]
  rfl

theorem textLe_total (a b : String) : textLe a b = true ∨ textLe b a = true := by
  rw [textLe_iff, textLe_iff]
  exact le_total a b

theorem textLe_trans {a b c : String} (h1 : textLe a b = true) (h2 : textLe b c = true) :
    textLe a c = true := by
  rw [textLe_iff] at *
  exact le_trans h1 h2

theorem textLe_antisymm {a b : String} (h1 : textLe a b = true) (h2 : textLe b a = true) :
    a = b := by
  rw [textLe_iff] at *
  exact le_antisymm h1 h2

theorem nullableLe_refl (x : Option String) : nullableLe x x = true := by
  cases x with
  | none => rfl
  | some a => exact (textLe_iff a a).2 le_rfl

theorem nullableLe_total (x y : Option String) :
    nullableLe x y = true ∨ nullableLe y x = true := by
  cases x <;> cases y <;> simp [nullableLe, textLe_total]

theorem nullableLe_trans {x y z : Option String} (h1 : nullableLe x y = true)
    (h2 : nullableLe y z = true) : nullableLe x z = true := by
  cases x <;> cases y <;> cases z <;> simp_all [nullableLe]
  exact textLe_trans h1 h2

theorem nullableLe_antisymm {x y : Option String} (h1 : nullableLe x y = true)
    (h2 : nullableLe y x = true) : x = y := by
  cases x <;> cases y <;> simp_all [nullableLe]
  exact textLe_antisymm h1 h2

theorem isoPaidDesc_imp_isoDesc {a b : BillRow} (h : isoPaidDesc a b) : isoDesc a b := by
  unfold isoPaidDesc at h
  unfold isoDesc
  split_ifs at h with heq
  · rw [heq]
    exact nullableLe_refl _
  · exact h

theorem isoPaidDesc_total (a b : BillRow) : isoPaidDesc a b ∨ isoPaidDesc b a := by
  unfold isoPaidDesc
  by_cases heq : a.paid_at_iso = b.paid_at_iso
  · rw [if_pos heq, if_pos heq.symm]
    exact textLe_total _ _
  · rw [if_neg heq, if_neg (fun h => heq h.symm)]
    exact nullableLe_total _ _

theorem isoPaidDesc_trans {a b c : BillRow} (h1 : isoPaidDesc a b) (h2 : isoPaidDesc b c) :
    isoPaidDesc a c := by
  unfold isoPaidDesc at *
  by_cases hab : a.paid_at_iso = b.paid_at_iso
  · by_cases hbc : b.paid_at_iso = c.paid_at_iso
    · rw [if_pos hab] at h1
      rw [if_pos hbc] at h2
      rw [if_pos (hab.trans hbc)]
      exact textLe_trans h2 h1
    · rw [if_neg hbc] at h2
      rw [if_neg (fun h => hbc (hab ▸ h)), hab]
      exact h2
  · rw [if_neg hab] at h1
    by_cases hbc : b.paid_at_iso = c.paid_at_iso
    · rw [if_neg (fun h => hab (h.trans hbc.symm)), ← hbc]
      exact h1
    · rw [if_neg hbc] at h2
      have hac : a.paid_at_iso ≠ c.paid_at_iso := by
        intro h
        rw [← h] at h2
        exact hab (nullableLe_antisymm h2 h1)
      rw [if_neg hac]
      exact nullableLe_trans h2 h1

/-- The rows of `selectBills` are in descending order of `paid_at_iso`. -/
theorem selectBills_sorted (bills : List BillRow) (r : DateRange) :
    (selectBills bills r).Pairwise isoDesc := by
  unfold selectBills
  split
  · haveI : IsTotal BillRow isoDesc := ⟨fun a b => nullableLe_total _ _⟩
    haveI : IsTrans BillRow isoDesc := ⟨fun a b c h1 h2 => nullableLe_trans h2 h1⟩
    exact List.sorted_insertionSort isoDesc _
  · haveI : IsTotal BillRow isoPaidDesc := ⟨isoPaidDesc_total⟩
    haveI : IsTrans BillRow isoPaidDesc := ⟨fun a b c h1 h2 => isoPaidDesc_trans h1 h2⟩
    exact (List.sorted_insertionSort isoPaidDesc _).imp isoPaidDesc_imp_isoDesc

theorem truthy_of_ne_empty {s : String} (h : s ≠ "") : truthy (some s) = true := by
  apply truthy_some
  intro hd
  exact h (String.ext hd)

/-- With both `start` and `end` present and readable the bounds are the ISO
texts of the two dates. -/
theorem bounds_of_range (parse : DateParser) (q : Query) (s e : String) (ts te : Int)
    (hs : q.start = some s) (he : q.end_ = some e) (hsne : s ≠ "") (hene : e ≠ "")
    (hps : parse s = some ts) (hpe : parse e = some te) :
    (parseDateRange parse q).bounds = some (toISOString ts, toISOString te) := by
  have h1 : isoBound parse q.start = some (toISOString ts) := by
    simp [hs, isoBound, truthy_of_ne_empty hsne, hps]
  have h2 : isoBound parse q.end_ = some (toISOString te) := by
    simp [he, isoBound, truthy_of_ne_empty hene, hpe]
  have t1 : truthy (some (toISOString ts)) = true := truthy_some (toISOString_ne_empty ts)
  have t2 : truthy (some (toISOString te)) = true := truthy_some (toISOString_ne_empty te)
  simp [DateRange.bounds, parseDateRange, h1, h2, t1, t2]

/-- C12: `listBills` answers the JSON views of rows that are in descending
order of `paid_at_iso` (a missing timestamp last) with or without a range; with
a `start` and an `end` that are present and readable the rows are exactly the
active bills whose `paid_at_iso` lies between the ISO texts of the two dates,
bounds included, and without both bounds they are all active bills. -/
theorem listBills_range_sorted (parse : DateParser) (db : Db) (q : Query) :
    ∃ rows : List BillRow,
      listBills parse db q = rows.map billJsonOf ∧
      rows.Pairwise (fun a b => nullableLe b.paid_at_iso a.paid_at_iso = true) ∧
      (∀ s e ts te, q.start = some s → q.end_ = some e → s ≠ "" → e ≠ "" →
        parse s = some ts → parse e = some te →
        rows.Perm (db.bills.filter
          (fun b => between (toISOString ts) (toISOString te) b.paid_at_iso)) ∧
        ∀ b, b ∈ rows ↔ b ∈ db.bills ∧ ∃ iso, b.paid_at_iso = some iso ∧
          toISOString ts ≤ iso ∧ iso ≤ toISOString te) ∧
      ((parseDateRange parse q).bounds = none → rows.Perm db.bills) := by
  refine ⟨selectBills db.bills (parseDateRange parse q), rfl, selectBills_sorted _ _, ?_, ?_⟩
  · intro s e ts te hs he hsne hene hps hpe
    have hb := bounds_of_range parse q s e ts te hs he hsne hene hps hpe
    have hperm := selectBills_perm db.bills (parseDateRange parse q)
    have hM : matching db.bills (parseDateRange parse q)
        = db.bills.filter (fun b => between (toISOString ts) (toISOString te) b.paid_at_iso) := by
      unfold matching
      rw [hb]
      rfl
    rw [hM] at hperm
    refine ⟨hperm, fun b => ?_⟩
    rw [hperm.mem_iff, List.mem_filter]
    constructor
    · rintro ⟨hmem, hbt⟩
      refine ⟨hmem, ?_⟩
      cases hiso : b.paid_at_iso with
      | none => simp [hiso, between] at hbt
      | some iso =>
        rw [hiso] at hbt
        simp only [between, Bool.and_eq_true] at hbt
        exact ⟨iso, rfl, (textLe_iff _ _).1 hbt.1, (textLe_iff _ _).1 hbt.2⟩
    · rintro ⟨hmem, iso, hiso, h1, h2⟩
      refine ⟨hmem, ?_⟩
      rw [hiso]
      simp only [between, Bool.and_eq_true]
      exact ⟨(textLe_iff _ _).2 h1, (textLe_iff _ _).2 h2⟩
  · intro hb
    have hperm := selectBills_perm db.bills (parseDateRange parse q)
    have hM : matching db.bills (parseDateRange parse q) = db.bills := by
      unfold matching
      rw [hb]
    rwa [hM] at hperm

/-- C12, at the two bills paid on 15 and on 17 January: the range from 15 to
16 January lists the first, and no range lists the bill of 17 January before
that of 15 January. -/
theorem listBills_range_sorted_witness :
    (listBills isoDateOnly twoBillsDb ⟨some "2024-01-15", some "2024-01-16"⟩).map
      (fun b => b.id) = ["bill_1705320000000"] ∧
    (listBills isoDateOnly twoBillsDb ⟨none, none⟩).map (fun b => b.id)
      = ["bill_1705482000000", "bill_1705320000000"] ∧
    ∃ rows : List BillRow,
      listBills isoDateOnly twoBillsDb ⟨none, none⟩ = rows.map billJsonOf ∧
      rows.Pairwise (fun a b => nullableLe b.paid_at_iso a.paid_at_iso = true) := by
  refine ⟨by decide, by decide, ?_⟩
  obtain ⟨rows, h1, h2, _⟩ := listBills_range_sorted isoDateOnly twoBillsDb ⟨none, none⟩
  exact ⟨rows, h1, h2⟩

/-! ## Broadcasting (C13, C14) -/

/-- The loop of `sendSse` always returns, with one call of `res.write` per
observer, in the order of the registry. -/
theorem forEachWrite_ok (throws : ClientId → Bool) (chunk : Chunk) (clients : List ClientId) :
    forEachWrite throws chunk clients
      = .ok (clients.map (fun c => ⟨c, chunk, !throws c⟩)) := by
  induction clients with
  | nil => rfl
  | cons c rest ih =>
    unfold forEachWrite
    rw [ih]
    cases hc : throws c <;> simp [tryWrite, resWrite, hc]

theorem countP_client_eq_one (clients : List ClientId) (c : ClientId)
    (hset : clients.Nodup) (hc : c ∈ clients) :
    clients.countP (fun d => decide (d = c)) = 1 := by
  have h := List.count_eq_one_of_mem hset hc
  rw [List.count_eq_countP] at h
  rw [← h]
  apply List.countP_congr
  intro d _
  simp

/-- C13: for a registry without repetition and any set of observers whose
`res.write` throws, `sendSse` returns normally; it calls `res.write` once for
each registered observer, in registry order, always with the payload of the
event; a call is delivered exactly when the observer is not one that throws, so
an observer that does not throw gets the payload exactly once; and nothing is
written to an observer outside the registry. -/
theorem sendSse_best_effort (clients : List ClientId) (throws : ClientId → Bool)
    (data : EventType) (hset : clients.Nodup) :
    ∃ writes : List Write, sendSse clients throws data = .ok writes ∧
      writes.map (fun w => w.client) = clients ∧
      (∀ w ∈ writes, w.chunk = .event data ∧ w.delivered = !throws w.client) ∧
      (∀ c ∈ clients, (writes.filter (fun w => decide (w.client = c))).length = 1) ∧
      (∀ c ∈ clients, throws c = false →
        (writes.filter (fun w => decide (w.client = c) && w.delivered)).length = 1) ∧
      (∀ c ∈ clients, throws c = true →
        (writes.filter (fun w => decide (w.client = c) && w.delivered)).length = 0) ∧
      (∀ w ∈ writes, w.client ∈ clients) := by
  refine ⟨clients.map (fun c => ⟨c, .event data, !throws c⟩), forEachWrite_ok _ _ _, ?_, ?_,
    ?_, ?_, ?_, ?_⟩
  · rw [List.map_map]
    exact List.map_id clients
  · intro w hw
    obtain ⟨c, _, rfl⟩ := List.mem_map.1 hw
    exact ⟨rfl, rfl⟩
  · intro c hc
    rw [← List.countP_eq_length_filter, List.countP_map]
    exact countP_client_eq_one clients c hset hc
  · intro c hc hok
    rw [← List.countP_eq_length_filter, List.countP_map]
    rw [← countP_client_eq_one clients c hset hc]
    apply List.countP_congr
    intro d _
    by_cases hd : d = c
    · simp [hd, hok]
    · simp [hd]
  · intro c hc hbad
    rw [← List.countP_eq_length_filter, List.countP_map, List.countP_eq_zero]
    intro d _
    by_cases hd : d = c
    · simp [hd, hbad]
    · simp [hd]
  · intro w hw
    obtain ⟨c, hc, rfl⟩ := List.mem_map.1 hw
    exact hc

/-- C13, at a registry of three observers of which the second throws. -/
theorem sendSse_best_effort_witness :
    [1, 2, 3].Nodup ∧
    sendSse [1, 2, 3] (fun c => c == 2) .bills_updated
      = .ok [⟨1, .event .bills_updated, true⟩, ⟨2, .event .bills_updated, false⟩,
             ⟨3, .event .bills_updated, true⟩] ∧
    ∃ writes : List Write, sendSse [1, 2, 3] (fun c => c == 2) .bills_updated = .ok writes ∧
      writes.map (fun w => w.client) = [1, 2, 3] := by
  refine ⟨by decide, rfl, ?_⟩
  obtain ⟨writes, h1, h2, _⟩ :=
    sendSse_best_effort [1, 2, 3] (fun c => c == 2) .bills_updated (by decide)
  exact ⟨writes, h1, h2⟩

theorem eventsWrittenTo_cons (c : ClientId) (w : Write) (rest : List Write) :
    eventsWrittenTo c (w :: rest)
      = eventsWrittenTo c [w] ++ eventsWrittenTo c rest := by
  obtain ⟨d, chunk, b⟩ := w
  cases chunk with
  | retry => rfl
  | keepAlive => rfl
  | event data =>
    simp only [eventsWrittenTo]
    split_ifs <;> rfl

theorem eventsWrittenTo_append (c : ClientId) (l1 l2 : List Write) :
    eventsWrittenTo c (l1 ++ l2) = eventsWrittenTo c l1 ++ eventsWrittenTo c l2 := by
  induction l1 with
  | nil => rfl
  | cons w rest ih =>
    rw [List.cons_append, eventsWrittenTo_cons, ih, eventsWrittenTo_cons c w rest,
      List.append_assoc]

theorem eventsDeliveredTo_append (c : ClientId) (l1 l2 : List Write) :
    eventsDeliveredTo c (l1 ++ l2) = eventsDeliveredTo c l1 ++ eventsDeliveredTo c l2 := by
  unfold eventsDeliveredTo
  rw [List.filter_append, eventsWrittenTo_append]

theorem eventsWrittenTo_send_absent (c : ClientId) (data : EventType) (g : ClientId → Bool)
    (clients : List ClientId) (hc : c ∉ clients) :
    eventsWrittenTo c (clients.map (fun d => (⟨d, .event data, g d⟩ : Write))) = [] := by
  induction clients with
  | nil => rfl
  | cons d rest ih =>
    rw [List.mem_cons, not_or] at hc
    rw [List.map_cons, eventsWrittenTo_cons, ih hc.2]
    simp only [eventsWrittenTo]
    rw [if_neg (fun h => hc.1 h.symm)]
    rfl

/-- One `sendSse` passes the payload of the event once to a registered
observer. -/
theorem eventsWrittenTo_send (c : ClientId) (data : EventType) (g : ClientId → Bool)
    (clients : List ClientId) (hc : c ∈ clients) (hset : clients.Nodup) :
    eventsWrittenTo c (clients.map (fun d => (⟨d, .event data, g d⟩ : Write))) = [data] := by
  induction clients with
  | nil => simp at hc
  | cons d rest ih =>
    rw [List.nodup_cons] at hset
    rw [List.map_cons, eventsWrittenTo_cons]
    by_cases hd : d = c
    · subst hd
      rw [eventsWrittenTo_send_absent d data g rest hset.1]
      simp [eventsWrittenTo]
    · rcases List.mem_cons.1 hc with h | h
      · exact absurd h.symm hd
      · rw [ih h hset.2]
        simp [eventsWrittenTo, hd]

theorem eventsDeliveredTo_send (c : ClientId) (data : EventType) (throws : ClientId → Bool)
    (clients : List ClientId) (hc : c ∈ clients) (hset : clients.Nodup) :
    eventsDeliveredTo c (clients.map (fun d => (⟨d, .event data, !throws d⟩ : Write)))
      = if throws c then [] else [data] := by
  unfold eventsDeliveredTo
  have hf : (clients.map (fun d => (⟨d, .event data, !throws d⟩ : Write))).filter
        (fun w => w.delivered)
      = (clients.filter (fun d => !throws d)).map
          (fun d => (⟨d, .event data, !throws d⟩ : Write)) := by
    rw [List.filter_map]
    rfl
  rw [hf]
  cases ht : throws c
  · exact eventsWrittenTo_send c data _ _ (List.mem_filter.2 ⟨hc, by simp [ht]⟩)
      (hset.filter _)
  · apply eventsWrittenTo_send_absent
    intro hmem
    have := (List.mem_filter.1 hmem).2
    simp [ht] at this

theorem sseStep_connect (s : SseState) (d : ClientId) (throws : ClientId → Bool) :
    sseStep s (.connect d throws)
      = if throws d then { s with log := s.log ++ [⟨d, .retry, false⟩] }
        else { clients := if d ∈ s.clients then s.clients else s.clients ++ [d],
               log := s.log ++ [⟨d, .retry, true⟩] } := by
  cases h : throws d <;> simp [sseStep, resWrite, h]

theorem sseStep_keepAlive (s : SseState) (d : ClientId) (throws : ClientId → Bool) :
    sseStep s (.keepAlive d throws)
      = if d ∈ s.clients then { s with log := s.log ++ [⟨d, .keepAlive, !throws d⟩] }
        else s := by
  by_cases hm : d ∈ s.clients
  · cases h : throws d <;> simp [sseStep, tryWrite, resWrite, h, hm]
  · simp [sseStep, hm]

theorem sseStep_send (s : SseState) (data : EventType) (throws : ClientId → Bool) :
    sseStep s (.send data throws)
      = { s with log := s.log ++ s.clients.map (fun c => ⟨c, .event data, !throws c⟩) } := by
  simp [sseStep, sendSse, forEachWrite_ok]

/-- The effect of one step on what was written to an observer that is and
stays registered. -/
theorem sseStep_events (s : SseState) (step : SseStep) (c : ClientId)
    (hreg : c ∈ s.clients) (hset : s.clients.Nodup) (hstay : step ≠ .close c) :
    c ∈ (sseStep s step).clients ∧ (sseStep s step).clients.Nodup ∧
    eventsWrittenTo c (sseStep s step).log = eventsWrittenTo c s.log ++ emitted [step] ∧
    ∃ got : List EventType, got.Sublist (emitted [step]) ∧
      eventsDeliveredTo c (sseStep s step).log = eventsDeliveredTo c s.log ++ got ∧
      ((∀ data throws, step = .send data throws → throws c = false) →
        got = emitted [step]) := by
  cases step with
  | connect d throws =>
    rw [sseStep_connect]
    cases hd : throws d
    · simp only [Bool.false_eq_true, if_false]
      refine ⟨?_, ?_, ?_, [], List.Sublist.refl _, ?_, fun _ => rfl⟩
      · split_ifs
        · exact hreg
        · exact List.mem_append_left _ hreg
      · split_ifs with hmem
        · exact hset
        · exact List.Nodup.append hset (List.nodup_singleton d) (by simpa using hmem)
      · rw [eventsWrittenTo_append]
        rfl
      · rw [eventsDeliveredTo_append]
        rfl
    · simp only [if_true]
      refine ⟨hreg, hset, ?_, [], List.Sublist.refl _, ?_, fun _ => rfl⟩
      · rw [eventsWrittenTo_append]
        rfl
      · rw [eventsDeliveredTo_append]
        rfl
  | close d =>
    have hdc : c ≠ d := fun h => hstay (by rw [h])
    refine ⟨List.mem_filter.2 ⟨hreg, by simpa using hdc⟩, hset.filter _, ?_,
      [], List.Sublist.refl _, ?_, fun _ => rfl⟩
    · show eventsWrittenTo c s.log = eventsWrittenTo c s.log ++ []
      rw [List.append_nil]
    · show eventsDeliveredTo c s.log = eventsDeliveredTo c s.log ++ []
      rw [List.append_nil]
  | keepAlive d throws =>
    rw [sseStep_keepAlive]
    split_ifs with hmem
    · refine ⟨hreg, hset, ?_, [], List.Sublist.refl _, ?_, fun _ => rfl⟩
      · rw [eventsWrittenTo_append]
        rfl
      · rw [eventsDeliveredTo_append]
        cases throws d <;> rfl
    · refine ⟨hreg, hset, ?_, [], List.Sublist.refl _, ?_, fun _ => rfl⟩
      · show eventsWrittenTo c s.log = eventsWrittenTo c s.log ++ []
        rw [List.append_nil]
      · show eventsDeliveredTo c s.log = eventsDeliveredTo c s.log ++ []
        rw [List.append_nil]
  | send data throws =>
    rw [sseStep_send]
    refine ⟨hreg, hset, ?_, if throws c then [] else [data], ?_, ?_, ?_⟩
    · show eventsWrittenTo c (s.log ++ _) = _
      rw [eventsWrittenTo_append, eventsWrittenTo_send c data _ _ hreg hset]
      rfl
    · cases throws c
      · exact List.Sublist.refl _
      · exact List.nil_sublist _
    · show eventsDeliveredTo c (s.log ++ _) = _
      rw [eventsDeliveredTo_append, eventsDeliveredTo_send c data throws _ hreg hset]
    · intro h
      rw [h data throws rfl]
      rfl

theorem emitted_cons (step : SseStep) (rest : List SseStep) :
    emitted (step :: rest) = emitted [step] ++ emitted rest := by
  cases step <;> rfl

/-- C14: for an observer that is in the registry and whose request does not
close during a sequence of steps (observers connecting and closing, keep-alive
ticks, calls of `sendSse`), the payloads passed to its `res.write` are those of
the emitted events, each once and in the order of emission; the payloads it
received are a subsequence of them in the same order, and all of them when
none of its writes throws. -/
theorem sseRun_event_order (s : SseState) (steps : List SseStep) (c : ClientId)
    (hreg : c ∈ s.clients) (hset : s.clients.Nodup)
    (hstay : ∀ step ∈ steps, step ≠ .close c) :
    eventsWrittenTo c (sseRun s steps).log = eventsWrittenTo c s.log ++ emitted steps ∧
    ∃ got : List EventType, got.Sublist (emitted steps) ∧
      eventsDeliveredTo c (sseRun s steps).log = eventsDeliveredTo c s.log ++ got ∧
      ((∀ data throws, SseStep.send data throws ∈ steps → throws c = false) →
        got = emitted steps) := by
  induction steps generalizing s with
  | nil => exact ⟨by simp [sseRun, emitted], [], List.Sublist.refl _, by simp [sseRun], fun _ => rfl⟩
  | cons step rest ih =>
    obtain ⟨h1, h2, h3, got1, hs1, hd1, hall1⟩ :=
      sseStep_events s step c hreg hset (hstay step (List.mem_cons_self _ _))
    obtain ⟨h4, got2, hs2, hd2, hall2⟩ :=
      ih (sseStep s step) h1 h2 (fun st hst => hstay st (List.mem_cons_of_mem _ hst))
    have hrun : sseRun s (step :: rest) = sseRun (sseStep s step) rest := rfl
    rw [hrun, emitted_cons]
    refine ⟨by rw [h4, h3, List.append_assoc], got1 ++ got2, hs1.append hs2,
      by rw [hd2, hd1, List.append_assoc], ?_⟩
    intro hall
    rw [hall1 (fun data throws hst => hall data throws (hst ▸ List.mem_cons_self _ _)),
      hall2 (fun data throws hst => hall data throws (List.mem_cons_of_mem _ hst))]

/-- C14, at the events of `createBill`: with observers 1 and 2 registered,
while observer 3 connects and observer 1 closes in between, observer 2 is
written `orders_updated` and then `bills_updated`. -/
theorem sseRun_event_order_witness :
    (createBill exampleDb (some "3") exampleClock).events
      = [.orders_updated, .bills_updated] ∧
    eventsWrittenTo 2
        (sseRun ⟨[1, 2], []⟩
          [.connect 3 (fun _ => false), .send .orders_updated (fun _ => false), .close 1,
           .send .bills_updated (fun _ => false)]).log
      = [.orders_updated, .bills_updated] := by
  refine ⟨by decide, ?_⟩
  have h := (sseRun_event_order ⟨[1, 2], []⟩
    [.connect 3 (fun _ => false), .send .orders_updated (fun _ => false), .close 1,
     .send .bills_updated (fun _ => false)] 2 (by decide) (by decide)
    (by
      intro step hstep
      simp only [List.mem_cons, List.mem_singleton, List.not_mem_nil, or_false] at hstep
      rcases hstep with h | h | h | h <;> rw [h] <;> simp)).1
  rw [h]
  rfl

/-! ## Outcomes of `placeOrder` and `updateStatus` -/

theorem any_isNone_iff (els : List (Option ItemArg)) :
    els.any Option.isNone = true ↔ none ∈ els := by
  rw [List.any_eq_true]
  constructor
  · rintro ⟨el, hel, hnone⟩
    cases el with
    | none => exact hel
    | some it => simp at hnone
  · intro h
    exact ⟨none, h, rfl⟩

theorem itemOf_eq_some {it : ItemArg} {i : Item} (h : itemOf it = some i) :
    it.price = .num i.price ∧ it.quantity = .num i.quantity ∧ i.name = it.name ∧
      i.orderType = it.orderType := by
  unfold itemOf at h
  split at h
  · rename_i x y hx hy
    cases h
    exact ⟨hx, hy, rfl, rfl⟩
  · simp at h

theorem itemOf_of_nums {it : ItemArg} {x y : ℚ} (hx : it.price = .num x)
    (hy : it.quantity = .num y) :
    itemOf it = some { name := it.name, price := x, quantity := y, orderType := it.orderType } := by
  unfold itemOf
  rw [hx, hy]

/-- The loop over the items passes with the numbers of each element. -/
theorem checkedItems_eq_some {els : List (Option ItemArg)} {items : List Item}
    (h : checkedItems els = some items) :
    List.Forall₂ (fun el i => ∃ it, el = some it ∧ it.price = .num i.price ∧
      it.quantity = .num i.quantity ∧ i.name = it.name ∧ i.orderType = it.orderType)
      els items := by
  induction els generalizing items with
  | nil =>
    simp [checkedItems] at h
    subst h
    exact List.Forall₂.nil
  | cons el rest ih =>
    cases el with
    | none => simp [checkedItems] at h
    | some it =>
      unfold checkedItems at h
      split at h
      · rename_i i is hi his
        cases h
        exact List.Forall₂.cons ⟨it, rfl, itemOf_eq_some hi⟩ (ih his)
      · simp at h

/-- The loop over the items passes when every element is an object with a
numeric price and quantity. -/
theorem checkedItems_of_nums (els : List (Option ItemArg))
    (h : ∀ el ∈ els, ∃ it x y, el = some it ∧ it.price = .num x ∧ it.quantity = .num y) :
    ∃ items, checkedItems els = some items := by
  induction els with
  | nil => exact ⟨[], rfl⟩
  | cons el rest ih =>
    obtain ⟨it, x, y, rfl, hx, hy⟩ := h el (List.mem_cons_self _ _)
    obtain ⟨items, hitems⟩ := ih (fun e he => h e (List.mem_cons_of_mem _ he))
    refine ⟨{ name := it.name, price := x, quantity := y, orderType := it.orderType } :: items,
      ?_⟩
    unfold checkedItems
    rw [itemOf_of_nums hx hy, hitems]

/-- The four ways `placeOrder` ends: a `TypeError` on a `null` element; a
failed check; a throwing insert; a stored order. -/
theorem placeOrder_cases (db : Db) (p : OrderPayload) (clk : OrderClock) :
    ((∃ els, p.items = some els ∧ none ∈ els) ∧
      placeOrder db p clk
        = ⟨500, .error "TypeError: Cannot read properties of null (reading 'price')", db, []⟩) ∨
    ((∀ els, p.items = some els → none ∉ els) ∧
      (¬ ∃ table els items, p.table = some table ∧ table ≠ "" ∧ p.items = some els ∧
          els ≠ [] ∧ checkedItems els = some items ∧ 0 < orderTotal items) ∧
      ∃ msg, placeOrder db p clk = ⟨400, .error msg, db, []⟩) ∨
    (∃ table els items, p.table = some table ∧ table ≠ "" ∧ p.items = some els ∧
      els ≠ [] ∧ none ∉ els ∧ checkedItems els = some items ∧ 0 < orderTotal items ∧
      ((insertOrder db.orders (newOrderOf table items clk) = none ∧
          placeOrder db p clk
            = ⟨500, .error "Failed to place order. Please try again.", db, []⟩) ∨
        (∃ orders, insertOrder db.orders (newOrderOf table items clk) = some orders ∧
          placeOrder db p clk
            = ⟨201, .json (newOrderOf table items clk), { db with orders := orders },
                [.orders_updated]⟩))) := by
  obtain ⟨tbl, its⟩ := p
  by_cases hnull : (its.getD []).any Option.isNone = true
  · left
    cases its with
    | none => simp at hnull
    | some els =>
      refine ⟨⟨els, rfl, (any_isNone_iff els).1 hnull⟩, ?_⟩
      unfold placeOrder
      rw [if_pos hnull]
  · right
    have hnn : ∀ els, its = some els → none ∉ els := by
      intro els hels hmem
      subst hels
      exact hnull ((any_isNone_iff els).2 hmem)
    unfold placeOrder
    rw [if_neg hnull]
    cases tbl with
    | none => exact Or.inl ⟨hnn, by simp, _, rfl⟩
    | some table =>
      cases its with
      | none => exact Or.inl ⟨hnn, by simp, _, rfl⟩
      | some els =>
        cases els with
        | nil => exact Or.inl ⟨hnn, by simp, _, rfl⟩
        | cons e es =>
          simp only
          by_cases ht : table = ""
          · subst ht
            exact Or.inl ⟨hnn, by simp, _, rfl⟩
          · rw [truthy_of_ne_empty ht]
            simp only [Bool.not_true, Bool.false_eq_true, if_false]
            cases hck : checkedItems (e :: es) with
            | none =>
              refine Or.inl ⟨hnn, ?_, _, rfl⟩
              rintro ⟨t1, els1, items1, h1, _, h3, _, h5, _⟩
              simp only [Option.some.injEq] at h3
              rw [← h3, hck] at h5
              simp at h5
            | some items =>
              simp only
              by_cases htot : orderTotal items ≤ 0
              · rw [if_pos htot]
                refine Or.inl ⟨hnn, ?_, _, rfl⟩
                rintro ⟨t1, els1, items1, h1, _, h3, _, h5, h6⟩
                simp only [Option.some.injEq] at h3
                rw [← h3, hck] at h5
                simp only [Option.some.injEq] at h5
                rw [← h5] at h6
                exact absurd h6 (not_lt.2 htot)
              · rw [if_neg htot]
                refine Or.inr ⟨table, e :: es, items, rfl, ht, rfl, by simp, hnn _ rfl, hck,
                  not_le.1 htot, ?_⟩
                cases hins : insertOrder db.orders (newOrderOf table items clk) with
                | none => exact Or.inl ⟨rfl, rfl⟩
                | some orders => exact Or.inr ⟨orders, rfl, rfl⟩

theorem insertOrder_none_iff (orders : List OrderRow) (r : OrderRow) :
    insertOrder orders r = none ↔ ∃ o ∈ orders, o.id = r.id := by
  unfold insertOrder
  constructor
  · intro h
    split_ifs at h with hany
    obtain ⟨o, ho, heq⟩ := List.any_eq_true.1 hany
    exact ⟨o, ho, by simpa using heq⟩
  · rintro ⟨o, ho, heq⟩
    rw [if_pos (List.any_eq_true.2 ⟨o, ho, by simp [heq]⟩)]

theorem insertOrder_some {orders orders1 : List OrderRow} {r : OrderRow}
    (h : insertOrder orders r = some orders1) : orders1 = orders ++ [r] := by
  unfold insertOrder at h
  split_ifs at h
  simpa using h.symm

theorem checkedItems_no_null {els : List (Option ItemArg)} {items : List Item}
    (h : checkedItems els = some items) : none ∉ els := by
  induction els generalizing items with
  | nil => simp
  | cons el rest ih =>
    cases el with
    | none => simp [checkedItems] at h
    | some it =>
      unfold checkedItems at h
      split at h
      · rename_i i is hi his
        intro hmem
        rcases List.mem_cons.1 hmem with h1 | h1
        · cases h1
        · exact ih his h1
      · simp at h

/-- A payload that passes every check is stored when its id is free. -/
theorem placeOrder_created (db : Db) (table : String) (els : List (Option ItemArg))
    (items : List Item) (clk : OrderClock) (ht : table ≠ "") (hne : els ≠ [])
    (hck : checkedItems els = some items) (hpos : 0 < orderTotal items)
    (hfresh : ∀ o ∈ db.orders, o.id ≠ "ord_" ++ toString clk.nowMs) :
    placeOrder db ⟨some table, some els⟩ clk
      = ⟨201, .json (newOrderOf table items clk),
          { db with orders := db.orders ++ [newOrderOf table items clk] },
          [.orders_updated]⟩ := by
  rcases placeOrder_cases db ⟨some table, some els⟩ clk with
    ⟨⟨els1, h1, hnull⟩, _⟩ | ⟨_, hbad, _⟩ | ⟨t1, els1, items1, h1, _, h3, _, _, h5, _, hres⟩
  · simp only [Option.some.injEq] at h1
    subst h1
    exact absurd hnull (checkedItems_no_null hck)
  · exact absurd ⟨table, els, items, rfl, ht, rfl, hne, hck, hpos⟩ hbad
  · simp only [Option.some.injEq] at h1 h3
    subst h1
    subst h3
    rw [hck] at h5
    simp only [Option.some.injEq] at h5
    subst h5
    rcases hres with ⟨hins, _⟩ | ⟨orders, hins, heq⟩
    · obtain ⟨o, ho, hid⟩ := (insertOrder_none_iff _ _).1 hins
      exact absurd hid (hfresh o ho)
    · rw [heq, insertOrder_some hins]

theorem find_setStatus (orders : List OrderRow) (id s : String) (e : OrderRow)
    (h : orders.find? (fun o => o.id == id) = some e) :
    (setStatus orders id s).find? (fun o => o.id == id) = some { e with status := s } := by
  induction orders with
  | nil => simp at h
  | cons o rest ih =>
    unfold setStatus
    rw [List.map_cons]
    by_cases ho : o.id = id
    · have hb : (o.id == id) = true := by simp [ho]
      simp only [List.find?_cons, hb] at h
      cases h
      simp [List.find?_cons, hb]
    · have hb : (o.id == id) = false := by simp [ho]
      simp only [List.find?_cons, hb] at h
      simp only [hb, Bool.false_eq_true, if_false, List.find?_cons]
      exact ih h

/-- The three ways `updateStatus` ends: no status, no such order, or the
status written. -/
theorem updateStatus_cases (db : Db) (id : String) (status : Option String) :
    ((∀ s, status = some s → s = "") ∧
      updateStatus db id status = ⟨400, .error "Missing status", db, []⟩) ∨
    ((∃ s, status = some s ∧ s ≠ "") ∧ (∀ o ∈ db.orders, o.id ≠ id) ∧
      updateStatus db id status = ⟨404, .error "Order not found", db, []⟩) ∨
    (∃ s e, status = some s ∧ s ≠ "" ∧ e ∈ db.orders ∧ e.id = id ∧
      updateStatus db id status
        = ⟨200, .json { e with status := s }, { db with orders := setStatus db.orders id s },
            [.orders_updated]⟩) := by
  cases status with
  | none => exact Or.inl ⟨by simp, rfl⟩
  | some s =>
    by_cases hs : s = ""
    · subst hs
      exact Or.inl ⟨by simp, rfl⟩
    · right
      unfold updateStatus
      simp only [truthy_of_ne_empty hs, Bool.not_true, Bool.false_eq_true, if_false]
      cases hf : db.orders.find? (fun o => o.id == id) with
      | none =>
        left
        refine ⟨⟨s, rfl, hs⟩, ?_, rfl⟩
        intro o ho heq
        have := List.find?_eq_none.1 hf o ho
        simp [heq] at this
      | some e =>
        right
        refine ⟨s, e, rfl, hs, List.mem_of_find?_eq_some hf, ?_, ?_⟩
        · have := List.find?_some hf
          simpa using this
        · simp only
          rw [find_setStatus db.orders id s e hf]

/-- The orders after `createBill`: untouched, or the table marked paid. -/
theorem createBill_effect (db : Db) (table : Option String) (clk : BillClock) :
    ((createBill db table clk).db = db ∧ (createBill db table clk).events = [] ∧
      (createBill db table clk).status ≠ 201) ∨
    (∃ raw, table = some raw ∧ (createBill db table clk).status = 201 ∧
      (createBill db table clk).db.orders = markPaid db.orders (normalizeTable raw) ∧
      (createBill db table clk).db.archived = db.archived ∧
      (createBill db table clk).events = [.orders_updated, .bills_updated]) := by
  cases table with
  | none => exact Or.inl ⟨rfl, rfl, by simp [createBill]⟩
  | some raw =>
    by_cases hraw : raw.data = []
    · have ht : truthy (some raw) = false := by simp [truthy, hraw]
      left
      simp [createBill, ht]
    · rcases createBill_cases db raw clk hraw with ⟨_, heq⟩ | ⟨_, _, heq⟩ | ⟨_, bills, _, heq⟩
      · rw [heq]
        exact Or.inl ⟨rfl, rfl, by simp⟩
      · rw [heq]
        exact Or.inl ⟨rfl, rfl, by simp⟩
      · rw [heq]
        exact Or.inr ⟨raw, rfl, rfl, rfl, rfl, rfl⟩

/-! ## Events of the handlers (C15) -/

/-- C15, counterexample: the `archiveBills` call on `clashDb` that fails on its
second insert emits no event although the archive has gained a row. -/
theorem archiveBills_failure_emits_nothing :
    (archiveBills isoDateOnly clashDb ⟨none, none⟩ jan18Ms).events = [] ∧
    clashDb.archived.length = 1 ∧
    (archiveBills isoDateOnly clashDb ⟨none, none⟩ jan18Ms).db.archived.length = 2 ∧
    (archiveBills isoDateOnly clashDb ⟨none, none⟩ jan18Ms).db.archived ≠ clashDb.archived := by
  refine ⟨by decide, by decide, by decide, fun h => ?_⟩
  have hlen := congrArg List.length h
  revert hlen
  decide

/-- C15, amended: each handler either succeeds and passes its events to
`sendSse` once each in the stated order (`placeOrder`, `updateStatus` and
`deleteAll` the event `orders_updated`; `createBill` the events
`orders_updated`, `bills_updated`; `archiveBills` the events `bills_updated`,
`archived_bills_updated`, also when no bill matches; `deleteAllArchived` the
event `archived_bills_updated`), or it fails and emits nothing.  A handler that
emitted nothing has left the orders and the active bills as they were, and the
archive too unless it is a failed `archiveBills`. -/
theorem handlers_events (db : Db) :
    (∀ p clk,
      ((placeOrder db p clk).status = 201 ∧ (placeOrder db p clk).events = [.orders_updated]) ∨
      ((placeOrder db p clk).status ≠ 201 ∧ (placeOrder db p clk).events = [] ∧
        (placeOrder db p clk).db = db)) ∧
    (∀ id status,
      ((updateStatus db id status).status = 200 ∧
        (updateStatus db id status).events = [.orders_updated]) ∨
      ((updateStatus db id status).status ≠ 200 ∧ (updateStatus db id status).events = [] ∧
        (updateStatus db id status).db = db)) ∧
    (deleteAllOrders db).events = [.orders_updated] ∧
    (∀ table clk,
      ((createBill db table clk).status = 201 ∧
        (createBill db table clk).events = [.orders_updated, .bills_updated]) ∨
      ((createBill db table clk).status ≠ 201 ∧ (createBill db table clk).events = [] ∧
        (createBill db table clk).db = db)) ∧
    (∀ parse q nowMs,
      ((archiveBills parse db q nowMs).status = 200 ∧
        (archiveBills parse db q nowMs).events = [.bills_updated, .archived_bills_updated]) ∨
      ((archiveBills parse db q nowMs).status ≠ 200 ∧
        (archiveBills parse db q nowMs).events = [] ∧
        (archiveBills parse db q nowMs).db.orders = db.orders ∧
        (archiveBills parse db q nowMs).db.bills = db.bills)) ∧
    (∀ parse q nowMs, matching db.bills (parseDateRange parse q) = [] →
      (archiveBills parse db q nowMs).events = [.bills_updated, .archived_bills_updated]) ∧
    (deleteAllArchived db).events = [.archived_bills_updated] := by
  refine ⟨fun p clk => ?_, fun id status => ?_, rfl, fun table clk => ?_,
    fun parse q nowMs => ?_, fun parse q nowMs hM => ?_, rfl⟩
  · rcases placeOrder_cases db p clk with ⟨_, heq⟩ | ⟨_, _, msg, heq⟩ |
      ⟨_, _, _, _, _, _, _, _, _, _, ⟨_, heq⟩ | ⟨_, _, heq⟩⟩
    · rw [heq]
      exact Or.inr ⟨by simp, rfl, rfl⟩
    · rw [heq]
      exact Or.inr ⟨by simp, rfl, rfl⟩
    · rw [heq]
      exact Or.inr ⟨by simp, rfl, rfl⟩
    · rw [heq]
      exact Or.inl ⟨rfl, rfl⟩
  · rcases updateStatus_cases db id status with ⟨_, heq⟩ | ⟨_, _, heq⟩ | ⟨_, _, _, _, _, _, heq⟩
    · rw [heq]
      exact Or.inr ⟨by simp, rfl, rfl⟩
    · rw [heq]
      exact Or.inr ⟨by simp, rfl, rfl⟩
    · rw [heq]
      exact Or.inl ⟨rfl, rfl⟩
  · rcases createBill_effect db table clk with ⟨h1, h2, h3⟩ | ⟨_, _, h1, _, _, h2⟩
    · exact Or.inr ⟨h3, h2, h1⟩
    · exact Or.inl ⟨h1, h2⟩
  · rcases archiveBills_cases parse db q nowMs with ⟨_, heq⟩ | ⟨_, heq⟩
    · rw [heq]
      exact Or.inl ⟨rfl, rfl⟩
    · rw [heq]
      exact Or.inr ⟨by simp, rfl, rfl, rfl⟩
  · have hsel : selectBills db.bills (parseDateRange parse q) = [] :=
      List.Perm.eq_nil (hM ▸ selectBills_perm db.bills (parseDateRange parse q))
    rcases archiveBills_cases parse db q nowMs with ⟨_, heq⟩ | ⟨hloop, _⟩
    · rw [heq]
    · rw [hsel] at hloop
      simp [archiveLoop] at hloop

/-- C15, amended, at a range that matches neither of the two bills: the call
succeeds and emits both events. -/
theorem handlers_events_witness :
    matching twoBillsDb.bills
      (parseDateRange isoDateOnly ⟨some "2024-02-01", some "2024-02-02"⟩) = [] ∧
    (archiveBills isoDateOnly twoBillsDb ⟨some "2024-02-01", some "2024-02-02"⟩ jan18Ms).events
      = [.bills_updated, .archived_bills_updated] :=
  ⟨by decide,
    (handlers_events twoBillsDb).2.2.2.2.2.1 isoDateOnly ⟨some "2024-02-01", some "2024-02-02"⟩
      jan18Ms (by decide)⟩

/-! ## Order status (C16, C17) -/

theorem statusRank_le_paid (s : String) : statusRank s ≤ statusRank "Paid" := by
  have h3 : statusRank "Paid" = 3 := by decide
  rw [h3]
  unfold statusRank
  split_ifs <;> omega

theorem forall₂_markPaid (orders : List OrderRow) (table : String) :
    List.Forall₂
      (fun o o1 : OrderRow => o1.id = o.id ∧ (o1.status = o.status ∨ o1.status = "Paid") ∧
        statusRank o.status ≤ statusRank o1.status)
      orders (markPaid orders table) := by
  unfold markPaid
  rw [List.forall₂_map_right_iff]
  apply List.forall₂_same.2
  intro o _
  by_cases h : o.table_name = table
  · refine ⟨?_, ?_, ?_⟩ <;> simp [h, statusRank_le_paid]
  · refine ⟨?_, ?_, ?_⟩ <;> simp [h]

theorem archiveBills_orders (parse : DateParser) (db : Db) (q : Query) (nowMs : Int) :
    (archiveBills parse db q nowMs).db.orders = db.orders := by
  rcases archiveBills_cases parse db q nowMs with ⟨_, heq⟩ | ⟨_, heq⟩ <;> rw [heq]

/-- The orders after `placeOrder`: untouched, or one `Placed` order more. -/
theorem placeOrder_orders (db : Db) (p : OrderPayload) (clk : OrderClock) :
    (placeOrder db p clk).db.orders = db.orders ∨
    ∃ o, o.status = "Placed" ∧ (placeOrder db p clk).db.orders = db.orders ++ [o] := by
  rcases placeOrder_cases db p clk with ⟨_, heq⟩ | ⟨_, _, msg, heq⟩ |
    ⟨table, _, items, _, _, _, _, _, _, _, ⟨_, heq⟩ | ⟨orders, hins, heq⟩⟩
  · rw [heq]; exact Or.inl rfl
  · rw [heq]; exact Or.inl rfl
  · rw [heq]; exact Or.inl rfl
  · rw [heq]
    exact Or.inr ⟨newOrderOf table items clk, rfl, insertOrder_some hins⟩

/-- C16, counterexample: in `paidOnceDb` the order `ord_1` of table 3 is
`Paid`; `updateStatus` with the status `Preparing`, which the admin view sends
from its button, succeeds and the order is `Preparing` again. -/
theorem updateStatus_leaves_paid :
    paidOnceDb.orders.map (fun o => (o.id, o.status))
      = [("ord_1", "Paid"), ("ord_2", "Preparing"), ("ord_3", "Paid")] ∧
    (updateStatus paidOnceDb "ord_1" (some "Preparing")).status = 200 ∧
    (updateStatus paidOnceDb "ord_1" (some "Preparing")).db.orders.map
        (fun o => (o.id, o.status))
      = [("ord_1", "Preparing"), ("ord_2", "Preparing"), ("ord_3", "Paid")] ∧
    statusRank "Preparing" < statusRank "Paid" := by
  decide

/-- C16, amended: `createBill` leaves the status of an order or sets it to
`Paid`, the last status, so it never moves an order to an earlier status and
never changes a `Paid` order; `placeOrder` keeps the stored orders and adds at
most one order, which is `Placed`; `archiveBills` and `deleteAllArchived` do
not touch the orders; a successful `updateStatus` writes the status it is
given on the order with the given id, whatever status that order has, and
leaves the other orders as they are. -/
theorem status_changes (db : Db) :
    (∀ table clk,
      List.Forall₂
        (fun o o1 : OrderRow => o1.id = o.id ∧ (o1.status = o.status ∨ o1.status = "Paid") ∧
          statusRank o.status ≤ statusRank o1.status)
        db.orders (createBill db table clk).db.orders) ∧
    (∀ p clk, (placeOrder db p clk).db.orders = db.orders ∨
      ∃ o, o.status = "Placed" ∧ (placeOrder db p clk).db.orders = db.orders ++ [o]) ∧
    (∀ parse q nowMs, (archiveBills parse db q nowMs).db.orders = db.orders) ∧
    (deleteAllArchived db).db.orders = db.orders ∧
    (∀ id s, (updateStatus db id (some s)).status = 200 →
      List.Forall₂
        (fun o o1 : OrderRow => o1 = if o.id = id then { o with status := s } else o)
        db.orders (updateStatus db id (some s)).db.orders) := by
  refine ⟨fun table clk => ?_, placeOrder_orders db,
    fun parse q nowMs => archiveBills_orders parse db q nowMs, rfl, fun id s hok => ?_⟩
  · rcases createBill_effect db table clk with ⟨h1, _, _⟩ | ⟨raw, _, _, h1, _, _⟩
    · rw [h1]
      apply List.forall₂_same.2
      intro o _
      exact ⟨rfl, Or.inl rfl, le_rfl⟩
    · rw [h1]
      exact forall₂_markPaid _ _
  · rcases updateStatus_cases db id (some s) with ⟨_, heq⟩ | ⟨_, _, heq⟩ |
      ⟨s1, _, hs1, _, _, _, heq⟩
    · rw [heq] at hok
      simp at hok
    · rw [heq] at hok
      simp at hok
    · simp only [Option.some.injEq] at hs1
      subst hs1
      rw [heq]
      simp only
      unfold setStatus
      rw [List.forall₂_map_right_iff]
      apply List.forall₂_same.2
      intro o _
      by_cases h : o.id = id
      · simp [h]
      · simp [h]

/-- C16, amended, at the paid order: the successful `updateStatus` rewrites
exactly the order `ord_1`. -/
theorem status_changes_witness :
    (updateStatus paidOnceDb "ord_1" (some "Preparing")).status = 200 ∧
    List.Forall₂
      (fun o o1 : OrderRow => o1 = if o.id = "ord_1" then { o with status := "Preparing" } else o)
      paidOnceDb.orders (updateStatus paidOnceDb "ord_1" (some "Preparing")).db.orders :=
  ⟨by decide, (status_changes paidOnceDb).2.2.2.2 "ord_1" "Preparing" (by decide)⟩

/-- The payload `pizzaPayload` is stored by the first `placeOrder` on an empty
database. -/
theorem placeOrder_pizza :
    placeOrder emptyDb pizzaPayload orderClock
      = ⟨201, .json (newOrderOf "Table 4" [⟨"Pizza", 200, 1, some "Full"⟩] orderClock),
          { emptyDb with
            orders := emptyDb.orders ++
              [newOrderOf "Table 4" [⟨"Pizza", 200, 1, some "Full"⟩] orderClock] },
          [.orders_updated]⟩ :=
  placeOrder_created emptyDb "Table 4" _ _ orderClock (by decide) (by simp) rfl
    (by norm_num [orderTotal, lineTotal]) (by simp [emptyDb])

/-- C17, counterexample: from the empty database, `placeOrder` of one pizza
followed by `updateStatus` of that order with the status `Cancelled` leaves a
stored order whose status is none of the four. -/
theorem runOps_unknown_status :
    (runOps emptyDb
        [.placeOrder pizzaPayload orderClock,
         .updateStatus "ord_1705319880000" (some "Cancelled")]).orders.map
        (fun o => (o.id, o.status)) = [("ord_1705319880000", "Cancelled")] ∧
    ¬ knownStatus "Cancelled" := by
  constructor
  · simp only [runOps, List.foldl, applyOp, placeOrder_pizza]
    decide
  · unfold knownStatus
    decide

theorem knownStatus_setStatus (orders : List OrderRow) (id s : String) (hs : knownStatus s)
    (h : ∀ o ∈ orders, knownStatus o.status) :
    ∀ o ∈ setStatus orders id s, knownStatus o.status := by
  intro o ho
  unfold setStatus at ho
  obtain ⟨o0, ho0, rfl⟩ := List.mem_map.1 ho
  by_cases hid : o0.id = id
  · simpa [hid] using hs
  · simpa [hid] using h o0 ho0

theorem knownStatus_markPaid (orders : List OrderRow) (table : String)
    (h : ∀ o ∈ orders, knownStatus o.status) :
    ∀ o ∈ markPaid orders table, knownStatus o.status := by
  intro o ho
  unfold markPaid at ho
  obtain ⟨o0, ho0, rfl⟩ := List.mem_map.1 ho
  by_cases ht : o0.table_name = table
  · simp only [ht, beq_self_eq_true, if_true]
    exact Or.inr (Or.inr (Or.inr rfl))
  · simpa [ht] using h o0 ho0

/-- One operation keeps every status among the four when the status it is
given, if any, is one of them. -/
theorem applyOp_known_status (db : Db) (op : OrderOp)
    (hop : ∀ id s, op = .updateStatus id (some s) → knownStatus s)
    (h : ∀ o ∈ db.orders, knownStatus o.status) :
    ∀ o ∈ (applyOp db op).orders, knownStatus o.status := by
  cases op with
  | placeOrder p clk =>
    show ∀ o ∈ (placeOrder db p clk).db.orders, knownStatus o.status
    rcases placeOrder_orders db p clk with heq | ⟨o1, hst, heq⟩
    · rw [heq]
      exact h
    · rw [heq]
      intro o ho
      rcases List.mem_append.1 ho with ho | ho
      · exact h o ho
      · have : o = o1 := by simpa using ho
        rw [this, hst]
        exact Or.inl rfl
  | updateStatus id status =>
    show ∀ o ∈ (updateStatus db id status).db.orders, knownStatus o.status
    rcases updateStatus_cases db id status with ⟨_, heq⟩ | ⟨_, _, heq⟩ |
      ⟨s, _, hs, _, _, _, heq⟩
    · rw [heq]
      exact h
    · rw [heq]
      exact h
    · rw [heq]
      exact knownStatus_setStatus _ _ _ (hop id s (by rw [hs])) h
  | createBill table clk =>
    show ∀ o ∈ (createBill db table clk).db.orders, knownStatus o.status
    rcases createBill_effect db table clk with ⟨heq, _, _⟩ | ⟨raw, _, _, heq, _, _⟩
    · rw [heq]
      exact h
    · rw [heq]
      exact knownStatus_markPaid _ _ h
  | deleteAll =>
    intro o ho
    simp [applyOp, deleteAllOrders] at ho

/-- C17, amended: in every state reached from the empty database through
`placeOrder`, `updateStatus`, `createBill` and `deleteAll`, where every
`updateStatus` is given one of the four statuses, the status of every stored
order is one of `Placed`, `Preparing`, `Delivered`, `Paid`. -/
theorem runOps_known_status (ops : List OrderOp)
    (hops : ∀ id s, OrderOp.updateStatus id (some s) ∈ ops → knownStatus s) :
    ∀ o ∈ (runOps emptyDb ops).orders, knownStatus o.status := by
  have hgen : ∀ (l : List OrderOp) (db : Db),
      (∀ id s, OrderOp.updateStatus id (some s) ∈ l → knownStatus s) →
      (∀ o ∈ db.orders, knownStatus o.status) →
      ∀ o ∈ (runOps db l).orders, knownStatus o.status := by
    intro l
    induction l with
    | nil => intro db _ h; exact h
    | cons op rest ih =>
      intro db hl h
      have hrun : runOps db (op :: rest) = runOps (applyOp db op) rest := rfl
      rw [hrun]
      apply ih
      · intro id s hmem
        exact hl id s (List.mem_cons_of_mem _ hmem)
      · apply applyOp_known_status db op _ h
        intro id s hop
        exact hl id s (hop ▸ List.mem_cons_self _ _)
  exact hgen ops emptyDb hops (by simp [emptyDb])

/-- C17, amended, at a pizza that is placed, marked `Delivered` and billed. -/
theorem runOps_known_status_witness :
    (∀ id s, OrderOp.updateStatus id (some s)
        ∈ [OrderOp.placeOrder pizzaPayload orderClock,
           .updateStatus "ord_1705319880000" (some "Delivered"),
           .createBill (some "4") exampleClock] → knownStatus s) ∧
    ∀ o ∈ (runOps emptyDb
        [.placeOrder pizzaPayload orderClock,
         .updateStatus "ord_1705319880000" (some "Delivered"),
         .createBill (some "4") exampleClock]).orders, knownStatus o.status := by
  have hops : ∀ id s, OrderOp.updateStatus id (some s)
      ∈ [OrderOp.placeOrder pizzaPayload orderClock,
         .updateStatus "ord_1705319880000" (some "Delivered"),
         .createBill (some "4") exampleClock] → knownStatus s := by
    intro id s hmem
    simp only [List.mem_cons, List.mem_singleton, List.not_mem_nil, or_false] at hmem
    rcases hmem with h | h | h
    · cases h
    · cases h
      exact Or.inr (Or.inr (Or.inl rfl))
    · cases h
  exact ⟨hops, runOps_known_status _ hops⟩

/-! ## Accepted orders (C18, C19, C20) -/

theorem foldl_lineTotal (l : List Item) (acc : ℚ) :
    l.foldl (fun sum it => sum + lineTotal it) acc
      = acc + (l.map (fun i => i.price * (if i.quantity = 0 then 1 else i.quantity))).sum := by
  induction l generalizing acc with
  | nil => simp
  | cons i rest ih =>
    rw [List.foldl_cons, ih, List.map_cons, List.sum_cons, add_assoc]
    rfl

theorem orderTotal_eq_sum (l : List Item) :
    orderTotal l
      = (l.map (fun i => i.price * (if i.quantity = 0 then 1 else i.quantity))).sum := by
  unfold orderTotal
  rw [foldl_lineTotal, zero_add]

theorem checkedItems_of_forall₂ {els : List (Option ItemArg)} {items : List Item}
    (h : List.Forall₂
      (fun el i => ∃ it, el = some it ∧ it.price = .num i.price ∧
        it.quantity = .num i.quantity ∧ i.name = it.name ∧ i.orderType = it.orderType)
      els items) :
    checkedItems els = some items := by
  induction h with
  | nil => rfl
  | cons hhead _ ih =>
    obtain ⟨it, rfl, hp, hq, hn, ho⟩ := hhead
    unfold checkedItems
    rw [itemOf_of_nums hp hq, ih]
    simp only [Option.some.injEq, List.cons.injEq, and_true]
    rw [← hn, ← ho]

/-- An accepted order is the object built from the table and the checked
items of the payload, and it is stored. -/
theorem placeOrder_json (db : Db) (p : OrderPayload) (clk : OrderClock) (order : OrderRow)
    (h : (placeOrder db p clk).body = .json order) :
    ∃ table els items, p.table = some table ∧ table ≠ "" ∧ p.items = some els ∧ els ≠ [] ∧
      checkedItems els = some items ∧ 0 < orderTotal items ∧
      order = newOrderOf table items clk ∧
      (placeOrder db p clk).status = 201 ∧
      (placeOrder db p clk).db.orders = db.orders ++ [order] := by
  rcases placeOrder_cases db p clk with ⟨_, heq⟩ | ⟨_, _, msg, heq⟩ |
    ⟨table, els, items, h1, h2, h3, h4, _, h5, h6, ⟨_, heq⟩ | ⟨orders, hins, heq⟩⟩
  · rw [heq] at h
    simp at h
  · rw [heq] at h
    simp at h
  · rw [heq] at h
    simp at h
  · rw [heq] at h ⊢
    simp only [Body.json.injEq] at h
    subst h
    exact ⟨table, els, items, h1, h2, h3, h4, h5, h6, rfl, rfl, insertOrder_some hins⟩

/-- C18, counterexample: the payload whose only item has price 100 and
quantity 0 is accepted and stored with total price 100, while price times
quantity sums to 0. -/
theorem placeOrder_zero_quantity :
    placeOrder emptyDb zeroQuantityPayload orderClock
      = ⟨201, .json (newOrderOf "Table 4" [⟨"Pizza", 100, 0, none⟩] orderClock),
          { emptyDb with
            orders := emptyDb.orders ++
              [newOrderOf "Table 4" [⟨"Pizza", 100, 0, none⟩] orderClock] },
          [.orders_updated]⟩ ∧
    (newOrderOf "Table 4" [⟨"Pizza", 100, 0, none⟩] orderClock).total_price = 100 ∧
    ((newOrderOf "Table 4" [⟨"Pizza", 100, 0, none⟩] orderClock).items.map
      (fun i => i.price * i.quantity)).sum = 0 := by
  refine ⟨?_, ?_, ?_⟩
  · exact placeOrder_created emptyDb "Table 4" _ _ orderClock (by decide) (by simp) rfl
      (by norm_num [orderTotal, lineTotal]) (by simp [emptyDb])
  · norm_num [newOrderOf, orderTotal, lineTotal]
  · norm_num [newOrderOf]

/-- C18, amended: the total price of an accepted order, which is the order
answered and stored, is the sum over its items of price times quantity where a
quantity of 0 counts as 1; it is the plain sum of price times quantity when no
item has quantity 0. -/
theorem placeOrder_total (db : Db) (p : OrderPayload) (clk : OrderClock) (order : OrderRow)
    (h : (placeOrder db p clk).body = .json order) :
    order.total_price
      = (order.items.map
          (fun i => i.price * (if i.quantity = 0 then 1 else i.quantity))).sum ∧
    ((∀ i ∈ order.items, i.quantity ≠ 0) →
      order.total_price = (order.items.map (fun i => i.price * i.quantity)).sum) ∧
    (placeOrder db p clk).db.orders = db.orders ++ [order] := by
  obtain ⟨table, els, items, _, _, _, _, _, _, rfl, _, hst⟩ := placeOrder_json db p clk order h
  have htot : (newOrderOf table items clk).total_price
      = ((newOrderOf table items clk).items.map
          (fun i => i.price * (if i.quantity = 0 then 1 else i.quantity))).sum :=
    orderTotal_eq_sum items
  refine ⟨htot, fun hq => ?_, hst⟩
  rw [htot]
  congr 1
  apply List.map_congr_left
  intro i hi
  rw [if_neg (hq i hi)]

/-- C18, amended, at the order of one pizza. -/
theorem placeOrder_total_witness :
    (placeOrder emptyDb pizzaPayload orderClock).body
      = .json (newOrderOf "Table 4" [⟨"Pizza", 200, 1, some "Full"⟩] orderClock) ∧
    (newOrderOf "Table 4" [⟨"Pizza", 200, 1, some "Full"⟩] orderClock).total_price
      = ((newOrderOf "Table 4" [⟨"Pizza", 200, 1, some "Full"⟩] orderClock).items.map
          (fun i => i.price * (if i.quantity = 0 then 1 else i.quantity))).sum :=
  ⟨by rw [placeOrder_pizza],
    (placeOrder_total emptyDb pizzaPayload orderClock _ (by rw [placeOrder_pizza])).1⟩

/-- C19, counterexample: the payload with a pizza at 200 and an item of price
-50 and quantity 0.5 is accepted with total price 175; its second item has a
price below 0 and a quantity below 1. -/
theorem placeOrder_negative_price :
    placeOrder emptyDb discountPayload orderClock
      = ⟨201,
          .json (newOrderOf "Table 4"
            [⟨"Pizza", 200, 1, none⟩, ⟨"Discount", -50, 1 / 2, none⟩] orderClock),
          { emptyDb with
            orders := emptyDb.orders ++
              [newOrderOf "Table 4"
                [⟨"Pizza", 200, 1, none⟩, ⟨"Discount", -50, 1 / 2, none⟩] orderClock] },
          [.orders_updated]⟩ ∧
    (newOrderOf "Table 4"
      [⟨"Pizza", 200, 1, none⟩, ⟨"Discount", -50, 1 / 2, none⟩] orderClock).total_price = 175 ∧
    ∃ i ∈ (newOrderOf "Table 4"
        [⟨"Pizza", 200, 1, none⟩, ⟨"Discount", -50, 1 / 2, none⟩] orderClock).items,
      i.price < 0 ∧ i.quantity < 1 := by
  refine ⟨?_, ?_, ⟨"Discount", -50, 1 / 2, none⟩, ?_, ?_⟩
  · exact placeOrder_created emptyDb "Table 4" _ _ orderClock (by decide) (by simp) rfl
      (by norm_num [orderTotal, lineTotal]) (by simp [emptyDb])
  · norm_num [newOrderOf, orderTotal, lineTotal]
  · simp [newOrderOf]
  · norm_num

/-- C19, amended: an accepted order has at least one item, every item carries
the price and the quantity of the payload element in its place, both of them
numbers, the total price is above 0 and the status is `Placed`; no check bounds
a single price or quantity. -/
theorem placeOrder_items (db : Db) (p : OrderPayload) (clk : OrderClock) (order : OrderRow)
    (h : (placeOrder db p clk).body = .json order) :
    (∃ els, p.items = some els ∧
      List.Forall₂
        (fun el i => ∃ it, el = some it ∧ it.price = .num i.price ∧
          it.quantity = .num i.quantity ∧ i.name = it.name ∧ i.orderType = it.orderType)
        els order.items) ∧
    order.items ≠ [] ∧ 0 < order.total_price ∧ order.status = "Placed" := by
  obtain ⟨table, els, items, _, _, hels, hne, hck, hpos, rfl, _, _⟩ :=
    placeOrder_json db p clk order h
  have hall := checkedItems_eq_some hck
  refine ⟨⟨els, hels, hall⟩, ?_, hpos, rfl⟩
  intro hnil
  have hnil1 : items = [] := hnil
  rw [hnil1] at hall
  cases hall
  exact hne rfl

/-- C19, amended, at the order of one pizza. -/
theorem placeOrder_items_witness :
    (placeOrder emptyDb pizzaPayload orderClock).body
      = .json (newOrderOf "Table 4" [⟨"Pizza", 200, 1, some "Full"⟩] orderClock) ∧
    0 < (newOrderOf "Table 4" [⟨"Pizza", 200, 1, some "Full"⟩] orderClock).total_price :=
  ⟨by rw [placeOrder_pizza],
    (placeOrder_items emptyDb pizzaPayload orderClock _ (by rw [placeOrder_pizza])).2.2.1⟩

theorem payloadAcceptable_iff (p : OrderPayload) (items : List Item) :
    PayloadAcceptable p items ↔
      ∃ table els, p.table = some table ∧ table ≠ "" ∧ p.items = some els ∧ els ≠ [] ∧
        checkedItems els = some items ∧ 0 < orderTotal items := by
  unfold PayloadAcceptable
  rw [← orderTotal_eq_sum]
  constructor
  · rintro ⟨⟨t, ht, hne⟩, els, hels, hnil, hall, hpos⟩
    exact ⟨t, els, ht, hne, hels, hnil, checkedItems_of_forall₂ hall, hpos⟩
  · rintro ⟨t, els, ht, hne, hels, hnil, hck, hpos⟩
    exact ⟨⟨t, ht, hne⟩, els, hels, hnil, checkedItems_eq_some hck, hpos⟩

/-- C20, counterexample: a payload whose `items` holds a `null` is answered
500, not 400; and the payload of one pizza, which meets every condition, is
accepted once and answered 500 when it is sent again under the same
`Date.now()` reading, with the database unchanged. -/
theorem placeOrder_not_validation_error :
    (placeOrder emptyDb nullItemPayload orderClock).status = 500 ∧
    PayloadAcceptable pizzaPayload [⟨"Pizza", 200, 1, some "Full"⟩] ∧
    (placeOrder emptyDb pizzaPayload orderClock).status = 201 ∧
    (placeOrder (placeOrder emptyDb pizzaPayload orderClock).db pizzaPayload
      orderClock).status = 500 ∧
    (placeOrder (placeOrder emptyDb pizzaPayload orderClock).db pizzaPayload
      orderClock).db = (placeOrder emptyDb pizzaPayload orderClock).db := by
  have hacc : PayloadAcceptable pizzaPayload [⟨"Pizza", 200, 1, some "Full"⟩] := by
    rw [payloadAcceptable_iff]
    exact ⟨"Table 4", _, rfl, by decide, rfl, by simp, rfl,
      by norm_num [orderTotal, lineTotal]⟩
  have hsecond : placeOrder (placeOrder emptyDb pizzaPayload orderClock).db pizzaPayload
      orderClock
      = ⟨500, .error "Failed to place order. Please try again.",
          (placeOrder emptyDb pizzaPayload orderClock).db, []⟩ := by
    rcases placeOrder_cases (placeOrder emptyDb pizzaPayload orderClock).db pizzaPayload
        orderClock with ⟨⟨els, h1, hnull⟩, _⟩ | ⟨_, hbad, _⟩ |
      ⟨table, els, items, h1, _, h3, _, _, h5, _, ⟨_, heq⟩ | ⟨orders, hins, _⟩⟩
    · simp only [pizzaPayload, Option.some.injEq] at h1
      subst h1
      simp at hnull
    · exact absurd ((payloadAcceptable_iff _ _).1 hacc) (fun ⟨t, els, h⟩ => hbad ⟨t, els, _, h⟩)
    · exact heq
    · exfalso
      simp only [pizzaPayload, Option.some.injEq] at h1 h3
      subst h1
      subst h3
      have hck : checkedItems [some ⟨"Pizza", .num 200, .num 1, some "Full"⟩]
          = some [⟨"Pizza", 200, 1, some "Full"⟩] := rfl
      rw [hck] at h5
      simp only [Option.some.injEq] at h5
      subst h5
      have hnone : insertOrder (placeOrder emptyDb pizzaPayload orderClock).db.orders
          (newOrderOf "Table 4" [⟨"Pizza", 200, 1, some "Full"⟩] orderClock) = none := by
        rw [insertOrder_none_iff, placeOrder_pizza]
        exact ⟨_, by simp [emptyDb], rfl⟩
      rw [hnone] at hins
      simp at hins
  refine ⟨by decide, hacc, by rw [placeOrder_pizza], by rw [hsecond], by rw [hsecond]⟩

/-- C20, amended: for a payload whose `items` holds no `null`, `placeOrder`
accepts (201) if and only if the table is present, `items` is a non-empty list
of objects whose price and quantity are numbers, the computed total is greater
than 0, and no stored order has the id `ord_` followed by the clock reading;
it rejects the payload as a validation error (400) if and only if one of the
conditions on the payload fails; and it answers 500 if and only if the payload
meets the conditions and the id is taken.  Whatever is not accepted leaves the
database unchanged and emits no event. -/
theorem placeOrder_accepts_iff (db : Db) (p : OrderPayload) (clk : OrderClock)
    (hnn : ∀ els, p.items = some els → none ∉ els) :
    ((placeOrder db p clk).status = 201 ↔
      (∃ items, PayloadAcceptable p items) ∧
      ∀ o ∈ db.orders, o.id ≠ "ord_" ++ toString clk.nowMs) ∧
    ((placeOrder db p clk).status = 400 ↔ ¬ ∃ items, PayloadAcceptable p items) ∧
    ((placeOrder db p clk).status = 500 ↔
      (∃ items, PayloadAcceptable p items) ∧
      ∃ o ∈ db.orders, o.id = "ord_" ++ toString clk.nowMs) ∧
    ((placeOrder db p clk).status ≠ 201 →
      (placeOrder db p clk).db = db ∧ (placeOrder db p clk).events = []) := by
  rcases placeOrder_cases db p clk with ⟨⟨els, hels, hnull⟩, _⟩ | ⟨_, hbad, msg, heq⟩ |
    ⟨table, els, items, h1, h2, h3, h4, _, h5, h6, ⟨hins, heq⟩ | ⟨orders, hins, heq⟩⟩
  · exact absurd hnull (hnn els hels)
  · have hno : ¬ ∃ items, PayloadAcceptable p items := by
      rintro ⟨items, hacc⟩
      obtain ⟨t, els, h⟩ := (payloadAcceptable_iff p items).1 hacc
      exact hbad ⟨t, els, items, h⟩
    rw [heq]
    exact ⟨⟨fun h => by simp at h, fun h => absurd h.1 hno⟩, ⟨fun _ => hno, fun _ => rfl⟩,
      ⟨fun h => by simp at h, fun h => absurd h.1 hno⟩, fun _ => ⟨rfl, rfl⟩⟩
  · have hacc : ∃ items, PayloadAcceptable p items :=
      ⟨items, (payloadAcceptable_iff p items).2 ⟨table, els, h1, h2, h3, h4, h5, h6⟩⟩
    have htaken := (insertOrder_none_iff _ _).1 hins
    rw [heq]
    refine ⟨⟨fun h => by simp at h, ?_⟩, ⟨fun h => by simp at h, fun h => absurd hacc h⟩,
      ⟨fun _ => ⟨hacc, htaken⟩, fun _ => rfl⟩, fun _ => ⟨rfl, rfl⟩⟩
    rintro ⟨_, hfree⟩
    obtain ⟨o, ho, hid⟩ := htaken
    exact absurd hid (hfree o ho)
  · have hacc : ∃ items, PayloadAcceptable p items :=
      ⟨items, (payloadAcceptable_iff p items).2 ⟨table, els, h1, h2, h3, h4, h5, h6⟩⟩
    have hfree : ∀ o ∈ db.orders, o.id ≠ "ord_" ++ toString clk.nowMs := by
      intro o ho hid
      have hnone : insertOrder db.orders (newOrderOf table items clk) = none :=
        (insertOrder_none_iff _ _).2 ⟨o, ho, hid⟩
      rw [hins] at hnone
      simp at hnone
    rw [heq]
    refine ⟨⟨fun _ => ⟨hacc, hfree⟩, fun _ => rfl⟩,
      ⟨fun h => by simp at h, fun h => absurd hacc h⟩, ⟨fun h => by simp at h, ?_⟩,
      fun h => absurd rfl h⟩
    rintro ⟨_, o, ho, hid⟩
    exact absurd hid (hfree o ho)

/-- C20, amended, at the payload of one pizza on the empty database. -/
theorem placeOrder_accepts_iff_witness :
    (∀ els, pizzaPayload.items = some els → none ∉ els) ∧
    PayloadAcceptable pizzaPayload [⟨"Pizza", 200, 1, some "Full"⟩] ∧
    (placeOrder emptyDb pizzaPayload orderClock).status = 201 := by
  have hnn : ∀ els, pizzaPayload.items = some els → none ∉ els := by
    intro els hels
    simp only [pizzaPayload, Option.some.injEq] at hels
    subst hels
    simp
  have hacc : PayloadAcceptable pizzaPayload [⟨"Pizza", 200, 1, some "Full"⟩] := by
    rw [payloadAcceptable_iff]
    exact ⟨"Table 4", _, rfl, by decide, rfl, by simp, rfl,
      by norm_num [orderTotal, lineTotal]⟩
  exact ⟨hnn, hacc,
    (placeOrder_accepts_iff emptyDb pizzaPayload orderClock hnn).1.2
      ⟨⟨_, hacc⟩, by simp [emptyDb]⟩⟩

/-! ## What the handlers leave alone (C21, C22, C23) -/

theorem placeOrder_bills_archived (db : Db) (p : OrderPayload) (clk : OrderClock) :
    (placeOrder db p clk).db.bills = db.bills ∧
    (placeOrder db p clk).db.archived = db.archived := by
  rcases placeOrder_cases db p clk with ⟨_, heq⟩ | ⟨_, _, msg, heq⟩ |
    ⟨_, _, _, _, _, _, _, _, _, _, ⟨_, heq⟩ | ⟨_, _, heq⟩⟩ <;> rw [heq] <;> exact ⟨rfl, rfl⟩

theorem updateStatus_bills_archived (db : Db) (id : String) (status : Option String) :
    (updateStatus db id status).db.bills = db.bills ∧
    (updateStatus db id status).db.archived = db.archived := by
  rcases updateStatus_cases db id status with ⟨_, heq⟩ | ⟨_, _, heq⟩ | ⟨_, _, _, _, _, _, heq⟩ <;>
    rw [heq] <;> exact ⟨rfl, rfl⟩

/-- The active bills after `createBill`: as before, or with the row of the
answered bill appended. -/
theorem createBill_bills (db : Db) (table : Option String) (clk : BillClock) :
    ((createBill db table clk).db.bills = db.bills ∧ (createBill db table clk).status ≠ 201) ∨
    ∃ bill, (createBill db table clk).body = .json bill ∧
      (createBill db table clk).status = 201 ∧
      (createBill db table clk).db.bills = db.bills ++ [billRowOf bill] := by
  cases table with
  | none => exact Or.inl ⟨rfl, by simp [createBill]⟩
  | some raw =>
    by_cases hraw : raw.data = []
    · have ht : truthy (some raw) = false := by simp [truthy, hraw]
      left
      simp [createBill, ht]
    · rcases createBill_cases db raw clk hraw with ⟨_, heq⟩ | ⟨_, _, heq⟩ | ⟨_, bills, hins, heq⟩
      · rw [heq]
        exact Or.inl ⟨rfl, by simp⟩
      · rw [heq]
        exact Or.inl ⟨rfl, by simp⟩
      · rw [heq]
        exact Or.inr ⟨_, rfl, rfl, insertBill_some hins⟩

/-- C21: when `placeOrder` answers 400, when `updateStatus` answers 400 or 404
and when `createBill` answers 400 or 404, the orders, the active bills and the
archive are as before the call and no event is passed to `sendSse`. -/
theorem failures_inert (db : Db) :
    (∀ p clk, (placeOrder db p clk).status = 400 →
      (placeOrder db p clk).db = db ∧ (placeOrder db p clk).events = []) ∧
    (∀ id status,
      (updateStatus db id status).status = 400 ∨ (updateStatus db id status).status = 404 →
      (updateStatus db id status).db = db ∧ (updateStatus db id status).events = []) ∧
    (∀ table clk,
      (createBill db table clk).status = 400 ∨ (createBill db table clk).status = 404 →
      (createBill db table clk).db = db ∧ (createBill db table clk).events = []) := by
  refine ⟨fun p clk h => ?_, fun id status h => ?_, fun table clk h => ?_⟩
  · rcases placeOrder_cases db p clk with ⟨_, heq⟩ | ⟨_, _, msg, heq⟩ |
      ⟨_, _, _, _, _, _, _, _, _, _, ⟨_, heq⟩ | ⟨_, _, heq⟩⟩
    · rw [heq]
      exact ⟨rfl, rfl⟩
    · rw [heq]
      exact ⟨rfl, rfl⟩
    · rw [heq]
      exact ⟨rfl, rfl⟩
    · rw [heq] at h
      simp at h
  · rcases updateStatus_cases db id status with ⟨_, heq⟩ | ⟨_, _, heq⟩ | ⟨_, _, _, _, _, _, heq⟩
    · rw [heq]
      exact ⟨rfl, rfl⟩
    · rw [heq]
      exact ⟨rfl, rfl⟩
    · rw [heq] at h
      simp at h
  · rcases createBill_effect db table clk with ⟨h1, h2, _⟩ | ⟨_, _, h1, _, _, _⟩
    · exact ⟨h1, h2⟩
    · rw [h1] at h
      simp at h

/-- C21, at three failing calls on `exampleDb`: a payload without items, a
status for an unknown order, and a bill for a table without orders. -/
theorem failures_inert_witness :
    (placeOrder exampleDb ⟨some "Table 3", none⟩ orderClock).status = 400 ∧
    (placeOrder exampleDb ⟨some "Table 3", none⟩ orderClock).db = exampleDb ∧
    (updateStatus exampleDb "ord_9" (some "Paid")).status = 404 ∧
    (updateStatus exampleDb "ord_9" (some "Paid")).db = exampleDb ∧
    (createBill exampleDb (some "9") exampleClock).status = 404 ∧
    (createBill exampleDb (some "9") exampleClock).db = exampleDb :=
  ⟨by decide,
    ((failures_inert exampleDb).1 ⟨some "Table 3", none⟩ orderClock (by decide)).1,
    by decide,
    ((failures_inert exampleDb).2.1 "ord_9" (some "Paid") (Or.inr (by decide))).1,
    by decide,
    ((failures_inert exampleDb).2.2 (some "9") exampleClock (Or.inr (by decide))).1⟩

/-- C22: `placeOrder`, `updateStatus`, `deleteAll` and `deleteAllArchived`
leave the table of active bills as it is, and `createBill` leaves it as it is
or appends one row to it; so every bill that was active is still active with
the same fields, its order snapshot included, whatever happens to the orders.
No handler but `archiveBills` removes a row of `bills`. -/
theorem active_bills_kept (db : Db) :
    (∀ p clk, (placeOrder db p clk).db.bills = db.bills) ∧
    (∀ id status, (updateStatus db id status).db.bills = db.bills) ∧
    (deleteAllOrders db).db.bills = db.bills ∧
    (deleteAllArchived db).db.bills = db.bills ∧
    (∀ table clk, (createBill db table clk).db.bills = db.bills ∨
      ∃ row, (createBill db table clk).db.bills = db.bills ++ [row]) ∧
    (∀ table clk, ∀ b ∈ db.bills, b ∈ (createBill db table clk).db.bills) := by
  have hcb : ∀ table clk, (createBill db table clk).db.bills = db.bills ∨
      ∃ row, (createBill db table clk).db.bills = db.bills ++ [row] := by
    intro table clk
    rcases createBill_bills db table clk with ⟨h, _⟩ | ⟨bill, _, _, h⟩
    · exact Or.inl h
    · exact Or.inr ⟨_, h⟩
  refine ⟨fun p clk => (placeOrder_bills_archived db p clk).1,
    fun id status => (updateStatus_bills_archived db id status).1, rfl, rfl, hcb, ?_⟩
  intro table clk b hb
  rcases hcb table clk with h | ⟨row, h⟩
  · rw [h]
    exact hb
  · rw [h]
    exact List.mem_append_left _ hb

/-- C22, at the bill of table 3 in `paidOnceDb`: it is still the only active
bill after every order is deleted, and it is still active after table 7 is
billed. -/
theorem active_bills_kept_witness :
    paidOnceDb.bills.length = 1 ∧
    (deleteAllOrders paidOnceDb).db.bills = paidOnceDb.bills ∧
    ∀ b ∈ paidOnceDb.bills, b ∈ (createBill paidOnceDb (some "7") laterClock).db.bills :=
  ⟨by decide, (active_bills_kept paidOnceDb).2.2.1,
    (active_bills_kept paidOnceDb).2.2.2.2.2 (some "7") laterClock⟩

/-- The archive does not enter the bill that `createBill` writes: with any
other archive the handler leaves the same active bills. -/
theorem createBill_archive_free (db : Db) (other : List ArchivedRow) (table : Option String)
    (clk : BillClock) :
    (createBill { db with archived := other } table clk).db.bills
      = (createBill db table clk).db.bills := by
  cases table with
  | none => rfl
  | some raw =>
    unfold createBill
    simp only
    split_ifs
    · rfl
    · rfl
    · cases h : insertBill db.bills
        (billRowOf (buildBill (normalizeTable raw)
          (ordersOfTable db.orders (normalizeTable raw)) clk)) <;> rfl

/-- The archive after `archiveBills`: the old rows followed by the archived
rows of bills that were active at the call; after a success none of these
bills is active.  No bill becomes active by the call. -/
theorem archiveBills_provenance (parse : DateParser) (db : Db) (q : Query) (nowMs : Int) :
    (∀ b ∈ (archiveBills parse db q nowMs).db.bills, b ∈ db.bills) ∧
    ∃ moved : List BillRow, (∀ b ∈ moved, b ∈ db.bills) ∧
      (archiveBills parse db q nowMs).db.archived
        = db.archived ++ moved.map (toArchived (toISOString nowMs)) ∧
      ((archiveBills parse db q nowMs).status = 200 →
        ∀ b ∈ moved, b ∉ (archiveBills parse db q nowMs).db.bills) := by
  have hperm := selectBills_perm db.bills (parseDateRange parse q)
  have hsub := matching_subset db.bills (parseDateRange parse q)
  rcases archiveBills_cases parse db q nowMs with ⟨hloop, heq⟩ | ⟨hloop, heq⟩
  · rw [heq]
    refine ⟨?_, selectBills db.bills (parseDateRange parse q), ?_, ?_, ?_⟩
    · intro b hb
      simp only at hb
      rw [deleteBills_eq] at hb
      exact List.mem_of_mem_filter hb
    · intro b hb
      exact hsub b (hperm.mem_iff.1 hb)
    · exact archiveLoop_true _ _ _ _ (Prod.ext rfl hloop)
    · intro _ b hb hb1
      simp only at hb1
      rw [deleteBills_eq, List.mem_filter] at hb1
      exact (of_decide_eq_true hb1.2) (hperm.mem_iff.1 hb)
  · rw [heq]
    obtain ⟨k, b, _, hout, _⟩ := archiveLoop_false _ _ _ _ (Prod.ext rfl hloop :
      archiveLoop (toISOString nowMs) (selectBills db.bills (parseDateRange parse q))
        db.archived = (_, false))
    refine ⟨fun b hb => hb, (selectBills db.bills (parseDateRange parse q)).take k, ?_, hout, ?_⟩
    · intro b hb
      exact hsub b (hperm.mem_iff.1 (List.mem_of_mem_take hb))
    · intro h
      simp at h

/-! ## Archival is one-way (C23) -/

/-- C23, counterexample: the `archiveBills` call on `clashDb` that fails on its
second insert has created an archived row, stamped with the time of the call,
for the bill `bill_1705482000000`, and has left that bill in the active table:
the row was created by a copy, not by a move. -/
theorem archiveBills_failure_copies_bill :
    (archiveBills isoDateOnly clashDb ⟨none, none⟩ jan18Ms).db.archived.map
        (fun a => (a.id, a.archived_at))
      = clashDb.archived.map (fun a => (a.id, a.archived_at))
        ++ [("bill_1705482000000", "2024-01-18T08:00:00.000Z")] ∧
    (archiveBills isoDateOnly clashDb ⟨none, none⟩ jan18Ms).db.bills = clashDb.bills ∧
    (clashDb.bills.map (fun b => b.id))[1]? = some "bill_1705482000000" := by
  refine ⟨by decide, rfl, by decide⟩

/-- C23, amended: the table of active bills gains rows only through
`createBill`, and the rows it gains do not depend on the archive (no other
handler adds an active bill, and with any other archive `createBill` leaves the
same active bills).  The archive gains rows only through `archiveBills`, each
of them the archived row of a bill that is active at the call; a call that
succeeds removes these bills from the active table. -/
theorem archival_one_way (db : Db) :
    (∀ p clk, (placeOrder db p clk).db.bills = db.bills) ∧
    (∀ id status, (updateStatus db id status).db.bills = db.bills) ∧
    (deleteAllOrders db).db.bills = db.bills ∧
    (deleteAllArchived db).db.bills = db.bills ∧
    (∀ parse q nowMs, ∀ b ∈ (archiveBills parse db q nowMs).db.bills, b ∈ db.bills) ∧
    (∀ other table clk, (createBill { db with archived := other } table clk).db.bills
      = (createBill db table clk).db.bills) ∧
    (∀ p clk, (placeOrder db p clk).db.archived = db.archived) ∧
    (∀ id status, (updateStatus db id status).db.archived = db.archived) ∧
    (deleteAllOrders db).db.archived = db.archived ∧
    (∀ table clk, (createBill db table clk).db.archived = db.archived) ∧
    (deleteAllArchived db).db.archived = [] ∧
    (∀ parse q nowMs, ∃ moved : List BillRow, (∀ b ∈ moved, b ∈ db.bills) ∧
      (archiveBills parse db q nowMs).db.archived
        = db.archived ++ moved.map (toArchived (toISOString nowMs)) ∧
      ((archiveBills parse db q nowMs).status = 200 →
        ∀ b ∈ moved, b ∉ (archiveBills parse db q nowMs).db.bills)) := by
  refine ⟨fun p clk => (placeOrder_bills_archived db p clk).1,
    fun id status => (updateStatus_bills_archived db id status).1, rfl, rfl,
    fun parse q nowMs => (archiveBills_provenance parse db q nowMs).1,
    fun other table clk => createBill_archive_free db other table clk,
    fun p clk => (placeOrder_bills_archived db p clk).2,
    fun id status => (updateStatus_bills_archived db id status).2, rfl, ?_, rfl,
    fun parse q nowMs => (archiveBills_provenance parse db q nowMs).2⟩
  intro table clk
  rcases createBill_effect db table clk with ⟨h, _⟩ | ⟨_, _, _, _, h, _⟩
  · rw [h]
  · exact h

/-- C23, amended, at `twoBillsDb`: archiving without a range succeeds, the
archive then holds the archived rows of bills that were active, and none of
them is active any more. -/
theorem archival_one_way_witness :
    (archiveBills isoDateOnly twoBillsDb ⟨none, none⟩ jan18Ms).status = 200 ∧
    ∃ moved : List BillRow, (∀ b ∈ moved, b ∈ twoBillsDb.bills) ∧
      (archiveBills isoDateOnly twoBillsDb ⟨none, none⟩ jan18Ms).db.archived
        = twoBillsDb.archived ++ moved.map (toArchived (toISOString jan18Ms)) ∧
      ∀ b ∈ moved, b ∉ (archiveBills isoDateOnly twoBillsDb ⟨none, none⟩ jan18Ms).db.bills := by
  have hst : (archiveBills isoDateOnly twoBillsDb ⟨none, none⟩ jan18Ms).status = 200 := by
    decide
  obtain ⟨moved, h1, h2, h3⟩ := (archival_one_way twoBillsDb).2.2.2.2.2.2.2.2.2.2.2
    isoDateOnly ⟨none, none⟩ jan18Ms
  exact ⟨hst, moved, h1, h2, h3 hst⟩

/-! ## Estimates of the client and of the admin view (C24) -/

/-- The item that the server reads from a cart entry. -/
theorem checkedItems_cart (cart : List CartItem) :
    checkedItems (cart.map (fun ci =>
        some { name := ci.name, price := .num ci.price, quantity := .num ci.quantity,
               orderType := ci.orderType }))
      = some (cart.map (fun ci => ⟨ci.name, ci.price, ci.quantity, ci.orderType⟩)) := by
  induction cart with
  | nil => rfl
  | cons ci rest ih =>
    rw [List.map_cons, List.map_cons]
    unfold checkedItems
    rw [ih]
    rfl

/-- The reduction of `renderTotals` and the reduction of `POST /api/orders`
agree on a cart without a quantity of 0. -/
theorem cart_foldl_eq (cart : List CartItem) (hq : ∀ ci ∈ cart, ci.quantity ≠ 0) (acc : ℚ) :
    cart.foldl (fun sum i => sum + i.price * i.quantity) acc
      = (cart.map (fun ci => (⟨ci.name, ci.price, ci.quantity, ci.orderType⟩ : Item))).foldl
          (fun sum it => sum + lineTotal it) acc := by
  induction cart generalizing acc with
  | nil => rfl
  | cons ci rest ih =>
    rw [List.map_cons, List.foldl_cons, List.foldl_cons,
      ih (fun c hc => hq c (List.mem_cons_of_mem _ hc))]
    have h0 : ci.quantity ≠ 0 := hq ci (List.mem_cons_self _ _)
    simp only [lineTotal, if_neg h0]

theorem computeTotals_single (o : OrderRow) :
    computeTotals [o]
      = { subtotal := o.total_price,
          tax := toFixed2 (numMul o.total_price TAX_RATE),
          service := toFixed2 (numMul o.total_price SERVICE_RATE),
          grandTotal := toFixed2 (numAdd (numAdd o.total_price
              (toFixed2 (numMul o.total_price TAX_RATE)))
            (toFixed2 (numMul o.total_price SERVICE_RATE))) } :=
  computeTotals_of_subtotal [o] _ (subtotalOf_single o)

/-- C24: when `createBill` answers a bill of a table whose only stored order is
`o`, the per-order estimate of the admin view for `o` is the totals of that
bill; and when the total price of `o` is the one `placeOrder` computed for the
payload that the client posts for a cart whose quantities are all at least 1,
the subtotal, tax, service and total of `renderTotals` on that cart are the
totals of that bill too. -/
theorem estimates_match_bill (db : Db) (table : Option String) (clk : BillClock) (bill : Bill)
    (o : OrderRow)
    (hbill : (createBill db table clk).body = .json bill)
    (honly : ∀ raw, table = some raw → ordersOfTable db.orders (normalizeTable raw) = [o]) :
    Admin.estimate o.total_price = bill.totals ∧
    ∀ (cart : List CartItem) (tableNumber : String) (db0 : Db) (oclk : OrderClock)
      (placed : OrderRow),
      (∀ ci ∈ cart, 1 ≤ ci.quantity) →
      (placeOrder db0 (Script.orderPayload tableNumber cart) oclk).body = .json placed →
      o.total_price = placed.total_price →
      Script.renderTotals cart = bill.totals := by
  obtain ⟨raw, hraw, hb⟩ := createBill_json db table clk bill hbill
  have ht : bill.totals = computeTotals [o] := by
    rw [hb, honly raw hraw]
    rfl
  rw [ht, computeTotals_single]
  constructor
  · unfold Admin.estimate
    simp only [orZero_eq]
    rfl
  · intro cart tableNumber db0 oclk placed hq hplaced htot
    obtain ⟨t, els, items, _, _, hels, _, hck, _, hnew, _, _⟩ :=
      placeOrder_json db0 _ oclk placed hplaced
    have hels1 : els = cart.map (fun ci =>
        some { name := ci.name, price := .num ci.price, quantity := .num ci.quantity,
               orderType := ci.orderType }) := by
      simpa [Script.orderPayload] using hels.symm
    rw [hels1, checkedItems_cart] at hck
    have hitems : items = cart.map (fun ci => ⟨ci.name, ci.price, ci.quantity, ci.orderType⟩) :=
      (Option.some.inj hck).symm
    have hsub : cart.foldl (fun sum i => sum + i.price * i.quantity) 0 = o.total_price := by
      rw [htot, hnew, cart_foldl_eq cart (fun ci hci h0 => by
        have := hq ci hci
        rw [h0] at this
        norm_num at this) 0, hitems]
      rfl
    unfold Script.renderTotals
    simp only [hsub]
    rfl

theorem placeOrder_exampleCart :
    placeOrder emptyDb (Script.orderPayload "4" exampleCart) orderClock
      = ⟨201,
          .json (newOrderOf "Table 4"
            [⟨"Pizza", 200, 2, some "Full"⟩, ⟨"Tea", 25 / 2, 3, none⟩] orderClock),
          { emptyDb with
            orders := emptyDb.orders ++
              [newOrderOf "Table 4"
                [⟨"Pizza", 200, 2, some "Full"⟩, ⟨"Tea", 25 / 2, 3, none⟩] orderClock] },
          [.orders_updated]⟩ :=
  placeOrder_created emptyDb "Table 4" _ _ orderClock (by decide) (by simp [exampleCart]) rfl
    (by norm_num [orderTotal, lineTotal]) (by simp [emptyDb])

/-- C24, at `exampleCart` placed by table 4 and billed as the only order of the
table: the client, the admin view and the bill all show subtotal 437.5, tax
21.88, service 43.75 and total 503.13. -/
theorem estimates_match_bill_witness :
    ∃ bill o, (createBill cartDb (some "Table 4") exampleClock).body = .json bill ∧
      cartDb.orders = [o] ∧
      Admin.estimate o.total_price = bill.totals ∧
      Script.renderTotals exampleCart = bill.totals ∧
      Script.renderTotals exampleCart
        = { subtotal := 875 / 2, tax := toNumber (2188 / 100),
            service := toNumber (4375 / 100), grandTotal := toNumber (50313 / 100) } := by
  have hdb : cartDb.orders
      = [newOrderOf "Table 4"
          [⟨"Pizza", 200, 2, some "Full"⟩, ⟨"Tea", 25 / 2, 3, none⟩] orderClock] := by
    unfold cartDb
    rw [placeOrder_exampleCart]
    rfl
  have hn : normalizeTable "Table 4" = "Table 4" := by decide
  have honly : ∀ raw, some "Table 4" = some raw →
      ordersOfTable cartDb.orders (normalizeTable raw)
        = [newOrderOf "Table 4"
            [⟨"Pizza", 200, 2, some "Full"⟩, ⟨"Tea", 25 / 2, 3, none⟩] orderClock] := by
    intro raw hraw
    rw [← Option.some.inj hraw, hn, hdb]
    simp [ordersOfTable, newOrderOf]
  have hcases := createBill_cases cartDb "Table 4" exampleClock (by decide)
  have hbills : cartDb.bills = [] := by
    unfold cartDb
    rw [placeOrder_exampleCart]
    rfl
  obtain ⟨bill, hbill⟩ :
      ∃ bill, (createBill cartDb (some "Table 4") exampleClock).body = .json bill := by
    rcases hcases with ⟨h0, _⟩ | ⟨_, hins, _⟩ | ⟨_, _, _, heq⟩
    · rw [honly _ rfl] at h0
      simp at h0
    · rw [insertBill_none_iff, hbills] at hins
      simp at hins
    · rw [heq]
      exact ⟨_, rfl⟩
  have h := estimates_match_bill cartDb (some "Table 4") exampleClock bill _ hbill honly
  have h2 := h.2 exampleCart "4" emptyDb orderClock _
    (by
      intro ci hci
      simp only [exampleCart, List.mem_cons, List.mem_singleton, List.not_mem_nil,
        or_false] at hci
      rcases hci with rfl | rfl <;> norm_num)
    (by rw [placeOrder_exampleCart]) rfl
  refine ⟨bill, _, hbill, hdb, h.1, h2, ?_⟩
  rw [h2]
  obtain ⟨raw, hraw, hb⟩ := createBill_json cartDb (some "Table 4") exampleClock bill hbill
  cases hraw
  have hs : subtotalOf (ordersOfTable cartDb.orders (normalizeTable "Table 4")) = 875 / 2 := by
    rw [honly _ rfl, subtotalOf_single]
    norm_num [newOrderOf, orderTotal, lineTotal]
  rw [hb]
  exact computeTotals_at_cart _ hs

/-! ## The reference definition of table normalization (C25) -/

/-- C25, counterexample: the reference ` 5` with a leading space normalizes to
`Table 5` in `createBill`, while the reference definition, which prefixes the
reference as it is, gives `Table  5` with two spaces; and ` table 5` becomes
`table 5` in `createBill` and `Table  table 5` by the reference definition. -/
theorem normalizeTable_trims_first :
    normalizeTable " 5" = "Table 5" ∧ normalizeRef " 5" = "Table  5" ∧
    normalizeTable " table 5" = "table 5" ∧ normalizeRef " table 5" = "Table  table 5" := by
  decide

/-- C25, amended: `createBill` trims `tableRef` first, and its normalization is
the reference definition applied to the trimmed text: if that starts with
`table ` (compared case-insensitively) the result is the trimmed text with
every run of white space collapsed to one space and trimmed, otherwise it is
`Table ` followed by the trimmed text.  On a `tableRef` that `trim` leaves as
it is, this is the reference definition applied to `tableRef`. -/
theorem normalizeTable_eq_ref (raw : String) :
    normalizeTable raw = normalizeRef ⟨trimChars raw.data⟩ ∧
    (trimChars raw.data = raw.data → normalizeTable raw = normalizeRef raw) := by
  have h : normalizeTable raw = normalizeRef ⟨trimChars raw.data⟩ := by
    unfold normalizeTable normalizeRef normalizeChars
    simp only
    split_ifs
    · rfl
    · rfl
  refine ⟨h, fun ht => ?_⟩
  rw [h, ht]

/-- C25, amended, at the references `  Table   5 ` and `5`. -/
theorem normalizeTable_eq_ref_witness :
    normalizeTable "  Table   5 " = normalizeRef "Table   5" ∧
    normalizeRef "Table   5" = "Table 5" ∧
    normalizeTable "5" = normalizeRef "5" ∧ normalizeRef "5" = "Table 5" :=
  ⟨(normalizeTable_eq_ref "  Table   5 ").1.trans (by decide), by decide,
    (normalizeTable_eq_ref "5").2 (by decide), by decide⟩

/-! ## Billing the table of a stored order (C26) -/

/-- C26, failing input: an order posted with the table reference `5` is stored
under the table name `5`, as sent; `createBill` on that table name normalizes
it to `Table 5`, selects no order and answers 404, so the stored order is not
billed. -/
theorem createBill_misses_stored_table :
    (placeOrder emptyDb bareTablePayload orderClock).status = 201 ∧
    (placeOrder emptyDb bareTablePayload orderClock).db.orders.map (fun o => o.table_name)
      = ["5"] ∧
    (createBill (placeOrder emptyDb bareTablePayload orderClock).db (some "5")
      exampleClock).status = 404 ∧
    (createBill (placeOrder emptyDb bareTablePayload orderClock).db (some "5")
      exampleClock).db.orders.map (fun o => o.status) = ["Placed"] := by
  have h : placeOrder emptyDb bareTablePayload orderClock
      = ⟨201, .json (newOrderOf "5" [⟨"Pizza", 200, 1, none⟩] orderClock),
          { emptyDb with
            orders := emptyDb.orders ++ [newOrderOf "5" [⟨"Pizza", 200, 1, none⟩] orderClock] },
          [.orders_updated]⟩ :=
    placeOrder_created emptyDb "5" _ _ orderClock (by decide) (by simp) rfl
      (by norm_num [orderTotal, lineTotal]) (by simp [emptyDb])
  rw [h]
  decide

/-! ## Normalizing a normalized table (C27) -/

theorem trimChars_idem (l : List Char) : trimChars (trimChars l) = trimChars l := by
  cases h : trimChars l with
  | nil => rfl
  | cons c cs =>
    have hne : (l.dropWhile isJsSpace).rdropWhile isJsSpace ≠ [] := by
      rw [← trimChars_eq_rdropWhile, h]
      exact List.cons_ne_nil _ _
    have hlast := List.rdropWhile_last_not isJsSpace (l.dropWhile isJsSpace) hne
    have hpre : (l.dropWhile isJsSpace).rdropWhile isJsSpace <+: l.dropWhile isJsSpace :=
      ( List.rdropWhile_prefix _ _)
    have hr : (l.dropWhile isJsSpace).rdropWhile isJsSpace = c :: cs := by
      rw [← trimChars_eq_rdropWhile, h]
    obtain ⟨t, ht⟩ := hpre
    rw [hr] at ht
    have hd : l.dropWhile isJsSpace ≠ [] := by
      rw [← ht]
      simp
    have hhead := List.head_dropWhile_not isJsSpace l hd
    have hc : isJsSpace c = false := by
      have : (l.dropWhile isJsSpace).head hd = c := by
        simp [← ht]
      rw [this] at hhead
      exact hhead
    apply trimChars_eq_of_ends c cs hc
    have : ((l.dropWhile isJsSpace).rdropWhile isJsSpace).getLast hne
        = (c :: cs).getLast (List.cons_ne_nil c cs) := by
      simp [hr]
    rw [← this]
    simpa using hlast

theorem collapseFrom_idem (b : Bool) (l : List Char) :
    collapseFrom b (collapseFrom b l) = collapseFrom b l := by
  induction l generalizing b with
  | nil => rfl
  | cons c cs ih =>
    by_cases hc : isJsSpace c = true
    · cases b with
      | true =>
        rw [collapseFrom_true_of_space _ _ hc]
        exact ih true
      | false =>
        rw [collapseFrom_false_of_space _ _ hc,
          collapseFrom_false_of_space _ _ (by decide : isJsSpace ' ' = true), ih true]
    · have hc1 : isJsSpace c = false := by simpa using hc
      rw [collapseFrom_of_not_space _ _ _ hc1, collapseFrom_of_not_space _ _ _ hc1, ih false]

theorem collapseFrom_last (b : Bool) (l : List Char) (c : Char)
    (h : l.getLast? = some c) (hc : isJsSpace c = false) :
    (collapseFrom b l).getLast? = some c := by
  induction l generalizing b with
  | nil => simp at h
  | cons x xs ih =>
    cases xs with
    | nil =>
      simp at h
      subst h
      simp [collapseFrom, hc]
    | cons y ys =>
      have h1 : (y :: ys).getLast? = some c := by
        rw [List.getLast?_cons_cons] at h
        exact h
      have key : ∀ (z : Char) (b1 : Bool),
          (z :: collapseFrom b1 (y :: ys)).getLast? = some c := by
        intro z b1
        have := ih b1 h1
        cases hk : collapseFrom b1 (y :: ys) with
        | nil => simp [hk] at this
        | cons k ks =>
          rw [List.getLast?_cons_cons, ← hk]
          exact this
      by_cases hx : isJsSpace x = true
      · cases b with
        | true =>
          rw [collapseFrom_true_of_space _ _ hx]
          exact ih true h1
        | false =>
          rw [collapseFrom_false_of_space _ _ hx]
          exact key _ _
      · have hx1 : isJsSpace x = false := by simpa using hx
        rw [collapseFrom_of_not_space _ _ _ hx1]
        exact key _ _

/-- White space is not changed by `toLowerCase`. -/
theorem toLower_of_space (c : Char) (h : isJsSpace c = true) : c.toLower = c := by
  unfold Char.toLower
  have hn : ¬ (c.toNat ≥ 65 ∧ c.toNat ≤ 90) := by
    rintro ⟨h1, h2⟩
    simp only [isJsSpace, Bool.or_eq_true, beq_iff_eq, Bool.and_eq_true, decide_eq_true_eq] at h
    omega
  simp only [hn, if_false]


theorem isPrefixOf_cons_map (a : Char) (p l : List Char) (f : Char → Char)
    (h : (a :: p).isPrefixOf (l.map f) = true) :
    ∃ c cs, l = c :: cs ∧ f c = a ∧ p.isPrefixOf (cs.map f) = true := by
  cases l with
  | nil => simp [List.isPrefixOf] at h
  | cons c cs =>
    simp only [List.map_cons, List.isPrefixOf, Bool.and_eq_true, beq_iff_eq] at h
    exact ⟨c, cs, rfl, h.1.symm, h.2⟩

theorem not_space_of_toLower {c a : Char} (h : c.toLower = a) (ha : isJsSpace a = false) :
    isJsSpace c = false := by
  by_contra hc
  have hc1 : isJsSpace c = true := by simpa using hc
  rw [toLower_of_space c hc1] at h
  rw [h, ha] at hc1
  exact Bool.noConfusion hc1

/-- A text that starts with `table ` still does after its runs of white space
are collapsed. -/
theorem startsWithTable_collapse (l : List Char) (h : startsWithTable l = true) :
    startsWithTable (collapseChars l) = true := by
  unfold startsWithTable lowerChars at h
  obtain ⟨c1, l1, rfl, h1, h⟩ := isPrefixOf_cons_map _ _ _ _ h
  obtain ⟨c2, l2, rfl, h2, h⟩ := isPrefixOf_cons_map _ _ _ _ h
  obtain ⟨c3, l3, rfl, h3, h⟩ := isPrefixOf_cons_map _ _ _ _ h
  obtain ⟨c4, l4, rfl, h4, h⟩ := isPrefixOf_cons_map _ _ _ _ h
  obtain ⟨c5, l5, rfl, h5, h⟩ := isPrefixOf_cons_map _ _ _ _ h
  obtain ⟨c6, l6, rfl, h6, _⟩ := isPrefixOf_cons_map _ _ _ _ h
  have n1 := not_space_of_toLower h1 (by decide)
  have n2 := not_space_of_toLower h2 (by decide)
  have n3 := not_space_of_toLower h3 (by decide)
  have n4 := not_space_of_toLower h4 (by decide)
  have n5 := not_space_of_toLower h5 (by decide)
  unfold collapseChars
  rw [collapseFrom_of_not_space _ _ _ n1, collapseFrom_of_not_space _ _ _ n2,
    collapseFrom_of_not_space _ _ _ n3, collapseFrom_of_not_space _ _ _ n4,
    collapseFrom_of_not_space _ _ _ n5]
  by_cases hs : isJsSpace c6 = true
  · rw [collapseFrom_false_of_space _ _ hs]
    simp [startsWithTable, lowerChars, List.isPrefixOf, h1, h2, h3, h4, h5]
  · have hs1 : isJsSpace c6 = false := by simpa using hs
    rw [collapseFrom_of_not_space _ _ _ hs1]
    simp [startsWithTable, lowerChars, List.isPrefixOf, h1, h2, h3, h4, h5, h6]

/-- A text that `trim` leaves alone is empty or starts and ends with a
character that is not white space. -/
theorem trimmed_cases {t : List Char} (h : trimChars t = t) :
    t = [] ∨ ∃ c cs d, t = c :: cs ∧ isJsSpace c = false ∧
      (c :: cs).getLast? = some d ∧ isJsSpace d = false := by
  by_cases hne : t = []
  · exact Or.inl hne
  · right
    obtain ⟨⟨c, cs, rfl, hc⟩, hlast⟩ := ends_of_trimChars_eq h hne
    exact ⟨c, cs, _, rfl, hc, List.getLast?_eq_getLast _ hne, hlast⟩

theorem trimChars_of_getLast (c : Char) (cs : List Char) (d : Char) (hc : isJsSpace c = false)
    (hlast : (c :: cs).getLast? = some d) (hd : isJsSpace d = false) :
    trimChars (c :: cs) = c :: cs := by
  apply trimChars_eq_of_ends c cs hc
  have := List.getLast?_eq_getLast (c :: cs) (List.cons_ne_nil c cs)
  rw [hlast] at this
  rw [← Option.some.inj this]
  exact hd

/-- Collapsing the white space of a text that starts and ends with a character
that is not white space gives a text that `trim` leaves alone. -/
theorem trimChars_collapse (c : Char) (cs : List Char) (d : Char) (hc : isJsSpace c = false)
    (hlast : (c :: cs).getLast? = some d) (hd : isJsSpace d = false) :
    trimChars (collapseChars (c :: cs)) = collapseChars (c :: cs) := by
  have h1 := collapseFrom_last false (c :: cs) d hlast hd
  unfold collapseChars
  rw [collapseFrom_of_not_space _ _ _ hc] at h1 ⊢
  exact trimChars_of_getLast _ _ d hc h1 hd

/-- The second normalization of a table reference returns the first one
exactly when the trimmed reference starts with `table ` or is not empty and
has only single spaces as white space. -/
theorem normalizeChars_idem_iff (raw : List Char) :
    normalizeChars (normalizeChars raw) = normalizeChars raw ↔
      (startsWithTable (trimChars raw) = true ∨
        (trimChars raw ≠ [] ∧ collapseChars (trimChars raw) = trimChars raw)) := by
  have htt := trimChars_idem raw
  have hnorm : ∀ x, normalizeChars x
      = if startsWithTable (trimChars x) = true then trimChars (collapseChars (trimChars x))
        else 'T' :: 'a' :: 'b' :: 'l' :: 'e' :: ' ' :: trimChars x := fun x => rfl
  rw [hnorm raw]
  generalize trimChars raw = t at htt ⊢
  by_cases hst : startsWithTable t = true
  · rw [if_pos hst]
    rcases trimmed_cases htt with rfl | ⟨c, cs, d, rfl, hc, hlast, hd⟩
    · exact absurd hst (by decide)
    · have h1 := trimChars_collapse c cs d hc hlast hd
      have h2 := startsWithTable_collapse _ hst
      have h3 : collapseChars (collapseChars (c :: cs)) = collapseChars (c :: cs) :=
        collapseFrom_idem false _
      rw [h1]
      constructor
      · intro _
        exact Or.inl hst
      · intro _
        rw [hnorm, h1, if_pos h2, h3, h1]
  · rw [if_neg hst]
    rcases trimmed_cases htt with rfl | ⟨c, cs, d, rfl, hc, hlast, hd⟩
    · constructor
      · intro h
        exfalso
        revert h
        decide
      · rintro (h | ⟨h, _⟩)
        · exact absurd h hst
        · exact absurd rfl h
    · have hT : trimChars ('T' :: 'a' :: 'b' :: 'l' :: 'e' :: ' ' :: c :: cs)
          = 'T' :: 'a' :: 'b' :: 'l' :: 'e' :: ' ' :: c :: cs :=
        trimChars_of_getLast 'T' _ d (by decide) (by simpa using hlast) hd
      have hS : startsWithTable ('T' :: 'a' :: 'b' :: 'l' :: 'e' :: ' ' :: c :: cs) = true := by
        simp [startsWithTable, lowerChars, List.isPrefixOf]
      have hC : collapseChars ('T' :: 'a' :: 'b' :: 'l' :: 'e' :: ' ' :: c :: cs)
          = 'T' :: 'a' :: 'b' :: 'l' :: 'e' :: ' ' :: collapseChars (c :: cs) := by
        unfold collapseChars
        rw [collapseFrom_of_not_space _ _ _ (by decide : isJsSpace 'T' = false),
          collapseFrom_of_not_space _ _ _ (by decide : isJsSpace 'a' = false),
          collapseFrom_of_not_space _ _ _ (by decide : isJsSpace 'b' = false),
          collapseFrom_of_not_space _ _ _ (by decide : isJsSpace 'l' = false),
          collapseFrom_of_not_space _ _ _ (by decide : isJsSpace 'e' = false),
          collapseFrom_false_of_space _ _ (by decide : isJsSpace ' ' = true),
          collapseFrom_of_not_space _ _ _ hc, collapseFrom_of_not_space _ _ _ hc]
      have hL : (collapseChars (c :: cs)).getLast? = some d :=
        collapseFrom_last false _ d hlast hd
      have hT2 : trimChars ('T' :: 'a' :: 'b' :: 'l' :: 'e' :: ' ' :: collapseChars (c :: cs))
          = 'T' :: 'a' :: 'b' :: 'l' :: 'e' :: ' ' :: collapseChars (c :: cs) := by
        apply trimChars_of_getLast 'T' _ d (by decide) _ hd
        cases hk : collapseChars (c :: cs) with
        | nil => simp [hk] at hL
        | cons k ks =>
          rw [hk] at hL
          simpa using hL
      rw [hnorm, hT, if_pos hS, hC, hT2]
      constructor
      · intro h
        right
        refine ⟨List.cons_ne_nil _ _, ?_⟩
        simpa using h
      · rintro (h | ⟨_, h⟩)
        · exact absurd h hst
        · rw [h]

/-- C27, counterexample: the reference `5  6` normalizes to `Table 5  6`, and
that text normalizes to `Table 5 6`; with an order stored under `Table 5  6`,
`createBill` bills the reference `5  6` and answers 404 for the table field of
that bill.  The reference of one space, which is not empty, normalizes to
`Table `, and that text to `Table Table`. -/
theorem normalizeTable_not_idempotent :
    normalizeTable "5  6" = "Table 5  6" ∧
    normalizeTable (normalizeTable "5  6") = "Table 5 6" ∧
    (createBill spacedDb (some "5  6") exampleClock).status = 201 ∧
    (createBill spacedDb (some (normalizeTable "5  6")) exampleClock).status = 404 ∧
    truthy (some " ") = true ∧
    normalizeTable " " = "Table " ∧
    normalizeTable (normalizeTable " ") = "Table Table" := by
  decide

/-- C27, amended: normalizing the normalized identifier returns it unchanged
exactly when the trimmed `tableRef` starts with `table ` (compared
case-insensitively) or is not empty and has no white space other than single
spaces; for these references, passing the normalized identifier back to
`createBill` selects the same orders. -/
theorem normalizeTable_idempotent_iff (raw : String) :
    (normalizeTable (normalizeTable raw) = normalizeTable raw ↔
      (startsWithTable (trimChars raw.data) = true ∨
        (trimChars raw.data ≠ [] ∧
          collapseChars (trimChars raw.data) = trimChars raw.data))) ∧
    (normalizeTable (normalizeTable raw) = normalizeTable raw →
      ∀ orders : List OrderRow,
        ordersOfTable orders (normalizeTable (normalizeTable raw))
          = ordersOfTable orders (normalizeTable raw)) := by
  refine ⟨?_, fun h orders => by rw [h]⟩
  rw [← normalizeChars_idem_iff]
  constructor
  · intro h
    exact congrArg String.data h
  · intro h
    exact String.ext h

/-- C27, amended, at the references `7` and `  table   7  x `. -/
theorem normalizeTable_idempotent_iff_witness :
    normalizeTable (normalizeTable "7") = normalizeTable "7" ∧
    normalizeTable "7" = "Table 7" ∧
    normalizeTable (normalizeTable "  table   7  x ") = normalizeTable "  table   7  x " ∧
    normalizeTable "  table   7  x " = "table 7 x" :=
  ⟨(normalizeTable_idempotent_iff "7").1.2 (Or.inr ⟨by decide, by decide⟩), by decide,
    (normalizeTable_idempotent_iff "  table   7  x ").1.2 (Or.inl (by decide)), by decide⟩

/-! ## The cart of the diner client (C29) -/

theorem map_set_same {α β : Type} (f : α → β) (l : List α) (i : Nat) (a b : α)
    (h : l[i]? = some a) (hf : f b = f a) : (l.set i b).map f = l.map f := by
  induction l generalizing i with
  | nil => rfl
  | cons x xs ih =>
    cases i with
    | zero =>
      simp only [List.getElem?_cons_zero, Option.some.injEq] at h
      subst h
      simp [hf]
    | succ k =>
      simp only [List.getElem?_cons_succ] at h
      simp [ih k h]

theorem bumpFirst_some {p : CartItem → Bool} {cart cart1 : List CartItem}
    (h : Script.bumpFirst p cart = some cart1) :
    cart1.map (fun ci => (ci.id, ci.orderType)) = cart.map (fun ci => (ci.id, ci.orderType)) ∧
    ∀ ci ∈ cart1, ci ∈ cart ∨ ∃ c0 ∈ cart, ci = { c0 with quantity := c0.quantity + 1 } := by
  induction cart generalizing cart1 with
  | nil => simp [Script.bumpFirst] at h
  | cons c rest ih =>
    unfold Script.bumpFirst at h
    split_ifs at h with hp
    · simp only [Option.some.injEq] at h
      subst h
      refine ⟨rfl, ?_⟩
      intro ci hci
      rcases List.mem_cons.1 hci with rfl | hmem
      · exact Or.inr ⟨c, List.mem_cons_self _ _, rfl⟩
      · exact Or.inl (List.mem_cons_of_mem _ hmem)
    · cases hb : Script.bumpFirst p rest with
      | none => simp [hb] at h
      | some rest1 =>
        rw [hb] at h
        simp only [Option.map_some', Option.some.injEq] at h
        subst h
        obtain ⟨hk, hm⟩ := ih hb
        refine ⟨by simp [hk], ?_⟩
        intro ci hci
        rcases List.mem_cons.1 hci with rfl | hmem
        · exact Or.inl (List.mem_cons_self _ _)
        · rcases hm ci hmem with h1 | ⟨c0, hc0, rfl⟩
          · exact Or.inl (List.mem_cons_of_mem _ h1)
          · exact Or.inr ⟨c0, List.mem_cons_of_mem _ hc0, rfl⟩

theorem bumpFirst_none {p : CartItem → Bool} {cart : List CartItem}
    (h : Script.bumpFirst p cart = none) : ∀ ci ∈ cart, p ci = false := by
  induction cart with
  | nil => simp
  | cons c rest ih =>
    unfold Script.bumpFirst at h
    split_ifs at h with hp
    cases hb : Script.bumpFirst p rest with
    | some rest1 => simp [hb] at h
    | none =>
      intro ci hci
      rcases List.mem_cons.1 hci with rfl | hmem
      · simpa using hp
      · exact ih hb ci hmem

theorem keys_push (cart : List CartItem) (new : CartItem)
    (hk : (cart.map (fun ci => (ci.id, ci.orderType))).Nodup)
    (hfresh : ∀ ci ∈ cart, (ci.id, ci.orderType) ≠ (new.id, new.orderType)) :
    ((cart ++ [new]).map (fun ci => (ci.id, ci.orderType))).Nodup := by
  rw [List.map_append, List.nodup_append]
  refine ⟨hk, by simp, ?_⟩
  intro k hk1 hk2
  simp only [List.map_cons, List.map_nil, List.mem_singleton] at hk2
  obtain ⟨ci, hci, rfl⟩ := List.mem_map.1 hk1
  exact hfresh ci hci hk2

/-- No call gives two entries of the cart the same item id and order type. -/
theorem applyCartOp_keys (cart : List CartItem) (op : Script.CartOp)
    (hk : (cart.map (fun ci => (ci.id, ci.orderType))).Nodup) :
    ((Script.applyCartOp cart op).map (fun ci => (ci.id, ci.orderType))).Nodup := by
  cases op with
  | addToCart item =>
    show ((Script.addToCart cart item).map _).Nodup
    unfold Script.addToCart
    cases hb : Script.bumpFirst (fun ci => ci.id == item.id) cart with
    | some cart1 =>
      simp only
      rw [(bumpFirst_some hb).1]
      exact hk
    | none =>
      simp only
      apply keys_push _ _ hk
      intro ci hci heq
      have := bumpFirst_none hb ci hci
      simp only [Prod.mk.injEq] at heq
      simp [heq.1] at this
  | addToCartWithType selectedItem selectedOrderType =>
    show ((Script.addToCartWithType cart selectedItem selectedOrderType).map _).Nodup
    unfold Script.addToCartWithType
    split
    · rename_i item type
      split_ifs
      · exact hk
      · cases hb : Script.bumpFirst
            (fun ci => ci.id == item.id && ci.orderType == some type) cart with
        | some cart1 =>
          simp only
          rw [(bumpFirst_some hb).1]
          exact hk
        | none =>
          simp only
          apply keys_push _ _ hk
          intro ci hci heq
          have := bumpFirst_none hb ci hci
          simp only [Prod.mk.injEq] at heq
          simp [heq.1, heq.2] at this
    · exact hk
  | changeQty index delta =>
    show ((Script.changeQty cart index delta).map _).Nodup
    unfold Script.changeQty
    cases hi : cart[index]? with
    | none => exact hk
    | some ci =>
      simp only
      split_ifs
      · exact hk.sublist ((List.eraseIdx_sublist cart index).map _)
      · have hset := map_set_same (fun c : CartItem => (c.id, c.orderType)) cart index ci
          { ci with quantity := ci.quantity + delta } hi rfl
        rw [hset]
        exact hk
  | removeFromCart index =>
    show ((Script.removeFromCart cart index).map _).Nodup
    unfold Script.removeFromCart Script.spliceOne
    exact hk.sublist ((List.eraseIdx_sublist cart _).map _)

/-- A property of quantities that holds of 1, is kept by adding 1 and is kept
by the deltas of `changeQty` that do not remove the entry holds after every
call. -/
theorem applyCartOp_quantities (Q : ℚ → Prop) (cart : List CartItem) (op : Script.CartOp)
    (h1 : Q 1) (hs : ∀ q, Q q → Q (q + 1))
    (hd : ∀ index delta q, op = .changeQty index delta → Q q → ¬ q + delta ≤ 0 →
      Q (q + delta))
    (hq : ∀ ci ∈ cart, Q ci.quantity) :
    ∀ ci ∈ Script.applyCartOp cart op, Q ci.quantity := by
  have hbump : ∀ (p : CartItem → Bool) (cart1 : List CartItem),
      Script.bumpFirst p cart = some cart1 → ∀ ci ∈ cart1, Q ci.quantity := by
    intro p cart1 hb ci hci
    rcases (bumpFirst_some hb).2 ci hci with h | ⟨c0, hc0, rfl⟩
    · exact hq ci h
    · exact hs _ (hq c0 hc0)
  have hpush : ∀ new : CartItem, new.quantity = 1 → ∀ ci ∈ cart ++ [new], Q ci.quantity := by
    intro new hnew ci hci
    rcases List.mem_append.1 hci with h | h
    · exact hq ci h
    · rw [List.mem_singleton.1 h, hnew]
      exact h1
  cases op with
  | addToCart item =>
    show ∀ ci ∈ Script.addToCart cart item, Q ci.quantity
    unfold Script.addToCart
    cases hb : Script.bumpFirst (fun ci => ci.id == item.id) cart with
    | some cart1 => exact hbump _ _ hb
    | none => exact hpush _ rfl
  | addToCartWithType selectedItem selectedOrderType =>
    show ∀ ci ∈ Script.addToCartWithType cart selectedItem selectedOrderType, Q ci.quantity
    unfold Script.addToCartWithType
    split
    · rename_i item type
      split_ifs
      · exact hq
      · cases hb : Script.bumpFirst
            (fun ci => ci.id == item.id && ci.orderType == some type) cart with
        | some cart1 => exact hbump _ _ hb
        | none => exact hpush _ rfl
    · exact hq
  | changeQty index delta =>
    show ∀ ci ∈ Script.changeQty cart index delta, Q ci.quantity
    unfold Script.changeQty
    cases hi : cart[index]? with
    | none => exact hq
    | some c0 =>
      simp only
      have hc0 : c0 ∈ cart := List.mem_iff_getElem?.2 ⟨index, hi⟩
      split_ifs with hle
      · intro ci hci
        exact hq ci ((List.eraseIdx_sublist cart index).subset hci)
      · intro ci hci
        rcases List.mem_or_eq_of_mem_set hci with h | rfl
        · exact hq ci h
        · exact hd index delta _ rfl (hq c0 hc0) hle
  | removeFromCart index =>
    show ∀ ci ∈ Script.removeFromCart cart index, Q ci.quantity
    unfold Script.removeFromCart Script.spliceOne
    intro ci hci
    exact hq ci ((List.eraseIdx_sublist cart _).subset hci)

theorem runCart_keys (ops : List Script.CartOp) (cart : List CartItem)
    (hk : (cart.map (fun ci => (ci.id, ci.orderType))).Nodup) :
    ((Script.runCart cart ops).map (fun ci => (ci.id, ci.orderType))).Nodup := by
  induction ops generalizing cart with
  | nil => exact hk
  | cons op rest ih => exact ih _ (applyCartOp_keys cart op hk)

theorem runCart_quantities (Q : ℚ → Prop) (ops : List Script.CartOp) (cart : List CartItem)
    (h1 : Q 1) (hs : ∀ q, Q q → Q (q + 1))
    (hd : ∀ index delta q, Script.CartOp.changeQty index delta ∈ ops → Q q →
      ¬ q + delta ≤ 0 → Q (q + delta))
    (hq : ∀ ci ∈ cart, Q ci.quantity) :
    ∀ ci ∈ Script.runCart cart ops, Q ci.quantity := by
  induction ops generalizing cart with
  | nil => exact hq
  | cons op rest ih =>
    apply ih _ (fun index delta q hmem => hd index delta q (List.mem_cons_of_mem _ hmem))
    apply applyCartOp_quantities Q cart op h1 hs _ hq
    intro index delta q hop
    exact hd index delta q (by rw [hop]; exact List.mem_cons_self _ _)

/-- C29, counterexample: from the empty cart, `addToCart` of a pizza followed
by `changeQty(0, -0.5)` leaves an entry of quantity 0.5: the function removes
an entry only when its quantity is 0 or less. -/
theorem changeQty_fractional_delta :
    Script.runCart [] [.addToCart ⟨"m1", "Pizza", 200, none⟩, .changeQty 0 (-1 / 2)]
      = [⟨"m1", "Pizza", 200, none, 1 / 2⟩] ∧
    ∃ ci ∈ Script.runCart [] [.addToCart ⟨"m1", "Pizza", 200, none⟩, .changeQty 0 (-1 / 2)],
      ci.quantity < 1 := by
  have h : Script.runCart [] [.addToCart ⟨"m1", "Pizza", 200, none⟩, .changeQty 0 (-1 / 2)]
      = [⟨"m1", "Pizza", 200, none, 1 / 2⟩] := by
    simp only [Script.runCart, List.foldl, Script.applyCartOp, Script.addToCart,
      Script.bumpFirst, List.nil_append, Script.changeQty, List.getElem?_cons_zero]
    norm_num
  refine ⟨h, ?_⟩
  rw [h]
  exact ⟨_, List.mem_singleton_self _, by norm_num⟩

/-- C29, amended: starting from the empty cart, after any sequence of
`addToCart`, `addToCartWithType`, `changeQty` and `removeFromCart`, no two
entries of the cart share the same item id and order type and every entry has
a quantity above 0; when every delta passed to `changeQty` is an integer, every
entry has a quantity of at least 1. -/
theorem runCart_invariant (ops : List Script.CartOp) :
    ((Script.runCart [] ops).map (fun ci => (ci.id, ci.orderType))).Nodup ∧
    (∀ ci ∈ Script.runCart [] ops, 0 < ci.quantity) ∧
    ((∀ index delta, Script.CartOp.changeQty index delta ∈ ops → ∃ z : ℤ, delta = z) →
      ∀ ci ∈ Script.runCart [] ops, 1 ≤ ci.quantity) := by
  refine ⟨runCart_keys ops [] List.nodup_nil, ?_, ?_⟩
  · apply runCart_quantities (fun q => 0 < q) ops [] (by norm_num)
      (fun q hq => by positivity) _ (by simp)
    intro index delta q _ _ hle
    exact not_le.1 hle
  · intro hint ci hci
    have h := runCart_quantities (fun q => ∃ n : ℕ, 1 ≤ n ∧ q = n) ops []
      ⟨1, le_refl 1, by norm_num⟩
      (fun q ⟨n, hn, hq⟩ => ⟨n + 1, by omega, by rw [hq]; push_cast; rfl⟩)
      (by
        rintro index delta q hmem ⟨n, hn, rfl⟩ hle
        obtain ⟨z, rfl⟩ := hint index delta hmem
        have hpos : (0 : ℚ) < ((n : ℤ) + z : ℤ) := by
          push_cast
          exact not_le.1 hle
        have hpos1 : 0 < (n : ℤ) + z := by exact_mod_cast hpos
        refine ⟨((n : ℤ) + z).toNat, by omega, ?_⟩
        have hcast : ((((n : ℤ) + z).toNat : ℤ) : ℚ) = (((n : ℤ) + z : ℤ) : ℚ) := by
          rw [Int.toNat_of_nonneg hpos1.le]
        rw [Int.cast_natCast] at hcast
        rw [hcast]
        push_cast
        rfl)
      (by simp) ci hci
    obtain ⟨n, hn, hq⟩ := h
    rw [hq]
    exact_mod_cast hn

/-- C29, amended, at `exampleCartOps`, whose deltas are 2 and -1: the cart ends
with the pizza alone, four times. -/
theorem runCart_invariant_witness :
    (∀ index delta, Script.CartOp.changeQty index delta ∈ exampleCartOps →
      ∃ z : ℤ, delta = z) ∧
    (∀ ci ∈ Script.runCart [] exampleCartOps, 1 ≤ ci.quantity) ∧
    ((Script.runCart [] exampleCartOps).map (fun ci => (ci.id, ci.orderType))).Nodup ∧
    (Script.runCart [] exampleCartOps).map (fun ci => ci.id) = ["m1"] := by
  have hint : ∀ index delta, Script.CartOp.changeQty index delta ∈ exampleCartOps →
      ∃ z : ℤ, delta = z := by
    intro index delta hmem
    simp only [exampleCartOps, List.mem_cons, List.mem_singleton, List.not_mem_nil, or_false,
      Script.CartOp.changeQty.injEq, false_or, reduceCtorEq] at hmem
    rcases hmem with ⟨_, rfl⟩ | ⟨_, rfl⟩
    · exact ⟨2, by norm_num⟩
    · exact ⟨-1, by norm_num⟩
  refine ⟨hint, (runCart_invariant exampleCartOps).2.2 hint,
    (runCart_invariant exampleCartOps).1, ?_⟩
  simp only [exampleCartOps, Script.runCart, List.foldl, Script.applyCartOp, Script.addToCart,
    Script.addToCartWithType, Script.bumpFirst, Script.changeQty, Script.removeFromCart,
    Script.spliceOne, truthy]
  norm_num

/-! ## Error of the binary64 operations -/

theorem abs_numAdd_sub_le (x y : ℚ) : |numAdd x y - (x + y)| ≤ |x + y| / 2 ^ 53 + 1 / 2 ^ 1075 := by
  have hpos : (0 : ℚ) ≤ |x + y| / 2 ^ 53 + 1 / 2 ^ 1075 := by positivity
  unfold numAdd
  split_ifs with hx hy
  · subst hx
    simpa using hpos
  · subst hy
    simpa using hpos
  · exact abs_toNumber_sub_le _

theorem abs_numMul_sub_le (x y : ℚ) : |numMul x y - x * y| ≤ |x * y| / 2 ^ 53 + 1 / 2 ^ 1075 :=
  abs_toNumber_sub_le _

theorem numAdd_nonneg (x y : ℚ) (hx : 0 ≤ x) (hy : 0 ≤ y) : 0 ≤ numAdd x y := by
  unfold numAdd
  split_ifs
  · exact hy
  · exact hx
  · exact toNumber_nonneg _ (by linarith)

theorem numMul_nonneg (x y : ℚ) (hx : 0 ≤ x) (hy : 0 ≤ y) : 0 ≤ numMul x y :=
  toNumber_nonneg _ (mul_nonneg hx hy)

/-- The running sum of the numbers of whole counts of hundredths stays close
to the exact sum of the counts. -/
theorem foldl_numAdd_near (cents : OrderRow → ℕ) (B : ℚ) (l : List OrderRow)
    (hc : ∀ o ∈ l, o.total_price = toNumber ((cents o : ℚ) / 100))
    (acc A0 : ℚ) (j : ℕ)
    (hacc : |acc - A0| ≤ 3 * j * (B / 2 ^ 53 + 1 / 2 ^ 1075))
    (hA0 : 0 ≤ A0) (hB : A0 + (((l.map cents).sum : ℕ) : ℚ) / 100 ≤ B)
    (hj : ((j + l.length : ℕ) : ℚ) ≤ 2 ^ 50) :
    |l.foldl (fun sum o => numAdd sum o.total_price) acc
        - (A0 + (((l.map cents).sum : ℕ) : ℚ) / 100)|
      ≤ 3 * ((j + l.length : ℕ) : ℚ) * (B / 2 ^ 53 + 1 / 2 ^ 1075) := by
  induction l generalizing acc A0 j with
  | nil => simpa using hacc
  | cons o rest ih =>
    have hsumQ : ((((o :: rest).map cents).sum : ℕ) : ℚ)
        = (cents o : ℚ) + (((rest.map cents).sum : ℕ) : ℚ) := by
      rw [List.map_cons, List.sum_cons]
      exact Nat.cast_add _ _
    have hlenQ : ((j + (o :: rest).length : ℕ) : ℚ) = (j : ℚ) + (rest.length : ℚ) + 1 := by
      rw [List.length_cons]
      push_cast
      ring
    have hlenQ1 : ((j + 1 + rest.length : ℕ) : ℚ) = (j : ℚ) + (rest.length : ℚ) + 1 := by
      push_cast
      ring
    rw [hsumQ] at hB ⊢
    rw [hlenQ] at hj ⊢
    have hR0 : (0 : ℚ) ≤ (((rest.map cents).sum : ℕ) : ℚ) := by positivity
    have hc0 : (0 : ℚ) ≤ (cents o : ℚ) := by positivity
    have hj0 : (0 : ℚ) ≤ (j : ℚ) := by positivity
    have hl0 : (0 : ℚ) ≤ (rest.length : ℚ) := by positivity
    have hB0 : 0 ≤ B := by linarith
    have hX0 : (0 : ℚ) ≤ B / 2 ^ 53 + 1 / 2 ^ 1075 := by positivity
    have hXu : B / 2 ^ 53 ≤ B / 2 ^ 53 + 1 / 2 ^ 1075 := by
      have : (0 : ℚ) ≤ 1 / 2 ^ 1075 := by positivity
      linarith
    have htau : (1 : ℚ) / 2 ^ 1075 ≤ B / 2 ^ 53 + 1 / 2 ^ 1075 := by
      have : (0 : ℚ) ≤ B / 2 ^ 53 := by positivity
      linarith
    have hv := hc o (List.mem_cons_self _ _)
    have e2 := abs_toNumber_sub_le ((cents o : ℚ) / 100)
    rw [← hv, abs_of_nonneg (by positivity : (0 : ℚ) ≤ (cents o : ℚ) / 100)] at e2
    have e1 := abs_numAdd_sub_le acc o.total_price
    have hY : (j : ℚ) * (B / 2 ^ 53 + 1 / 2 ^ 1075) ≤ 2 ^ 50 * (B / 2 ^ 53 + 1 / 2 ^ 1075) := by
      apply mul_le_mul_of_nonneg_right _ hX0
      linarith
    have hY0 : 0 ≤ (j : ℚ) * (B / 2 ^ 53 + 1 / 2 ^ 1075) := mul_nonneg hj0 hX0
    have hcB : (cents o : ℚ) / 100 ≤ B := by linarith
    have hcu : (cents o : ℚ) / 100 / 2 ^ 53 ≤ B / 2 ^ 53 :=
      div_le_div_of_nonneg_right hcB (by positivity)
    have hacc1 : |acc - A0| ≤ 3 * ((j : ℚ) * (B / 2 ^ 53 + 1 / 2 ^ 1075)) := by
      rw [← mul_assoc]
      exact hacc
    rw [abs_le] at hacc1 e2
    have hav : |acc + o.total_price|
        ≤ 3 * ((j : ℚ) * (B / 2 ^ 53 + 1 / 2 ^ 1075)) + (B / 2 ^ 53 + 1 / 2 ^ 1075) + B := by
      rw [abs_le]
      constructor <;> linarith
    have havu : |acc + o.total_price| / 2 ^ 53
        ≤ (3 * ((j : ℚ) * (B / 2 ^ 53 + 1 / 2 ^ 1075)) + (B / 2 ^ 53 + 1 / 2 ^ 1075) + B)
          / 2 ^ 53 :=
      div_le_div_of_nonneg_right hav (by positivity)
    rw [abs_le] at e1
    have key : |numAdd acc o.total_price - (A0 + (cents o : ℚ) / 100)|
        ≤ 3 * ((j + 1 : ℕ) : ℚ) * (B / 2 ^ 53 + 1 / 2 ^ 1075) := by
      rw [abs_le]
      push_cast
      constructor
      · linarith
      · linarith
    have := ih (fun o1 ho1 => hc o1 (List.mem_cons_of_mem _ ho1)) (numAdd acc o.total_price)
      (A0 + (cents o : ℚ) / 100) (j + 1) key (by positivity)
      (by linarith) (by rw [hlenQ1]; exact hj)
    rw [hlenQ1] at this
    rw [List.foldl_cons]
    have hgoal : A0 + ((cents o : ℚ) + (((rest.map cents).sum : ℕ) : ℚ)) / 100
        = A0 + (cents o : ℚ) / 100 + (((rest.map cents).sum : ℕ) : ℚ) / 100 := by
      ring
    rw [hgoal]
    exact this


theorem abs_toNumber_sub_le_small (x : ℚ) (h : |x| ≤ 4000000000) :
    |toNumber x - x| ≤ 1 / 1000000 := by
  have h1 := abs_toNumber_sub_le x
  have h2 : |x| / 2 ^ 53 ≤ 4000000000 / 2 ^ 53 := div_le_div_of_nonneg_right h (by positivity)
  have h3 : (4000000000 : ℚ) / 2 ^ 53 + 1 / 2 ^ 1075 ≤ 1 / 1000000 := by norm_num
  linarith

theorem abs_numAdd_sub_le_small (x y : ℚ) (h : |x + y| ≤ 4000000000) :
    |numAdd x y - (x + y)| ≤ 1 / 1000000 := by
  have h1 := abs_numAdd_sub_le x y
  have h2 : |x + y| / 2 ^ 53 ≤ 4000000000 / 2 ^ 53 := div_le_div_of_nonneg_right h (by positivity)
  have h3 : (4000000000 : ℚ) / 2 ^ 53 + 1 / 2 ^ 1075 ≤ 1 / 1000000 := by norm_num
  linarith

/-- The integer part of a rational that is close to `K + r / D`. -/
theorem floor_near (y D : ℚ) (K r : ℕ) (hD : 1 ≤ D) (hr : (r : ℚ) ≤ D - 1)
    (hy : |D * y - (D * K + r)| ≤ 1 / 2) :
    ⌊y⌋ = (K : ℤ) ∨ (r = 0 ∧ ⌊y⌋ + 1 = (K : ℤ)) := by
  rw [abs_le] at hy
  have hD0 : 0 < D := by linarith
  have hup : y < (K : ℚ) + 1 := by
    apply lt_of_mul_lt_mul_left _ hD0.le
    linarith
  rcases Nat.eq_zero_or_pos r with h0 | hpos
  · subst h0
    simp only [Nat.cast_zero, add_zero] at hy
    by_cases hK : (K : ℚ) ≤ y
    · left
      rw [Int.floor_eq_iff]
      exact ⟨by exact_mod_cast hK, by exact_mod_cast hup⟩
    · right
      refine ⟨rfl, ?_⟩
      have hlow : (K : ℚ) - 1 ≤ y := by
        apply le_of_mul_le_mul_left _ hD0
        linarith
      have : ⌊y⌋ = (K : ℤ) - 1 := by
        rw [Int.floor_eq_iff]
        push_cast
        constructor
        · linarith
        · linarith
      omega
  · left
    have hr1 : (1 : ℚ) ≤ r := by exact_mod_cast hpos
    have hlow : (K : ℚ) ≤ y := by
      apply le_of_mul_le_mul_left _ hD0
      linarith
    rw [Int.floor_eq_iff]
    exact ⟨by exact_mod_cast hlow, by exact_mod_cast hup⟩

theorem toFixed2_floor (x : ℚ) (h0 : 0 ≤ x) (hlt : x < 1000000000000000000000) :
    toFixed2 x = toNumber (((⌊x * 100 + 1 / 2⌋ : ℤ) : ℚ) / 100) := by
  unfold toFixed2
  rw [if_neg (by rintro (h | h) <;> linarith), if_neg (by linarith)]

/-- The count of hundredths that `toFixed2` picks for a number `p` with
`100 p + 1/2` close to `K + r / D`: it is `K`, or one less when `r` is 0. -/
theorem toFixed2_near_ratio (p D : ℚ) (K r : ℕ) (hD : 1 ≤ D) (hr : (r : ℚ) ≤ D - 1)
    (h0 : 0 ≤ p) (hlt : p < 1000000000000000000000)
    (hp : |D * (p * 100 + 1 / 2) - (D * K + r)| ≤ 1 / 2) :
    ∃ a : ℕ, toFixed2 p = toNumber ((a : ℚ) / 100) ∧ (a = K ∨ (r = 0 ∧ a + 1 = K)) := by
  have hfl : 0 ≤ ⌊p * 100 + 1 / 2⌋ := Int.floor_nonneg.2 (by linarith)
  have hcast : ((⌊p * 100 + 1 / 2⌋.toNat : ℕ) : ℤ) = ⌊p * 100 + 1 / 2⌋ := Int.toNat_of_nonneg hfl
  refine ⟨⌊p * 100 + 1 / 2⌋.toNat, ?_, ?_⟩
  · rw [toFixed2_floor p h0 hlt]
    congr 2
    exact_mod_cast hcast.symm
  · rcases floor_near (p * 100 + 1 / 2) D K r hD hr hp with h | ⟨h1, h2⟩
    · left
      omega
    · right
      exact ⟨h1, by omega⟩

/-- The totals computed from a subtotal `s` that is within 1/2000 of `N`
hundredths: the tax is the number of `a` hundredths and the service charge the
number of `b` hundredths, where `a` is 5% of `N` rounded half up, or one less
when 5% of `N` lies half way between two integers, and likewise `b` for 10%;
the grand total is the number of `N + a + b` hundredths. -/
theorem totals_near (s : ℚ) (N : ℕ) (hN : N ≤ 100000000000) (hs0 : 0 ≤ s)
    (hs : |s - (N : ℚ) / 100| ≤ 1 / 2000) :
    ∃ a b : ℕ,
      toFixed2 (numMul s TAX_RATE) = toNumber ((a : ℚ) / 100) ∧
      toFixed2 (numMul s SERVICE_RATE) = toNumber ((b : ℚ) / 100) ∧
      toFixed2 (numAdd (numAdd s (toNumber ((a : ℚ) / 100))) (toNumber ((b : ℚ) / 100)))
        = toNumber (((N + a + b : ℕ) : ℚ) / 100) ∧
      (a = (N + 10) / 20 ∨ ((N + 10) % 20 = 0 ∧ a + 1 = (N + 10) / 20)) ∧
      (b = (N + 5) / 10 ∨ ((N + 5) % 10 = 0 ∧ b + 1 = (N + 5) / 10)) := by
  have hNq : (N : ℚ) ≤ 100000000000 := by exact_mod_cast hN
  have hN0 : (0 : ℚ) ≤ (N : ℚ) := by positivity
  rw [abs_le] at hs
  have hsu : s ≤ 1000000001 := by linarith
  -- the tax
  have hP0 : 0 ≤ numMul s TAX_RATE :=
    numMul_nonneg _ _ hs0 (by rw [TAX_RATE_eq]; norm_num)
  have hPe : |numMul s TAX_RATE - s * TAX_RATE| ≤ 1 / 1000000 := by
    apply abs_toNumber_sub_le_small
    rw [TAX_RATE_eq, abs_of_nonneg (by positivity)]
    linarith
  rw [TAX_RATE_eq, abs_le] at hPe
  rw [TAX_RATE_eq] at hP0
  have hdiv20 : ((20 * ((N + 10) / 20) + (N + 10) % 20 : ℕ) : ℚ) = (N : ℚ) + 10 := by
    rw [Nat.div_add_mod]
    push_cast
    ring
  push_cast at hdiv20
  have hr20 : (((N + 10) % 20 : ℕ) : ℚ) ≤ 20 - 1 := by
    have : (N + 10) % 20 < 20 := Nat.mod_lt _ (by norm_num)
    have h19 : (N + 10) % 20 ≤ 19 := by omega
    have : (((N + 10) % 20 : ℕ) : ℚ) ≤ 19 := by exact_mod_cast h19
    linarith
  obtain ⟨a, ha, hacase⟩ := toFixed2_near_ratio
    (numMul s (3602879701896397 / 72057594037927936)) 20 ((N + 10) / 20) ((N + 10) % 20)
    (by norm_num) hr20 hP0 (by linarith)
    (by
      rw [abs_le]
      constructor <;> linarith)
  -- the service charge
  have hQ0 : 0 ≤ numMul s SERVICE_RATE :=
    numMul_nonneg _ _ hs0 (by rw [SERVICE_RATE_eq]; norm_num)
  have hQe : |numMul s SERVICE_RATE - s * SERVICE_RATE| ≤ 1 / 1000000 := by
    apply abs_toNumber_sub_le_small
    rw [SERVICE_RATE_eq, abs_of_nonneg (by positivity)]
    linarith
  rw [SERVICE_RATE_eq, abs_le] at hQe
  rw [SERVICE_RATE_eq] at hQ0
  have hdiv10 : ((10 * ((N + 5) / 10) + (N + 5) % 10 : ℕ) : ℚ) = (N : ℚ) + 5 := by
    rw [Nat.div_add_mod]
    push_cast
    ring
  push_cast at hdiv10
  have hr10 : (((N + 5) % 10 : ℕ) : ℚ) ≤ 10 - 1 := by
    have : (N + 5) % 10 < 10 := Nat.mod_lt _ (by norm_num)
    have h9 : (N + 5) % 10 ≤ 9 := by omega
    have : (((N + 5) % 10 : ℕ) : ℚ) ≤ 9 := by exact_mod_cast h9
    linarith
  obtain ⟨b, hb, hbcase⟩ := toFixed2_near_ratio
    (numMul s (3602879701896397 / 36028797018963968)) 10 ((N + 5) / 10) ((N + 5) % 10)
    (by norm_num) hr10 hQ0 (by linarith)
    (by
      rw [abs_le]
      constructor <;> linarith)
  refine ⟨a, b, by rw [TAX_RATE_eq]; exact ha, by rw [SERVICE_RATE_eq]; exact hb, ?_, hacase,
    hbcase⟩
  -- the grand total
  have haK : a ≤ (N + 10) / 20 := by
    rcases hacase with h | ⟨_, h⟩ <;> omega
  have hbK : b ≤ (N + 5) / 10 := by
    rcases hbcase with h | ⟨_, h⟩ <;> omega
  have haN : a ≤ N + 10 := le_trans haK (Nat.div_le_self _ _)
  have hbN : b ≤ N + 5 := le_trans hbK (Nat.div_le_self _ _)
  have haq : (a : ℚ) ≤ (N : ℚ) + 10 := by exact_mod_cast haN
  have hbq : (b : ℚ) ≤ (N : ℚ) + 5 := by exact_mod_cast hbN
  have ha0 : (0 : ℚ) ≤ (a : ℚ) := by positivity
  have hb0 : (0 : ℚ) ≤ (b : ℚ) := by positivity
  have hta0 : 0 ≤ toNumber ((a : ℚ) / 100) := toNumber_nonneg _ (by positivity)
  have hsv0 : 0 ≤ toNumber ((b : ℚ) / 100) := toNumber_nonneg _ (by positivity)
  have hta : |toNumber ((a : ℚ) / 100) - (a : ℚ) / 100| ≤ 1 / 1000000 := by
    apply abs_toNumber_sub_le_small
    rw [abs_of_nonneg (by positivity)]
    linarith
  have hsv : |toNumber ((b : ℚ) / 100) - (b : ℚ) / 100| ≤ 1 / 1000000 := by
    apply abs_toNumber_sub_le_small
    rw [abs_of_nonneg (by positivity)]
    linarith
  rw [abs_le] at hta hsv
  have hS10 : 0 ≤ numAdd s (toNumber ((a : ℚ) / 100)) := numAdd_nonneg _ _ hs0 hta0
  have hS1 : |numAdd s (toNumber ((a : ℚ) / 100)) - (s + toNumber ((a : ℚ) / 100))|
      ≤ 1 / 1000000 := by
    apply abs_numAdd_sub_le_small
    rw [abs_of_nonneg (by linarith)]
    linarith
  rw [abs_le] at hS1
  have hS20 : 0 ≤ numAdd (numAdd s (toNumber ((a : ℚ) / 100))) (toNumber ((b : ℚ) / 100)) :=
    numAdd_nonneg _ _ hS10 hsv0
  have hS2 : |numAdd (numAdd s (toNumber ((a : ℚ) / 100))) (toNumber ((b : ℚ) / 100))
        - (numAdd s (toNumber ((a : ℚ) / 100)) + toNumber ((b : ℚ) / 100))|
      ≤ 1 / 1000000 := by
    apply abs_numAdd_sub_le_small
    rw [abs_of_nonneg (by linarith)]
    linarith
  rw [abs_le] at hS2
  rw [toFixed2_floor _ hS20 (by linarith)]
  have hfloor : ⌊numAdd (numAdd s (toNumber ((a : ℚ) / 100))) (toNumber ((b : ℚ) / 100)) * 100
      + 1 / 2⌋ = ((N + a + b : ℕ) : ℤ) := by
    rw [Int.floor_eq_iff]
    push_cast
    constructor <;> linarith
  rw [hfloor, Int.cast_natCast]

theorem foldl_numAdd_nonneg (l : List OrderRow) (acc : ℚ) (hacc : 0 ≤ acc)
    (h : ∀ o ∈ l, 0 ≤ o.total_price) :
    0 ≤ l.foldl (fun sum o => numAdd sum o.total_price) acc := by
  induction l generalizing acc with
  | nil => exact hacc
  | cons o rest ih =>
    rw [List.foldl_cons]
    exact ih _ (numAdd_nonneg _ _ hacc (h o (List.mem_cons_self _ _)))
      (fun o1 ho1 => h o1 (List.mem_cons_of_mem _ ho1))

/-! ## Whole hundredths on a bill (C28) -/

/-- C28, counterexample: the bill of a single order of 0.30 has tax 0.01, while
0.30 times 0.05 is 0.015 and half-up rounding on hundredths gives 0.02; and
its grand total 0.34 is neither the exact sum of the stored subtotal, tax and
service nor their sum as binary64 numbers, which is the number just below
0.34. -/
theorem createBill_tax_below_half_up :
    ∃ bill, (createBill thirtyCentsDb (some "1") exampleClock).body = .json bill ∧
      bill.totals = { subtotal := toNumber (3 / 10), tax := toNumber (1 / 100),
                      service := toNumber (3 / 100), grandTotal := toNumber (34 / 100) } ∧
      ⌊(3 / 10 : ℚ) * (5 / 100) * 100 + 1 / 2⌋ = 2 ∧
      toNumber (1 / 100) ≠ toNumber (2 / 100) ∧
      bill.totals.grandTotal
        ≠ bill.totals.subtotal + bill.totals.tax + bill.totals.service ∧
      bill.totals.grandTotal
        ≠ numAdd (numAdd bill.totals.subtotal bill.totals.tax) bill.totals.service := by
  refine ⟨_, rfl, ?_⟩
  have hT : (buildBill (normalizeTable "1")
        (ordersOfTable thirtyCentsDb.orders (normalizeTable "1")) exampleClock).totals
      = { subtotal := toNumber (3 / 10), tax := toNumber (1 / 100),
          service := toNumber (3 / 100), grandTotal := toNumber (34 / 100) } := by
    have hn : normalizeTable "1" = "Table 1" := by decide
    have hs : subtotalOf (ordersOfTable thirtyCentsDb.orders (normalizeTable "1"))
        = toNumber (3 / 10) := by
      rw [subtotalOf_eq_foldl, hn]
      simp [ordersOfTable, thirtyCentsDb, numAdd]
    exact computeTotals_at_thirty_cents _ hs
  have h30 : toNumber (3 / 10) = 5404319552844595 / 18014398509481984 := by
    have := toNumber_cents_30
    norm_num at this ⊢
    exact this
  refine ⟨hT, by norm_num [Int.floor_eq_iff], ?_, ?_, ?_⟩
  · rw [toNumber_cents_1, toNumber_cents_2]
    norm_num
  · rw [hT]
    simp only
    rw [h30, toNumber_cents_1, toNumber_cents_3, toNumber_cents_34]
    norm_num
  · rw [hT]
    simp only
    rw [h30, toNumber_cents_1, toNumber_cents_3, toNumber_cents_34]
    have hS1 : numAdd (5404319552844595 / 18014398509481984)
        (5764607523034235 / 576460752303423488)
        = 5584463537939415 / 18014398509481984 := by
      rw [numAdd, if_neg (by norm_num), if_neg (by norm_num)]
      exact toNumber_eval _ _ (-2) 5584463537939415 (by norm_num) (by norm_num) (by norm_num)
        (by norm_num [abs_lt]) (by norm_num)
    have hS2 : numAdd (5584463537939415 / 18014398509481984)
        (1080863910568919 / 36028797018963968)
        = 3062447746611937 / 9007199254740992 := by
      rw [numAdd, if_neg (by norm_num), if_neg (by norm_num)]
      exact toNumber_eval_tie _ _ (-2) 6124895493223874 (by norm_num) (by norm_num)
        (by norm_num) (Or.inl (by norm_num)) (by norm_num) (by norm_num)
    rw [hS1, hS2]
    norm_num

/-- C28, amended: when the total price of every order of the table is the
number of a whole count of hundredths that is not negative, with at most 1000
orders and at most `10^11` hundredths in all, the bill of a successful
`createBill` has a subtotal within 1/2000 of the exact count `N` of
hundredths, the tax is the number of `a` hundredths and the service charge the
number of `b` hundredths, where `a` is 5% of `N` rounded half up, or one less
when 5% of `N` lies half way between two integers, and `b` likewise for 10% of
`N`; and the grand total is the number of `N + a + b` hundredths. -/
theorem createBill_cents (db : Db) (raw : String) (clk : BillClock) (bill : Bill)
    (cents : OrderRow → ℕ)
    (h : (createBill db (some raw) clk).body = .json bill)
    (hc : ∀ o ∈ db.orders, o.table_name = normalizeTable raw →
      o.total_price = toNumber ((cents o : ℚ) / 100))
    (hlen : (ordersOfTable db.orders (normalizeTable raw)).length ≤ 1000)
    (hN : ((ordersOfTable db.orders (normalizeTable raw)).map cents).sum ≤ 100000000000) :
    ∃ a b : ℕ,
      |bill.totals.subtotal
        - ((((ordersOfTable db.orders (normalizeTable raw)).map cents).sum : ℕ) : ℚ) / 100|
        ≤ 1 / 2000 ∧
      bill.totals.tax = toNumber ((a : ℚ) / 100) ∧
      bill.totals.service = toNumber ((b : ℚ) / 100) ∧
      bill.totals.grandTotal
        = toNumber (((((ordersOfTable db.orders (normalizeTable raw)).map cents).sum + a + b
            : ℕ) : ℚ) / 100) ∧
      (a = (((ordersOfTable db.orders (normalizeTable raw)).map cents).sum + 10) / 20 ∨
        ((((ordersOfTable db.orders (normalizeTable raw)).map cents).sum + 10) % 20 = 0 ∧
          a + 1 = (((ordersOfTable db.orders (normalizeTable raw)).map cents).sum + 10) / 20)) ∧
      (b = (((ordersOfTable db.orders (normalizeTable raw)).map cents).sum + 5) / 10 ∨
        ((((ordersOfTable db.orders (normalizeTable raw)).map cents).sum + 5) % 10 = 0 ∧
          b + 1 = (((ordersOfTable db.orders (normalizeTable raw)).map cents).sum + 5) / 10)) := by
  obtain ⟨raw1, hraw, hbill⟩ := createBill_json db (some raw) clk bill h
  cases hraw
  subst hbill
  have hmem : ∀ o ∈ ordersOfTable db.orders (normalizeTable raw),
      o.total_price = toNumber ((cents o : ℚ) / 100) := by
    intro o ho
    unfold ordersOfTable at ho
    rw [List.mem_filter] at ho
    exact hc o ho.1 (by simpa using ho.2)
  generalize ordersOfTable db.orders (normalizeTable raw) = l at hmem hlen hN ⊢
  have hNq : (((l.map cents).sum : ℕ) : ℚ) ≤ 100000000000 := by exact_mod_cast hN
  have hN0 : (0 : ℚ) ≤ (((l.map cents).sum : ℕ) : ℚ) := by positivity
  have hlenq : ((0 + l.length : ℕ) : ℚ) ≤ 1000 := by
    rw [Nat.zero_add]
    exact_mod_cast hlen
  have hlen0 : (0 : ℚ) ≤ ((0 + l.length : ℕ) : ℚ) := by positivity
  have hs0 : 0 ≤ subtotalOf l := by
    rw [subtotalOf_eq_foldl]
    apply foldl_numAdd_nonneg _ _ (le_refl 0)
    intro o ho
    rw [hmem o ho]
    exact toNumber_nonneg _ (by positivity)
  have hnear := foldl_numAdd_near cents ((((l.map cents).sum : ℕ) : ℚ) / 100) l hmem 0 0 0
    (by simp) (le_refl 0) (by simp) (by linarith)
  rw [zero_add, ← subtotalOf_eq_foldl] at hnear
  have hX0 : (0 : ℚ) ≤ (((l.map cents).sum : ℕ) : ℚ) / 100 / 2 ^ 53 + 1 / 2 ^ 1075 := by
    positivity
  have hXle : (((l.map cents).sum : ℕ) : ℚ) / 100 / 2 ^ 53 + 1 / 2 ^ 1075
      ≤ 1000000000 / 2 ^ 53 + 1 / 2 ^ 1075 := by
    have : (((l.map cents).sum : ℕ) : ℚ) / 100 / 2 ^ 53 ≤ 1000000000 / 2 ^ 53 := by
      apply div_le_div_of_nonneg_right _ (by positivity)
      linarith
    linarith
  have hprod : 3 * ((0 + l.length : ℕ) : ℚ)
        * ((((l.map cents).sum : ℕ) : ℚ) / 100 / 2 ^ 53 + 1 / 2 ^ 1075)
      ≤ 3 * 1000 * (1000000000 / 2 ^ 53 + 1 / 2 ^ 1075) := by
    apply mul_le_mul _ hXle hX0 (by norm_num)
    linarith
  have hsmall : (3 : ℚ) * 1000 * (1000000000 / 2 ^ 53 + 1 / 2 ^ 1075) ≤ 1 / 2000 := by
    norm_num
  have hs : |subtotalOf l - (((l.map cents).sum : ℕ) : ℚ) / 100| ≤ 1 / 2000 := by
    linarith
  obtain ⟨a, b, ha, hb, hg, hacase, hbcase⟩ := totals_near (subtotalOf l) _ hN hs0 hs
  refine ⟨a, b, hs, ha, hb, ?_, hacase, hbcase⟩
  show toFixed2 (numAdd (numAdd (subtotalOf l) (toFixed2 (numMul (subtotalOf l) TAX_RATE)))
    (toFixed2 (numMul (subtotalOf l) SERVICE_RATE))) = _
  rw [ha, hb, hg]

/-- C28, amended, at the two orders of table 3, of 10000 hundredths each: the
tax is the number of 1000 hundredths, the service charge the number of 2000
hundredths, and the grand total the number of 23000 hundredths. -/
theorem createBill_cents_witness :
    ∃ (bill : Bill) (a b : ℕ),
      (createBill exampleDb (some "3") exampleClock).body = .json bill ∧
      a = 1000 ∧ b = 2000 ∧
      bill.totals.tax = toNumber ((a : ℚ) / 100) ∧
      bill.totals.service = toNumber ((b : ℚ) / 100) ∧
      bill.totals.grandTotal = toNumber (((20000 + a + b : ℕ) : ℚ) / 100) := by
  have h100 : toNumber 100 = 100 :=
    toNumber_eval _ _ 6 7036874417766400 (by norm_num) (by norm_num) (by norm_num)
      (by norm_num [abs_lt]) (by norm_num)
  have hN : ((ordersOfTable exampleDb.orders (normalizeTable "3")).map
      (fun _ => 10000)).sum = 20000 := by decide
  obtain ⟨a, b, _, ha, hb, hg, hacase, hbcase⟩ :=
    createBill_cents exampleDb "3" exampleClock _ (fun _ => 10000) rfl
      (by
        intro o ho ht
        show o.total_price = toNumber (((10000 : ℕ) : ℚ) / 100)
        rw [show (((10000 : ℕ) : ℚ) / 100) = 100 by norm_num, h100]
        simp only [exampleDb, exampleOrders, List.mem_cons, List.mem_singleton,
          List.not_mem_nil, or_false] at ho
        rcases ho with rfl | rfl | rfl
        · rfl
        · exact absurd ht (by decide)
        · rfl)
      (by decide)
      (by rw [hN]; norm_num)
  rw [hN] at hg hacase hbcase
  refine ⟨_, a, b, rfl, ?_, ?_, ha, hb, hg⟩
  · rcases hacase with h | ⟨h, _⟩
    · omega
    · exact absurd h (by decide)
  · rcases hbcase with h | ⟨h, _⟩
    · omega
    · exact absurd h (by decide)

end Scanformenu
